import Mathlib

/-!
RZrecovery: the recovery control core of `recovery.c`.

A shallow embedding of the argument resolution (`get_args`), the log archiving
(`copy_log_file`, `finish_recovery`), the volume erasure bookkeeping
(`erase_volume`) and the dispatch in `main`, with the properties of the
specification stated over them.

Text is a list of characters, one per byte. A C string is the run of characters
before the first NUL of the buffer that holds it.
-/

namespace Recovery

/-! ## C strings and the libc routines the program calls -/

/-- The terminating byte of a C string. -/
def NUL : Char := Char.ofNat 0

/-- The C string held in a buffer: the bytes before its first NUL. -/
def cstr (buf : List Char) : List Char :=
  buf.takeWhile (fun c => c != NUL)

/-- Number of bytes of the string in `buf`, looking at no more than `n` bytes
(`strnlen`). -/
def strnlen (buf : List Char) (n : Nat) : Nat :=
  (cstr (buf.take n)).length

/-- The libc `strlcpy (dst, src, siz)`: at most `siz - 1` bytes of the string
`src` are copied to the front of `dst` and a NUL is written after them; the
bytes of `dst` behind that NUL stay as they were. -/
def strlcpy (dst src : List Char) (siz : Nat) : List Char :=
  if siz = 0 then dst
  else
    let n := min (cstr src).length (siz - 1)
    (cstr src).take n ++ NUL :: dst.drop (n + 1)

/-- The libc `strlcat (dst, src, siz)`: the string `src` is appended to the
string in `dst` as far as `siz - 1` bytes in all allow, and the result is
terminated; a `dst` without terminator in its first `siz` bytes is left alone. -/
def strlcat (dst src : List Char) (siz : Nat) : List Char :=
  let dlen := strnlen dst siz
  if siz - dlen = 0 then dst
  else
    let n := min (cstr src).length (siz - dlen - 1)
    dst.take dlen ++ (cstr src).take n ++ NUL :: dst.drop (dlen + n + 1)

/-- Membership of a byte in the delimiter set of `strtok`. -/
def isDelim (delim : List Char) (c : Char) : Bool :=
  delim.contains c

/-- A byte that belongs to a token: neither the terminator nor a delimiter. -/
def isTokenChar (delim : List Char) (c : Char) : Bool :=
  c != NUL && !isDelim delim c

/-- The result of one `strtok` call: the token returned (`none` is the NULL
pointer), the bytes the call has walked over as it leaves them in the buffer
(the delimiter that closed the token overwritten by a NUL), and the text at the
position saved for the next call. -/
structure StrtokResult where
  token : Option (List Char)
  passed : List Char
  rest : List Char
deriving DecidableEq

/-- One call of the libc `strtok` on the text `s` at the current position:
leading delimiters are skipped, the token runs to the next delimiter or to the
terminator, and a closing delimiter is overwritten by NUL. The end of the list
reads as a terminator. -/
def strtok (delim : List Char) (s : List Char) : StrtokResult :=
  let skipped := s.takeWhile (isDelim delim)
  let s1 := s.dropWhile (isDelim delim)
  match s1 with
  | [] => ⟨none, skipped, []⟩
  | c :: _ =>
    if c = NUL then ⟨none, skipped, s1⟩
    else
      let tok := s1.takeWhile (isTokenChar delim)
      match s1.dropWhile (isTokenChar delim) with
      | [] => ⟨some tok, skipped ++ tok, []⟩
      | d :: after =>
        if d = NUL then ⟨some tok, skipped ++ tok, d :: after⟩
        else ⟨some tok, skipped ++ tok ++ [NUL], after⟩

/-- The bytes one `fgets` call takes from the stream when `k` bytes of room are
left: up to `k` bytes, ending after the first newline. -/
def read_line : Nat → List Char → List Char
  | 0, _ => []
  | _ + 1, [] => []
  | k + 1, c :: cs => if c = '\n' then [c] else c :: read_line k cs

/-- The libc `fgets (buf, size, fp)` on a stream whose unread bytes are `s`:
`none` at end of file, else the bytes stored in `buf` (at most `size - 1`, a
newline ends them) and the bytes left unread. -/
def fgets (size : Nat) (s : List Char) : Option (List Char × List Char) :=
  match s with
  | [] => none
  | _ :: _ =>
    let line := read_line (size - 1) s
    some (line, s.drop line.length)

/-- The libc `fputs (buf, fp)`: the string in `buf` is written, that is the
bytes before its first NUL. -/
def fputs (buf : List Char) (file : List Char) : List Char :=
  file ++ cstr buf

/-! ## The bootloader control block -/

/-- The sizes of the three character arrays of `struct bootloader_message`.
The structure is declared in `bootloader.h`, which is not among the sources:
the sizes are parameters of the model. -/
structure Layout where
  command_size : Nat
  status_size : Nat
  recovery_size : Nat
deriving DecidableEq

/-- The record `struct bootloader_message`: each field is the content of its
character array. -/
structure bootloader_message where
  command : List Char
  status : List Char
  recovery : List Char
deriving DecidableEq

/-- The record after `memset (&boot, 0, sizeof (boot))`. -/
def zero_message (L : Layout) : bootloader_message :=
  ⟨List.replicate L.command_size NUL, List.replicate L.status_size NUL,
   List.replicate L.recovery_size NUL⟩

/-! ## Argument resolution: `get_args` -/

/-- The constant `MAX_ARG_LENGTH`. -/
def MAX_ARG_LENGTH : Nat := 4096

/-- The constant `MAX_ARGS`. -/
def MAX_ARGS : Nat := 100

/-- The outcome of the token loop over `boot.recovery`: the tokens read and the
buffer as `strtok` leaves it. -/
structure TokenScan where
  tokens : List (List Char)
  buffer : List Char
deriving DecidableEq

/-- The loop `for (*argc = 1; *argc < MAX_ARGS; ++*argc)` over the block: each
round asks `strtok (NULL, "\n")` for the next token and stops at the first NULL;
`n` is the number of rounds left. -/
def boot_tokens : Nat → List Char → TokenScan
  | 0, s => ⟨[], s⟩
  | n + 1, s =>
    let r := strtok ['\n'] s
    match r.token with
    | none => ⟨[], r.passed ++ r.rest⟩
    | some tok =>
      let t := boot_tokens n r.rest
      ⟨tok :: t.tokens, r.passed ++ t.buffer⟩

/-- The loop over the command file: each round reads one line with `fgets` into
a buffer of `MAX_ARG_LENGTH` bytes and stores `strdup (strtok (buf, "\r\n"))`;
`n` is the number of rounds left. A line without a token makes `strtok` return
NULL, which `strdup` dereferences: the fault is the result `none`. -/
def command_file_args : Nat → List Char → Option (List (List Char))
  | 0, _ => some []
  | n + 1, s =>
    match fgets MAX_ARG_LENGTH s with
    | none => some []
    | some (buf, unread) =>
      match (strtok ['\r', '\n'] buf).token with
      | none => none
      | some tok => (command_file_args n unread).map (fun l => tok :: l)

/-- The loop `for (i = 1; i < *argc; ++i)` that appends each argument and a
newline to `boot.recovery`. -/
def append_args (siz : Nat) (recovery : List Char) : List (List Char) → List Char
  | [] => recovery
  | a :: as => append_args siz (strlcat (strlcat recovery a siz) ['\n'] siz) as

/-- What `get_args` leaves behind: the argument vector `argv` (its length is
`argc`) and the record it hands to `set_bootloader_message`. -/
structure ArgsResult where
  argv : List (List Char)
  saved : bootloader_message
deriving DecidableEq

/-- First part of `get_args`, "if arguments weren't supplied, look in the
bootloader control block": the argument vector and the bytes of `boot.recovery`
after it. With `argc <= 1` the last byte of `boot.recovery` is set to NUL and
the block is cut into tokens at newlines; when the first token is `recovery`,
the vector becomes that token followed by up to `MAX_ARGS - 1` further tokens. -/
def args_from_boot (L : Layout) (boot : bootloader_message) (argv : List (List Char)) :
    List (List Char) × List Char :=
  if argv.length ≤ 1 then
    let terminated := boot.recovery.set (L.recovery_size - 1) NUL
    let first := strtok ['\n'] terminated
    if first.token = some "recovery".toList then
      let t := boot_tokens (MAX_ARGS - 1) first.rest
      ("recovery".toList :: t.tokens, first.passed ++ t.buffer)
    else (argv, first.passed ++ first.rest)
  else (argv, boot.recovery)

/-- Second part of `get_args`, "if that doesn't work, try the command file":
with `argc <= 1` still and a command file that opens, the vector becomes the
program name it has followed by one argument per line read. -/
def args_from_command_file (command_file : Option (List Char)) (argv : List (List Char)) :
    Option (List (List Char)) :=
  if argv.length ≤ 1 then
    match command_file with
    | none => some argv
    | some content =>
      (command_file_args (MAX_ARGS - 1) content).map (fun l => argv.headD [] :: l)
  else some argv

/-- Last part of `get_args`, "write the arguments we have back into the
bootloader control block": the record handed to `set_bootloader_message`. -/
def write_back (L : Layout) (boot : bootloader_message) (recovery : List Char)
    (argv : List (List Char)) : bootloader_message :=
  ⟨strlcpy boot.command "boot-recovery".toList L.command_size, boot.status,
   append_args L.recovery_size (strlcpy recovery "recovery\n".toList L.recovery_size) argv.tail⟩

/-- The function `get_args (&argc, &argv)`.

* `boot` is the record after `get_bootloader_message` (all NUL when the read
  failed);
* `command_file` is what `fopen_path (COMMAND_FILE, "r")` gives: `none` for a
  NULL stream, else the bytes of the file;
* `argv` is the vector of the process, `argv.length` its `argc`. `main` has read
  `argv[0]` before the call, so the vector is not empty; the program name of an
  empty vector is taken as the empty string.

The result is `none` when the command file loop faults. The diagnostics the
function prints do not enter the result. -/
def get_args (L : Layout) (boot : bootloader_message) (command_file : Option (List Char))
    (argv : List (List Char)) : Option ArgsResult :=
  let fromBoot := args_from_boot L boot argv
  (args_from_command_file command_file fromBoot.1).map fun args =>
    ⟨args, write_back L boot fromBoot.2 args⟩

/-! ## Notions used in the statements about `get_args` -/

/-- The lines `a ++ "\n"` of a list of arguments, one after the other. -/
def arg_lines : List (List Char) → List Char
  | [] => []
  | a :: as => a ++ '\n' :: arg_lines as

/-- First line of a text: the bytes before its first newline. -/
def first_line (s : List Char) : List Char :=
  s.takeWhile (fun c => c != '\n')

/-- An argument vector of C strings: no argument holds a NUL. -/
def WellFormedArgs (argv : List (List Char)) : Prop :=
  ∀ a ∈ argv, NUL ∉ a

/-- An argument that the block can carry: not empty, without NUL and without newline. -/
def Storable (a : List Char) : Prop :=
  a ≠ [] ∧ NUL ∉ a ∧ '\n' ∉ a

/-- The arguments the block holds, as the first part of `get_args` reads them: `none` when
the first token of `boot.recovery` is not `recovery`, else the tokens after it (at most
`MAX_ARGS - 1`). -/
def boot_args (L : Layout) (boot : bootloader_message) : Option (List (List Char)) :=
  let first := strtok ['\n'] (boot.recovery.set (L.recovery_size - 1) NUL)
  if first.token = some "recovery".toList then
    some (boot_tokens (MAX_ARGS - 1) first.rest).tokens
  else none

/-- The precedence of the three sources, stated apart from `get_args`: the process
arguments when there are any beyond the program name; else the tokens of the block when its
first token is `recovery` and at least one token follows; else the lines of the command
file, behind the program name in force (`recovery` when the block started with it); else,
when the command file does not open, the vector as it stands. -/
def resolved_args (L : Layout) (boot : bootloader_message) (command_file : Option (List Char))
    (argv : List (List Char)) : Option (List (List Char)) :=
  if 1 < argv.length then some argv
  else
    match boot_args L boot, command_file with
    | some (t :: ts), _ => some ("recovery".toList :: t :: ts)
    | some [], some content =>
      (command_file_args (MAX_ARGS - 1) content).map (fun l => "recovery".toList :: l)
    | some [], none => some ["recovery".toList]
    | none, some content =>
      (command_file_args (MAX_ARGS - 1) content).map (fun l => argv.headD [] :: l)
    | none, none => some argv

/-- The text `join (xs, sep)` of the specification: the elements of `xs` with `sep` between
each two of them. -/
def join (sep : List Char) : List (List Char) → List Char
  | [] => []
  | [a] => a
  | a :: b :: as => a ++ sep ++ join sep (b :: as)

/-- The value the specification gives for the rewritten `recovery` field:
`"recovery\n" + join (args[1:], "\n") + "\n"`. -/
def spec_recovery (args : List (List Char)) : List Char :=
  "recovery\n".toList ++ join ['\n'] args.tail ++ ['\n']

/-! ## Log archiving: `copy_log_file` and `finish_recovery` -/

/-- The path `COMMAND_FILE`. -/
def COMMAND_FILE : String := "/cache/recovery/command"

/-- The path `INTENT_FILE`. -/
def INTENT_FILE : String := "/cache/recovery/intent"

/-- The path `LOG_FILE`. -/
def LOG_FILE : String := "/cache/recovery/log"

/-- The path `LAST_LOG_FILE`. -/
def LAST_LOG_FILE : String := "/cache/recovery/last_log"

/-- The path `TEMPORARY_LOG_FILE`. -/
def TEMPORARY_LOG_FILE : String := "/tmp/recovery.log"

/-- What the program does not decide itself: the answers of the collaborators declared in
the headers that are not among the sources (`roots.h`, `common.h`, `install.h`,
`recovery_ui.h`, `encryptedfs_provisioning.h`) and of the C library.

* `ensure_path_mounted p` is the value of that call for the path `p` (0 is success);
* `fopen p` is 0 when `fopen (p, mode)` with a mode for writing gives a stream for the
  path `p`, once mounted, and the `errno` it leaves when it returns NULL;
* `unlink p` is 0 when `unlink (p)` succeeds or fails with `ENOENT`, and the `errno` it
  leaves when it fails for another reason;
* `LOGE m`, `LOGW m` are the bytes the diagnostic macros send to `stdout` for the message
  `m`; `main` has redirected `stdout` to the temporary log in append mode;
* `format_volume v`, `device_wipe_data`, `install_package p`, `restore_encrypted_fs_info`
  are the values those calls return;
* `read_encrypted_fs_info m` is the value that call returns and the `mode` it leaves in
  `encrypted_fs_data`, given the `mode` it finds there;
* `uninitialized_mode` is the content of `encrypted_fs_data.mode` before `main` assigns it;
* `malloc n` is the content of a fresh block of `n` bytes. -/
structure Env where
  ensure_path_mounted : String → Int
  fopen : String → Int
  unlink : String → Int
  LOGE : String → List Char
  LOGW : String → List Char
  format_volume : String → Int
  device_wipe_data : Int
  install_package : List Char → Int
  read_encrypted_fs_info : Int → Int × Int
  restore_encrypted_fs_info : Int
  uninitialized_mode : Int
  malloc : Nat → List Char

/-- The state the log archiving works on: the files by path (`none` for a path that
cannot be opened for reading), the global `tmplog_offset`, and the record last handed to
`set_bootloader_message`. Permission bits are not part of it. -/
@[ext]
structure Store where
  files : String → Option (List Char)
  tmplog_offset : Nat
  bcb : bootloader_message

/-- The files with the content of `path` replaced. -/
def write_file (files : String → Option (List Char)) (path : String)
    (content : Option (List Char)) : String → Option (List Char) :=
  fun p => if p = path then content else files p

/-- A diagnostic written to `stdout`, that is appended to the temporary log. -/
def log_to_stdout (bytes : List Char) (s : Store) : Store :=
  { s with files := (write_file s.files TEMPORARY_LOG_FILE
      ((s.files TEMPORARY_LOG_FILE).map (fun t => t ++ bytes))) }

/-- The function `fopen_path (path, mode)` for the modes `"w"` (`append = false`) and `"a"`
(`append = true`): NULL (`false`) with a diagnostic when the path cannot be mounted, NULL
without one when `fopen` gives no stream; else the file is created when absent, emptied in
mode `"w"`, and the stream is open. -/
def fopen_path_write (env : Env) (path : String) (append : Bool) (s : Store) : Store × Bool :=
  if env.ensure_path_mounted path ≠ 0 then
    (log_to_stdout (env.LOGE ("Can't mount " ++ path ++ "\n")) s, false)
  else if env.fopen path ≠ 0 then (s, false)
  else
    ({ s with files := (write_file s.files path
        (some (if append then (s.files path).getD [] else []))) }, true)

/-- The loop `while (fgets (buf, sizeof (buf), tmplog)) fputs (buf, log);` with a buffer
of 4096 bytes: `unread` are the bytes of the temporary log after the position `pos` of its
stream, `out` is the destination; `n` bounds the rounds. The result is the position of the
stream and the destination after the loop. -/
def copy_loop : Nat → List Char → Nat → List Char → Nat × List Char
  | 0, _, pos, out => (pos, out)
  | n + 1, unread, pos, out =>
    match fgets 4096 unread with
    | none => (pos, out)
    | some (buf, rest) => copy_loop n rest (pos + buf.length) (fputs buf out)

/-- The function `copy_log_file (destination, append)`, for a destination other than the
temporary log itself. Each round of the loop reads at least one byte, so as many rounds as
there are unread bytes end it. The streams, once open, are taken to work without error, so
that `check_and_fclose` finds no error indicator and prints nothing. -/
def copy_log_file (env : Env) (destination : String) (append : Bool) (s : Store) : Store :=
  match fopen_path_write env destination append s with
  | (s1, false) => log_to_stdout (env.LOGE ("Can't open " ++ destination ++ "\n")) s1
  | (s1, true) =>
    match s1.files TEMPORARY_LOG_FILE with
    | none => log_to_stdout (env.LOGE ("Can't open " ++ TEMPORARY_LOG_FILE ++ "\n")) s1
    | some tmplog =>
      let start := if append then s1.tmplog_offset else 0   -- fseek: since last write
      let unread := tmplog.drop start
      let done := copy_loop unread.length unread start ((s1.files destination).getD [])
      { s1 with
        files := write_file s1.files destination (some done.2),
        tmplog_offset := if append then done.1 else s1.tmplog_offset }   -- ftell

/-- The function `finish_recovery (send_intent)`; `send_intent = none` is the NULL pointer.
The record of the layout `L` is cleared and handed to `set_bootloader_message`; the command
file is unlinked when its path mounts (a missing file is no error), and a warning is
printed when the path does not mount or `unlink` fails for another reason. -/
def finish_recovery (env : Env) (L : Layout) (send_intent : Option (List Char)) (s : Store) :
    Store :=
  let s1 :=
    match send_intent with
    | none => s
    | some text =>
      match fopen_path_write env INTENT_FILE false s with
      | (s', false) => log_to_stdout (env.LOGE ("Can't open " ++ INTENT_FILE ++ "\n")) s'
      | (s', true) =>
        { s' with files := (write_file s'.files INTENT_FILE
            (some (fputs text ((s'.files INTENT_FILE).getD [])))) }
  -- copy logs to cache so the system can find out what happened
  let s2 := copy_log_file env LOG_FILE true s1
  let s3 := copy_log_file env LAST_LOG_FILE false s2
  -- reset to normal system boot so recovery won't cycle indefinitely
  let s4 := { s3 with bcb := zero_message L }
  -- remove the command file, so recovery won't repeat indefinitely
  if env.ensure_path_mounted COMMAND_FILE ≠ 0 then
    log_to_stdout (env.LOGW ("Can't unlink " ++ COMMAND_FILE ++ "\n")) s4
  else if env.unlink COMMAND_FILE ≠ 0 then
    log_to_stdout (env.LOGW ("Can't unlink " ++ COMMAND_FILE ++ "\n")) s4
  else { s4 with files := write_file s4.files COMMAND_FILE none }

/-! ## The session: `erase_volume`, the dispatch of `main`, `prompt_and_wait` -/

/-- Modelled from the spec: the value Success of the session status (§3, `status`
(Success | Error)); `install.h`, which declares `INSTALL_SUCCESS`, is not among the sources.
Only that it differs from `INSTALL_ERROR` matters. -/
def INSTALL_SUCCESS : Int := 0

/-- Modelled from the spec: the value Error of the session status (§3); `install.h`, which
declares `INSTALL_ERROR`, is not among the sources. -/
def INSTALL_ERROR : Int := 1

/-- Modelled from the spec: the encrypted-fs mode "disabled" (§4.6);
`encryptedfs_provisioning.h`, which declares `MODE_ENCRYPTED_FS_DISABLED`, is not among the
sources. Only that it differs from `MODE_ENCRYPTED_FS_ENABLED` matters. -/
def MODE_ENCRYPTED_FS_DISABLED : Int := 0

/-- Modelled from the spec: the encrypted-fs mode "enabled" (§4.6);
`encryptedfs_provisioning.h`, which declares `MODE_ENCRYPTED_FS_ENABLED`, is not among the
sources. -/
def MODE_ENCRYPTED_FS_ENABLED : Int := 1

/-- What a run does that can be seen from outside, in the order it happens: the texts given
to `ui_print`, the calls of the collaborators with the values they return, the calls of
`finish_recovery`, the action a round of the main menu ends in, and the final `reboot`. -/
inductive Event where
  | ui_print (text : String)
  | format_volume (volume : String) (result : Int)
  | device_wipe_data (result : Int)
  | install_package (path : List Char) (result : Int)
  | read_encrypted_fs_info (result : Int)
  | restore_encrypted_fs_info (result : Int)
  | finish_recovery (send_intent : Option (List Char))
  | menu_action (chosen_item : Int)
  | reboot
deriving DecidableEq

/-- The variables of `main` that the dispatch works on: the global `tmplog_offset`, the
locals `status` and `encrypted_fs_data.mode`, and the events so far. -/
structure Session where
  tmplog_offset : Nat
  status : Int
  mode : Int
  trace : List Event
deriving DecidableEq

/-- The function `erase_volume (volume)`: the session after it and the value it returns,
which is the value of `format_volume (volume)`. -/
def erase_volume (env : Env) (volume : String) (s : Session) : Session × Int :=
  let s1 := { s with trace := s.trace ++ [Event.ui_print ("Formatting " ++ volume ++ "...\n")] }
  -- any part of the log we'd copied to cache is now gone
  let s2 := if volume = "/cache" then { s1 with tmplog_offset := 0 } else s1
  let result := env.format_volume volume
  ({ s2 with trace := s2.trace ++ [Event.format_volume volume result] }, result)

/-- The values `getopt_long (argc, argv, "", OPTIONS, NULL)` returns for the entries of
`OPTIONS`, each with its `optarg`, and `'?'` for an argument it does not accept. The
`case 'p'` of the switch has no entry in `OPTIONS` and is never taken. -/
inductive Opt where
  | send_intent (optarg : List Char)
  | update_package (optarg : List Char)
  | wipe_data
  | wipe_cache
  | set_encrypted_filesystems (optarg : List Char)
  | invalid
deriving DecidableEq

/-- The locals of `main` that the option loop sets; `none` is the NULL pointer. -/
structure Flags where
  send_intent : Option (List Char)
  update_package : Option (List Char)
  encrypted_fs_mode : Option (List Char)
  wipe_data : Bool
  wipe_cache : Bool
  toggle_secure_fs : Bool
deriving DecidableEq

/-- The locals as `main` initialises them. -/
def Flags.initial : Flags := ⟨none, none, none, false, false, false⟩

/-- One round of the `switch (arg)` in the option loop. -/
def parse_option (f : Flags) : Opt → Flags
  | Opt.send_intent optarg => { f with send_intent := some optarg }
  | Opt.update_package optarg => { f with update_package := some optarg }
  | Opt.wipe_data => { f with wipe_data := true, wipe_cache := true }
  | Opt.wipe_cache => { f with wipe_cache := true }
  | Opt.set_encrypted_filesystems optarg =>
    { f with encrypted_fs_mode := some optarg, toggle_secure_fs := true }
  | Opt.invalid => f

/-- The loop `while ((arg = getopt_long (...)) != -1)` over the values `opts`. -/
def parse_options (opts : List Opt) : Flags :=
  opts.foldl parse_option Flags.initial

/-- The rewrite of an old root path: an `update_package` that starts with `CACHE:` is
replaced by `/cache/` followed by the rest, built with `strlcpy` and `strlcat` in a fresh
block of `strlen (update_package) + 10` bytes. -/
def rewrite_path (env : Env) (update_package : List Char) : List Char :=
  if update_package.take 6 = "CACHE:".toList then
    let len := update_package.length + 10
    let modified_path := strlcpy (env.malloc len) "/cache/".toList len
    cstr (strlcat modified_path (update_package.drop 6) len)
  else update_package

/-- The block `if (update_package)` of `main`: a path that was given is rewritten; `none`
is the NULL pointer. -/
def rewrite_update_package (env : Env) (update_package : Option (List Char)) :
    Option (List Char) :=
  update_package.map (rewrite_path env)

/-- First step of the branch `if (toggle_secure_fs)`: the target mode is read from
`encrypted_fs_mode`; any value but `on` and `off` is an error and leaves
`encrypted_fs_data.mode` as it was. -/
def toggle_select_mode (encrypted_fs_mode : List Char) (s : Session) : Session :=
  if encrypted_fs_mode = "on".toList then
    { s with mode := MODE_ENCRYPTED_FS_ENABLED,
             trace := s.trace ++ [Event.ui_print "Enabling Encrypted FS.\n"] }
  else if encrypted_fs_mode = "off".toList then
    { s with mode := MODE_ENCRYPTED_FS_DISABLED,
             trace := s.trace ++ [Event.ui_print "Disabling Encrypted FS.\n"] }
  else
    { s with status := INSTALL_ERROR,
             trace := s.trace ++ [Event.ui_print "Error: invalid Encrypted FS setting.\n"] }

/-- Second step of the branch, "if the data partition is damaged, disable encrypted file
systems": with the mode enabled `read_encrypted_fs_info` is called, and a failure resets
the mode to disabled. -/
def toggle_read_info (env : Env) (s : Session) : Session :=
  if s.mode = MODE_ENCRYPTED_FS_ENABLED then
    let read := env.read_encrypted_fs_info s.mode
    let s1 := { s with mode := read.2,
                       trace := s.trace ++ [Event.read_encrypted_fs_info read.1] }
    if read.1 ≠ 0 then
      { s1 with mode := MODE_ENCRYPTED_FS_DISABLED,
                trace := s1.trace ++ [Event.ui_print
                  "Encrypted FS change aborted, resetting to disabled state.\n"] }
    else s1
  else s

/-- Last step of the branch, `if (status != INSTALL_ERROR)`: `/data` and `/cache` are
erased and, with the mode enabled, the encrypted-fs information is restored; the first
failure ends the step with `INSTALL_ERROR`. -/
def toggle_erase (env : Env) (s : Session) : Session :=
  if s.status ≠ INSTALL_ERROR then
    let data := erase_volume env "/data" s
    if data.2 ≠ 0 then
      { data.1 with status := INSTALL_ERROR,
                    trace := data.1.trace ++ [Event.ui_print "Data wipe failed.\n"] }
    else
      let cache := erase_volume env "/cache" data.1
      if cache.2 ≠ 0 then
        { cache.1 with status := INSTALL_ERROR,
                       trace := cache.1.trace ++ [Event.ui_print "Cache wipe failed.\n"] }
      else if cache.1.mode = MODE_ENCRYPTED_FS_ENABLED then
        let s1 := { cache.1 with trace := cache.1.trace ++
          [Event.restore_encrypted_fs_info env.restore_encrypted_fs_info] }
        if env.restore_encrypted_fs_info ≠ 0 then
          { s1 with status := INSTALL_ERROR,
                    trace := s1.trace ++ [Event.ui_print "Encrypted FS change aborted.\n"] }
        else
          { s1 with status := INSTALL_SUCCESS,
                    trace := s1.trace ++
                      [Event.ui_print "Successfully updated Encrypted FS.\n"] }
      else
        { cache.1 with status := INSTALL_SUCCESS,
                       trace := cache.1.trace ++
                         [Event.ui_print "Successfully updated Encrypted FS.\n"] }
  else s

/-- The branch `if (toggle_secure_fs)` of `main`. -/
def toggle_secure_fs_branch (env : Env) (encrypted_fs_mode : List Char) (s : Session) :
    Session :=
  toggle_erase env (toggle_read_info env (toggle_select_mode encrypted_fs_mode s))

/-- The branch `else if (update_package != NULL)` of `main`. -/
def update_package_branch (env : Env) (update_package : List Char) (s : Session) : Session :=
  let status := env.install_package update_package
  let s1 := { s with status := status,
                     trace := s.trace ++ [Event.install_package update_package status] }
  if status ≠ INSTALL_SUCCESS then
    { s1 with trace := s1.trace ++ [Event.ui_print "Installation aborted.\n"] }
  else s1

/-- The branch `else if (wipe_data)` of `main`. -/
def wipe_data_branch (env : Env) (wipe_cache : Bool) (s : Session) : Session :=
  let s1 := { s with trace := s.trace ++ [Event.device_wipe_data env.device_wipe_data] }
  let s2 := if env.device_wipe_data ≠ 0 then { s1 with status := INSTALL_ERROR } else s1
  let data := erase_volume env "/data" s2
  let s3 := if data.2 ≠ 0 then { data.1 with status := INSTALL_ERROR } else data.1
  let s4 :=
    if wipe_cache then
      let cache := erase_volume env "/cache" s3
      if cache.2 ≠ 0 then { cache.1 with status := INSTALL_ERROR } else cache.1
    else s3
  if s4.status ≠ INSTALL_SUCCESS then
    { s4 with trace := s4.trace ++ [Event.ui_print "Data wipe failed.\n"] }
  else s4

/-- The branch `else if (wipe_cache)` of `main`. -/
def wipe_cache_branch (env : Env) (wipe_cache : Bool) (s : Session) : Session :=
  let s1 :=
    if wipe_cache then
      let cache := erase_volume env "/cache" s
      if cache.2 ≠ 0 then { cache.1 with status := INSTALL_ERROR } else cache.1
    else s
  if s1.status ≠ INSTALL_SUCCESS then
    { s1 with trace := s1.trace ++ [Event.ui_print "Cache wipe failed.\n"] }
  else s1

/-- The chain `if (toggle_secure_fs) ... else if (update_package != NULL) ... else if
(wipe_data) ... else if (wipe_cache) ... else` of `main`, entered with
`status = INSTALL_SUCCESS`. An `encrypted_fs_mode` is set whenever `toggle_secure_fs` is. -/
def dispatch (env : Env) (f : Flags) (s : Session) : Session :=
  let s0 := { s with status := INSTALL_SUCCESS }
  if f.toggle_secure_fs then toggle_secure_fs_branch env (f.encrypted_fs_mode.getD []) s0
  else
    match f.update_package with
    | some path => update_package_branch env path s0
    | none =>
      if f.wipe_data then wipe_data_branch env f.wipe_cache s0
      else if f.wipe_cache then wipe_cache_branch env f.wipe_cache s0
      else { s0 with status := INSTALL_ERROR }   -- no command specified

/-- The function `prompt_and_wait`, which does not return: each round of its loop calls
`finish_recovery (NULL)` and then waits for the menu; `chosen` lists the items the rounds
seen so far ended in, after `device_perform_action`. The events are those up to the wait
that follows the last of them. -/
def prompt_and_wait : List Int → List Event
  | [] => [Event.finish_recovery none]
  | chosen_item :: later =>
    Event.finish_recovery none :: Event.menu_action chosen_item :: prompt_and_wait later

/-- The function `main` from the option loop to the end of the dispatch: `opts` are the
values of `getopt_long` on the vector `get_args` has resolved, `tmplog_offset` the value of
that global when the dispatch starts. -/
def main_dispatch (env : Env) (opts : List Opt) (tmplog_offset : Nat) : Session :=
  let parsed := parse_options opts
  let f := { parsed with update_package := rewrite_update_package env parsed.update_package }
  dispatch env f ⟨tmplog_offset, INSTALL_SUCCESS, env.uninitialized_mode, []⟩

/-- The function `main` from the option loop on: after the dispatch a status other than
`INSTALL_SUCCESS` enters `prompt_and_wait` (`chosen` are the menu rounds seen); otherwise
`finish_recovery (send_intent)` is called and the device reboots. -/
def main (env : Env) (opts : List Opt) (chosen : List Int) (tmplog_offset : Nat) : Session :=
  let s := main_dispatch env opts tmplog_offset
  if s.status ≠ INSTALL_SUCCESS then
    { s with trace := s.trace ++ prompt_and_wait chosen }
  else
    -- otherwise, get ready to boot the main system
    { s with trace := s.trace ++
        [Event.finish_recovery (parse_options opts).send_intent,
         Event.ui_print "Rebooting...\n", Event.reboot] }

/-- The mode of the last `--set_encrypted_filesystems` among the options, if there is one. -/
def requested_mode : List Opt → Option (List Char)
  | [] => none
  | o :: later =>
    match requested_mode later with
    | some m => some m
    | none =>
      match o with
      | Opt.set_encrypted_filesystems m => some m
      | _ => none

/-- The path of the last `--update_package` among the options, if there is one. -/
def requested_package : List Opt → Option (List Char)
  | [] => none
  | o :: later =>
    match requested_package later with
    | some p => some p
    | none =>
      match o with
      | Opt.update_package p => some p
      | _ => none

/-- The text of the last `--send_intent` among the options, if there is one. -/
def requested_intent : List Opt → Option (List Char)
  | [] => none
  | o :: later =>
    match requested_intent later with
    | some t => some t
    | none =>
      match o with
      | Opt.send_intent t => some t
      | _ => none

/-! ## The menus: `get_menu_selection` and `show_check_menu` -/

/-- The key actions `device_handle_key` returns besides an item index. They are declared in
`recovery_ui.h`, which is not among the sources: their values are parameters of the model.
As labels of one `switch` they are distinct. -/
structure Actions where
  HIGHLIGHT_UP : Int
  HIGHLIGHT_DOWN : Int
  SELECT_ITEM : Int
  NO_ACTION : Int
  ITEM_BACK : Int
deriving DecidableEq

/-- The five labels of the `switch` in `get_menu_selection` are distinct, as the C compiler
requires. -/
def Actions.Distinct (A : Actions) : Prop :=
  [A.HIGHLIGHT_UP, A.HIGHLIGHT_DOWN, A.SELECT_ITEM, A.NO_ACTION, A.ITEM_BACK].Nodup

/-- Modelled from the spec: `ui_menu_select`, which is defined in `ui.c`, not among the
sources. The specification (§3, §4.4) has the selection clamped, not wrapped, to
`[0, N-1]` for a menu of `N` items. -/
def ui_menu_select (n : Nat) (sel : Int) : Int :=
  if sel < 0 then 0 else if sel ≥ n then n - 1 else sel

/-- The loop `while (chosen_item < 0)` of `get_menu_selection` for a menu of `n` items:
`selected` is the highlighted item, the list holds the actions `device_handle_key` gives for
the keys to come. The result is the value returned and the actions left; `none` when the
keys run out before the function returns. -/
def menu_loop (A : Actions) (n : Nat) (menu_only : Bool) : Int → List Int → Option (Int × List Int)
  | _, [] => none
  | selected, action :: later =>
    if action < 0 then
      if action = A.HIGHLIGHT_UP then
        menu_loop A n menu_only (ui_menu_select n (selected - 1)) later
      else if action = A.HIGHLIGHT_DOWN then
        menu_loop A n menu_only (ui_menu_select n (selected + 1)) later
      else if action = A.SELECT_ITEM then
        -- chosen_item = selected, and the loop goes on while chosen_item < 0
        if selected < 0 then menu_loop A n menu_only selected later
        else some (selected, later)
      else if action = A.NO_ACTION then menu_loop A n menu_only selected later
      else if action = A.ITEM_BACK then some (A.ITEM_BACK, later)
      else menu_loop A n menu_only selected later
    else if !menu_only then some (action, later)
    else menu_loop A n menu_only selected later

/-- The function `get_menu_selection (headers, items, menu_only, initial_selection)`: the
menu shows `items`, the highlight starts at `initial_selection`. The headers are only
displayed. -/
def get_menu_selection (A : Actions) (items : List (List Char)) (menu_only : Bool)
    (initial_selection : Int) (actions : List Int) : Option (Int × List Int) :=
  menu_loop A items.length menu_only initial_selection actions

/-- The value of `1 << n` for an `int` `n`, as a pattern of 32 bits: `2 ^ n` for
`0 <= n <= 30`; for the other `n` the C language leaves the shift undefined and the value
is the parameter `undefined_shift n`. -/
def shift_one (undefined_shift : Int → Nat) (n : Int) : Nat :=
  if 0 ≤ n ∧ n ≤ 30 then 2 ^ n.toNat else undefined_shift n % 2 ^ 32

/-- The label of one line of the checkbox menu: `sprintf (items[i], "(%s) %s", (*flags &
(1 << i)) ? "*" : " ", chk_items[i])`. -/
def check_label (undefined_shift : Int → Nat) (flags : Nat) (i : Nat) (text : List Char) :
    List Char :=
  '(' :: (if flags &&& shift_one undefined_shift i ≠ 0 then '*' else ' ') :: ')' :: ' ' :: text

/-- The function `get_check_menu_opts (items, chk_items, flags)`: the labels of the
checkbox items, each with the mark of its bit. -/
def get_check_menu_opts (undefined_shift : Int → Nat) (chk_items : List (List Char))
    (flags : Nat) : List (List Char) :=
  (List.range chk_items.length).zipWith (check_label undefined_shift flags) chk_items

/-- What `show_check_menu` has done when it returns: the `flags` it leaves, the key actions
left, and the menus it has shown, in order, each with its items and the item highlighted
first. -/
structure CheckMenu where
  flags : Nat
  actions : List Int
  shown : List (List (List Char) × Int)
deriving DecidableEq

/-- The loop `while (chosen_item != 0)` of `show_check_menu`; `flags` is the pattern of 32
bits of `*flags`, and `rounds` bounds the rounds. A round shows the menu `Finished` followed
by the labels, and a choice other than 0 flips the bit `chosen_item - 1`. -/
def check_menu_loop (A : Actions) (undefined_shift : Int → Nat) (chk_items : List (List Char)) :
    Nat → Int → Nat → List Int → List (List (List Char) × Int) → Option CheckMenu
  | 0, _, _, _, _ => none
  | rounds + 1, chosen_item, flags, actions, shown =>
    if chosen_item = 0 then some ⟨flags, actions, shown⟩
    else
      let items := "Finished".toList :: get_check_menu_opts undefined_shift chk_items flags
      let initial_selection := if chosen_item = -1 then 0 else chosen_item
      match get_menu_selection A items false initial_selection actions with
      | none => none
      | some (chosen, later) =>
        if chosen = 0 then
          check_menu_loop A undefined_shift chk_items rounds 0 flags later
            (shown ++ [(items, initial_selection)])
        else
          -- chosen_item -= 1; *flags ^= (1 << chosen_item); chosen_item += 1
          check_menu_loop A undefined_shift chk_items rounds chosen
            (flags ^^^ shift_one undefined_shift (chosen - 1)) later
            (shown ++ [(items, initial_selection)])

/-- How `show_check_menu` ends: it returns, or the process faults (a store behind the block
it has allocated), or it waits in the menu for a key that the actions given do not hold. -/
inductive CheckResult where
  | returned (r : CheckMenu)
  | fault
  | waiting
deriving DecidableEq

/-- The function `show_check_menu (headers, chk_items, flags)`: `chk_items` are the entries
of the array before its first NULL.

The menu array is allocated with `calloc (i, sizeof (char *))` for `i = count + 2`, and the
function then stores `items[i] = NULL`, one slot behind the `i` slots asked for.
`usable_slots i` is the number of slots the block the allocator gives for that request
really has (`malloc_usable_size` over the size of a pointer, at least `i`): the store is
harmless when it lands in the block and a fault when it lands behind it.

Every round of the loop takes at least one key action, so one round more than there are
actions ends the loop or finds the keys used up. -/
def show_check_menu (A : Actions) (undefined_shift : Int → Nat) (usable_slots : Nat → Nat)
    (chk_items : List (List Char)) (flags : Nat) (actions : List Int) : CheckResult :=
  let i := chk_items.length + 2
  -- items[0] = "Finished"; items[i] = NULL
  if usable_slots i ≤ i then CheckResult.fault
  else
    match check_menu_loop A undefined_shift chk_items (actions.length + 1) (-1) flags actions
        [] with
    | none => CheckResult.waiting
    | some r => CheckResult.returned r

/-- The `flags` and the key actions that `show_check_menu` leaves when it returns. -/
def CheckResult.left : CheckResult → Option (Nat × List Int)
  | CheckResult.returned r => some (r.flags, r.actions)
  | _ => none

/-! ## The helper protocol: `runve` -/

/-- The libc `isspace` in the C locale. -/
def isspace (c : Char) : Bool :=
  c = ' ' || c = '\t' || c = '\n' || c = Char.ofNat 11 || c = Char.ofNat 12 || c = '\r'

/-- The value of a decimal digit. -/
def digit_value (c : Char) : Option Nat :=
  if '0' ≤ c ∧ c ≤ '9' then some (c.toNat - 48) else none

/-- The number read from the leading digits of a text, continuing the value `acc`. -/
def atoi_digits : Nat → List Char → Nat
  | acc, [] => acc
  | acc, c :: cs =>
    match digit_value c with
    | some d => atoi_digits (acc * 10 + d) cs
    | none => acc

/-- The libc `atoi` on a string, for numbers within the range of `int`: white space is
skipped, a sign is read, then the leading digits. -/
def atoi (s : List Char) : Int :=
  match (cstr s).dropWhile isspace with
  | '-' :: digits => - (atoi_digits 0 digits : Int)
  | '+' :: digits => atoi_digits 0 digits
  | digits => atoi_digits 0 digits

/-- The character of a decimal digit. -/
def digit_char (d : Nat) : Char :=
  Char.ofNat (48 + d)

/-- The decimal digits of `n` in front of `acc`, lowest digit last; `rounds` bounds the
number of digits. -/
def decimal_digits : Nat → Nat → List Char → List Char
  | 0, _, acc => acc
  | rounds + 1, n, acc =>
    if n / 10 = 0 then digit_char (n % 10) :: acc
    else decimal_digits rounds (n / 10) (digit_char (n % 10) :: acc)

/-- The text `printf ("%d", c)` writes. A number has no more digits than its value plus
one. -/
def decimal (c : Int) : List Char :=
  if c < 0 then '-' :: decimal_digits (c.natAbs + 1) c.natAbs []
  else decimal_digits (c.natAbs + 1) c.natAbs []

/-- What `runve` does that can be seen from outside, besides what it writes to the child:
the lines it echoes to `stdout`, the texts given to `ui_print` (`none` is a NULL pointer),
the calls that drive the progress display (`ui_set_progress` with the two numbers whose
quotient is the fraction), and the menus shown, each with its headers (`none` is a NULL
pointer), its items and the item highlighted first. -/
inductive HelperEvent where
  | printf (line : List Char)
  | ui_print (text : Option (List Char))
  | ui_show_progress
  | ui_set_progress (cur_lines total_lines : Int)
  | ui_reset_progress
  | ui_show_indeterminate_progress
  | menu (headers : Option (List (List Char))) (items : List (List Char))
      (initial_selection : Int)
deriving DecidableEq

/-- The variables of `runve` while it reads the child's lines.

* `total_lines`, `cur_lines`, `num_items`, `num_headers`, `num_chks` are the locals of those
  names, not initialised by `runve`;
* `items`, `headers`, `chks` are the three arrays: `none` is the NULL pointer, else the
  slots filled so far, in order; the counters `i`, `j`, `k` are the numbers of slots filled;
* `flags` is the local of that name as a pattern of 32 bits;
* `to_child` are the bytes written on the stream `to`, to the child's standard input;
* `actions` are the key actions `device_handle_key` gives for the keys to come;
* `trace` are the events so far. -/
structure Helper where
  total_lines : Int
  cur_lines : Int
  num_items : Int
  num_headers : Int
  num_chks : Int
  items : Option (List (List Char))
  headers : Option (List (List Char))
  chks : Option (List (List Char))
  flags : Nat
  to_child : List Char
  actions : List Int
  trace : List HelperEvent
deriving DecidableEq

/-- The value `INT_MAX`, to which `runve` initialises `flags`. -/
def INT_MAX : Nat := 2 ^ 31 - 1

/-- The variables when `runve` enters its loop: the arrays are NULL, `flags` is `INT_MAX`,
nothing is written yet; the five numbers are whatever the stack holds. -/
def Helper.initial (total_lines cur_lines num_items num_headers num_chks : Int)
    (actions : List Int) : Helper :=
  ⟨total_lines, cur_lines, num_items, num_headers, num_chks, none, none, none, INT_MAX, [],
   actions, []⟩

/-- How the handling of a line ends: the loop goes on with new variables, or the process
faults (a NULL pointer is read or written through, or an array is indexed below its
start or behind its block), or it waits in a menu for a key that the actions given do not hold. -/
inductive Outcome where
  | running (h : Helper)
  | fault
  | waiting
deriving DecidableEq

/-- Adds an event to the trace. -/
def Helper.emit (h : Helper) (e : HelperEvent) : Helper :=
  { h with trace := h.trace ++ [e] }

/-- The branch `ptotal`: `total_lines = atoi (strtok (NULL, " "))`. -/
def on_ptotal (rest : List Char) (h : Helper) : Outcome :=
  let h1 := (h.emit (HelperEvent.ui_set_progress 0 1)).emit HelperEvent.ui_show_progress
  match (strtok [' '] rest).token with
  | none => Outcome.fault
  | some number => Outcome.running { h1 with total_lines := atoi number }

/-- The branch `print`: `ui_print ("%s", strtok (NULL, ""))`. -/
def on_print (rest : List Char) (h : Helper) : Outcome :=
  Outcome.running (h.emit (HelperEvent.ui_print (strtok [] rest).token))

/-- The branch `items`: `num_items = atoi (strtok (NULL, " \n"))`, then a fresh array of
`num_items + 1` slots whose slot `num_items` is set to NULL. The allocation is taken to
succeed, here and in the other branches. -/
def on_items (rest : List Char) (h : Helper) : Outcome :=
  match (strtok [' ', '\n'] rest).token with
  | none => Outcome.fault
  | some number =>
    if atoi number < 0 then Outcome.fault
    else Outcome.running { h with num_items := atoi number, items := some [] }

/-- The branch `item`: with `i < num_items` the next slot receives a copy of
`strtok (NULL, "\n")`, whose length `strlen` takes first. -/
def on_item (rest : List Char) (h : Helper) : Outcome :=
  if ((h.items.getD []).length : Int) < h.num_items then
    match (strtok ['\n'] rest).token, h.items with
    | none, _ => Outcome.fault
    | some _, none => Outcome.fault
    | some text, some filled => Outcome.running { h with items := some (filled ++ [text]) }
  else Outcome.running h

/-- The branch `headers`: as `items`, for the header array. -/
def on_headers (rest : List Char) (h : Helper) : Outcome :=
  match (strtok [' ', '\n'] rest).token with
  | none => Outcome.fault
  | some number =>
    if atoi number < 0 then Outcome.fault
    else Outcome.running { h with num_headers := atoi number, headers := some [] }

/-- The branch `header`: with `j < num_headers` the next slot receives a copy of
`strtok (NULL, "\n")`, or the empty string when there is no such token. -/
def on_header (rest : List Char) (h : Helper) : Outcome :=
  if ((h.headers.getD []).length : Int) < h.num_headers then
    match h.headers with
    | none => Outcome.fault
    | some filled =>
      Outcome.running { h with headers := some (filled ++ [((strtok ['\n'] rest).token).getD []]) }
  else Outcome.running h

/-- The branch `show_menu`: `get_menu_selection (headers, items, 0, 0)`, then the choice is
written to the child with `fprintf (to, "%d\n", choice)`. An `items` that is NULL shows as a
menu without items. -/
def on_show_menu (A : Actions) (h : Helper) : Outcome :=
  let shown := h.emit (HelperEvent.menu h.headers (h.items.getD []) 0)
  match get_menu_selection A (h.items.getD []) false 0 h.actions with
  | none => Outcome.waiting
  | some (choice, later) =>
    Outcome.running { shown with to_child := shown.to_child ++ decimal choice ++ ['\n'], actions := later }

/-- The branch `pcur`: `cur_lines = atoi (strtok (NULL, "\n"))`; the display is refreshed
at every tenth unit and in the last ten, and reset when the total is reached. -/
def on_pcur (rest : List Char) (h : Helper) : Outcome :=
  match (strtok ['\n'] rest).token with
  | none => Outcome.fault
  | some number =>
    let h1 := { h with cur_lines := atoi number }
    let h2 :=
      if h1.cur_lines % 10 = 0 ∨ h1.total_lines - h1.cur_lines < 10 then
        h1.emit (HelperEvent.ui_set_progress h1.cur_lines h1.total_lines)
      else h1
    Outcome.running
      (if h2.cur_lines = h2.total_lines then h2.emit HelperEvent.ui_reset_progress else h2)

/-- The branch `check_items`: as `items`, for the array of checkbox items. -/
def on_check_items (rest : List Char) (h : Helper) : Outcome :=
  match (strtok [' ', '\n'] rest).token with
  | none => Outcome.fault
  | some number =>
    if atoi number < 0 then Outcome.fault
    else Outcome.running { h with num_chks := atoi number, chks := some [] }

/-- The branch `check_item`: as `item`, for the array of checkbox items. -/
def on_check_item (rest : List Char) (h : Helper) : Outcome :=
  if ((h.chks.getD []).length : Int) < h.num_chks then
    match (strtok ['\n'] rest).token, h.chks with
    | none, _ => Outcome.fault
    | some _, none => Outcome.fault
    | some text, some filled => Outcome.running { h with chks := some (filled ++ [text]) }
  else Outcome.running h

/-- The lines `fprintf (to, "%d\n", !!(flags & (1 << l)))` for `l` from 0 to
`num_chks - 1`, one element per line. -/
def check_reply_lines (undefined_shift : Int → Nat) (flags : Nat) (num_chks : Int) :
    List (List Char) :=
  (List.range num_chks.toNat).map fun (l : Nat) =>
    decimal (if flags &&& shift_one undefined_shift (l : Int) ≠ 0 then 1 else 0) ++ ['\n']

/-- The bytes of those lines, as they reach the child. -/
def check_reply (undefined_shift : Int → Nat) (flags : Nat) (num_chks : Int) : List Char :=
  (check_reply_lines undefined_shift flags num_chks).flatten

/-- The branch `show_check_menu`: `show_check_menu (headers, chks, &flags)`, which counts
the entries of `chks` (a NULL array faults), then one line per checkbox item is written to
the child. -/
def on_show_check_menu (A : Actions) (undefined_shift : Int → Nat) (usable_slots : Nat → Nat)
    (h : Helper) : Outcome :=
  match h.chks with
  | none => Outcome.fault
  | some chk_items =>
    match show_check_menu A undefined_shift usable_slots chk_items h.flags h.actions with
    | CheckResult.fault => Outcome.fault
    | CheckResult.waiting => Outcome.waiting
    | CheckResult.returned done =>
      Outcome.running
        { h with
          flags := done.flags,
          actions := done.actions,
          trace := h.trace ++ done.shown.map (fun m => HelperEvent.menu h.headers m.1 m.2),
          to_child := h.to_child ++ check_reply undefined_shift done.flags h.num_chks }

/-- The body of the loop `while (fgets (cur_line, 100, from) != NULL)` for one line read:
the line is echoed, cut at blanks and newlines, and when its first token is `*` the second
token selects the branch. -/
def runve_line (A : Actions) (undefined_shift : Int → Nat) (usable_slots : Nat → Nat)
    (cur_line : List Char) (h : Helper) : Outcome :=
  let h1 := h.emit (HelperEvent.printf (cstr cur_line))
  let first := strtok [' ', '\n'] cur_line
  match first.token with
  | none => Outcome.running h1
  | some star =>
    if star = "*".toList then
      let second := strtok [' ', '\n'] first.rest
      match second.token with
      | none => Outcome.running h1
      | some tok =>
        if tok = "ptotal".toList then on_ptotal second.rest h1
        else if tok = "print".toList then on_print second.rest h1
        else if tok = "items".toList then on_items second.rest h1
        else if tok = "item".toList then on_item second.rest h1
        else if tok = "headers".toList then on_headers second.rest h1
        else if tok = "header".toList then on_header second.rest h1
        else if tok = "show_menu".toList then on_show_menu A h1
        else if tok = "pcur".toList then on_pcur second.rest h1
        else if tok = "check_items".toList then on_check_items second.rest h1
        else if tok = "check_item".toList then on_check_item second.rest h1
        else if tok = "show_check_menu".toList then
          on_show_check_menu A undefined_shift usable_slots h1
        else if tok = "show_indeterminate_progress".toList then
          Outcome.running (h1.emit HelperEvent.ui_show_indeterminate_progress)
        else
          Outcome.running (((h1.emit (HelperEvent.ui_print (some "unrecognized command ".toList))).emit
            (HelperEvent.ui_print (some tok))).emit (HelperEvent.ui_print (some "\n".toList)))
    else Outcome.running h1

/-- The loop `while (fgets (cur_line, 100, from) != NULL)` of `runve`: `unread` are the
bytes the child has still to deliver on `from`; `rounds` bounds the lines read. A fault or
a wait ends it. -/
def runve_loop (A : Actions) (undefined_shift : Int → Nat) (usable_slots : Nat → Nat) :
    Nat → List Char → Helper → Outcome
  | 0, _, h => Outcome.running h
  | rounds + 1, unread, h =>
    match fgets 100 unread with
    | none => Outcome.running h
    | some (cur_line, rest) =>
      match runve_line A undefined_shift usable_slots cur_line h with
      | Outcome.running h1 => runve_loop A undefined_shift usable_slots rounds rest h1
      | Outcome.fault => Outcome.fault
      | Outcome.waiting => Outcome.waiting

/-- The function `runve` from its first `fgets` to the end of the child's output `output`;
every line read takes at least one byte, so as many rounds as there are bytes end the loop.
The start of the child and the wait for its exit status are left out. -/
def runve (A : Actions) (undefined_shift : Int → Nat) (usable_slots : Nat → Nat)
    (output : List Char) (h : Helper) : Outcome :=
  runve_loop A undefined_shift usable_slots output.length output h

/-- The lines `* item t` of the helper protocol for the texts `t` of a list, in order. -/
def item_lines : List (List Char) → List Char
  | [] => []
  | t :: later => "* item ".toList ++ t ++ '\n' :: item_lines later

/-- What the child sends for a menu round: `* items K`, then `* item t` for each text, then
`* show_menu`. -/
def menu_round (K : Nat) (texts : List (List Char)) : List Char :=
  "* items ".toList ++ decimal K ++ '\n' :: (item_lines texts ++ "* show_menu\n".toList)

/-- An item text that one protocol line can carry: not empty, without NUL and newline, and
of at most `room` bytes, which is what the buffer of 100 bytes leaves behind the verb. -/
def LineText (room : Nat) (t : List Char) : Prop :=
  t ≠ [] ∧ NUL ∉ t ∧ '\n' ∉ t ∧ t.length ≤ room

instance (room : Nat) (t : List Char) : Decidable (LineText room t) := by
  unfold LineText
  infer_instance

/-- The menus shown up to an outcome that leaves the loop running. -/
def menus_shown : Outcome → Option (List HelperEvent)
  | Outcome.running h =>
    some (h.trace.filter fun e =>
      match e with
      | HelperEvent.menu _ _ _ => true
      | _ => false)
  | _ => none

/-- The layout of the record in the Android tree this program belongs to: 32 bytes of
command, 32 of status, 1024 of recovery. -/
def android_layout : Layout := ⟨32, 32, 1024⟩

/-- A small layout, for evaluation. -/
def small_layout : Layout := ⟨16, 4, 48⟩

/-- A world in which every collaborator succeeds and the diagnostics are empty. -/
def quiet_env : Env :=
  { ensure_path_mounted := fun _ => 0
    fopen := fun _ => 0
    unlink := fun _ => 0
    LOGE := fun _ => []
    LOGW := fun _ => []
    format_volume := fun _ => 0
    device_wipe_data := 0
    install_package := fun _ => 0
    read_encrypted_fs_info := fun m => (0, m)
    restore_encrypted_fs_info := 0
    uninitialized_mode := 0
    malloc := fun n => List.replicate n NUL }

/-- The quiet world, except that formatting `/data` fails. -/
def data_fails_env : Env :=
  { quiet_env with format_volume := fun v => if v = "/data" then 1 else 0 }

/-- The quiet world, except that `read_encrypted_fs_info` fails. -/
def read_fails_env : Env :=
  { quiet_env with read_encrypted_fs_info := fun m => (1, m) }

/-- A store with a temporary log, a command file asking for a data wipe, and the record
that `get_args` has saved for that command. -/
def pinned_store : Store :=
  { files := fun p =>
      if p = TEMPORARY_LOG_FILE then some "Starting recovery\n".toList
      else if p = COMMAND_FILE then some "--wipe_data\n".toList
      else none
    tmplog_offset := 0
    bcb := write_back small_layout (zero_message small_layout)
      (zero_message small_layout).recovery ["recovery".toList, "--wipe_data".toList] }

/-- The record `get_args` saves in a run without any argument: `boot-recovery` and
`recovery\n`. -/
def no_args_record : bootloader_message :=
  write_back android_layout (zero_message android_layout) (zero_message android_layout).recovery
    ["recovery".toList]

/-- The result of `get_args` in the factory reset scenario: no process argument, an empty
record, a command file that holds `--wipe_data`. -/
def factory_reset_args : ArgsResult :=
  ⟨["recovery".toList, "--wipe_data".toList],
   write_back android_layout (zero_message android_layout)
     ((zero_message android_layout).recovery.set 1023 NUL)
     ["recovery".toList, "--wipe_data".toList]⟩

/-- A store whose temporary log holds a NUL byte. -/
def nul_store : Store :=
  { files := fun p => if p = TEMPORARY_LOG_FILE then some ['a', NUL, 'b', '\n'] else none
    tmplog_offset := 0
    bcb := zero_message small_layout }

/-- The values of the key actions in the Android header `recovery_ui.h` (`HIGHLIGHT_UP` -2,
`HIGHLIGHT_DOWN` -3, `SELECT_ITEM` -4, `NO_ACTION` -1), with -5 for the added
`ITEM_BACK`. -/
def sample_actions : Actions := ⟨-2, -3, -4, -1, -5⟩

/-- A machine on which an undefined shift gives 0. -/
def zero_shift : Int → Nat := fun _ => 0

/-- The blocks of a 64-bit glibc: a request of `n` pointers gets a chunk of `8 n + 8` bytes
rounded up to a multiple of 16, at least 32, of which all but 8 bytes are usable. A request
of an even number of pointers has one slot to spare, a request of an odd number none. -/
def glibc_usable_slots (n : Nat) : Nat :=
  max 32 ((8 * n + 8 + 15) / 16 * 16) / 8 - 1

/-- Three menu items. -/
def three_items : List (List Char) := ["one".toList, "two".toList, "three".toList]

/-- The quiet world, except that the stack leaves the value of `MODE_ENCRYPTED_FS_ENABLED`
in `encrypted_fs_data.mode`. -/
def stale_mode_env : Env :=
  { quiet_env with uninitialized_mode := MODE_ENCRYPTED_FS_ENABLED }

/-! ## Theorems -/

/-! ### C strings and buffers -/

theorem nul_not_mem_cstr (s : List Char) : NUL ∉ cstr s := by
  intro h
  have := List.mem_takeWhile_imp h
  simp at this

theorem cstr_eq_self {s : List Char} (h : NUL ∉ s) : cstr s = s := by
  unfold cstr
  rw [List.takeWhile_eq_self_iff]
  intro x hx
  simp only [bne_iff_ne, ne_eq]
  rintro rfl
  exact h hx

theorem cstr_append_nul {s : List Char} (h : NUL ∉ s) (r : List Char) :
    cstr (s ++ NUL :: r) = s := by
  unfold cstr
  rw [List.takeWhile_append_of_pos]
  · simp
  · intro x hx
    simp only [bne_iff_ne, ne_eq]
    rintro rfl
    exact h hx

theorem cstr_idem (s : List Char) : cstr (cstr s) = cstr s :=
  cstr_eq_self (nul_not_mem_cstr s)

theorem take_cstr_length (s : List Char) : s.take (cstr s).length = cstr s := by
  unfold cstr
  induction s with
  | nil => simp
  | cons c cs ih =>
    by_cases h : c = NUL
    · simp [List.takeWhile_cons, h]
    · simp [List.takeWhile_cons, h, ih]

theorem cstr_take_of_lt {s : List Char} {n : Nat} (h : (cstr s).length < n) :
    cstr (s.take n) = cstr s := by
  unfold cstr at *
  induction s generalizing n with
  | nil => simp
  | cons c cs ih =>
    cases n with
    | zero => simp at h
    | succ n =>
      by_cases hc : c = NUL
      · simp [List.takeWhile_cons, hc]
      · simp only [List.takeWhile_cons, bne_iff_ne, ne_eq, hc, not_false_eq_true, ↓reduceIte,
          List.length_cons, Nat.add_lt_add_iff_right, List.take_succ_cons] at h ⊢
        simp [hc] at h ⊢
        exact ih h

theorem nul_not_mem_take {s : List Char} (h : NUL ∉ s) (n : Nat) : NUL ∉ s.take n :=
  fun hm => h (List.mem_of_mem_take hm)

theorem take_min_length {α : Type} (l : List α) (k : Nat) :
    l.take (min l.length k) = l.take k := by
  by_cases h : l.length ≤ k
  · rw [Nat.min_eq_left h, List.take_of_length_le h, List.take_of_length_le (le_refl _)]
  · rw [Nat.min_eq_right (by omega)]

/-- Shape of a buffer after `strlcpy`. -/
theorem strlcpy_shape (dst src : List Char) {siz : Nat} (h : 0 < siz) :
    strlcpy dst src siz
      = (cstr src).take (siz - 1) ++ NUL :: dst.drop (min (cstr src).length (siz - 1) + 1) := by
  unfold strlcpy
  rw [if_neg (by omega)]
  simp only [take_min_length]

theorem cstr_strlcpy (dst src : List Char) {siz : Nat} (h : 0 < siz) :
    cstr (strlcpy dst src siz) = (cstr src).take (siz - 1) := by
  rw [strlcpy_shape dst src h]
  exact cstr_append_nul (nul_not_mem_take (nul_not_mem_cstr src) _) _

/-- Shape of a buffer after `strlcat`, when the string in `dst` is shorter than `siz`. -/
theorem strlcat_shape (dst src : List Char) {siz : Nat} (h : (cstr dst).length < siz) :
    ∃ r, strlcat dst src siz = (cstr dst ++ cstr src).take (siz - 1) ++ NUL :: r := by
  unfold strlcat
  have hlen : strnlen dst siz = (cstr dst).length := by
    unfold strnlen; rw [cstr_take_of_lt h]
  simp only [hlen]
  rw [if_neg (by omega)]
  refine ⟨dst.drop ((cstr dst).length + min (cstr src).length (siz - (cstr dst).length - 1) + 1), ?_⟩
  rw [take_cstr_length, List.take_append_eq_append_take,
    List.take_of_length_le (by omega : (cstr dst).length ≤ siz - 1)]
  congr 2
  rw [Nat.sub_right_comm]
  exact take_min_length _ _

theorem take_append_take_left {α : Type} (x y : List α) (m : Nat) :
    (x.take m ++ y).take m = (x ++ y).take m := by
  rw [List.take_append_eq_append_take, List.take_append_eq_append_take, List.take_take]
  simp only [min_self, List.length_take]
  by_cases h : m ≤ x.length
  · simp [Nat.min_eq_left h, Nat.sub_eq_zero_of_le h]
  · have h' : x.length ≤ m := by omega
    simp [Nat.min_eq_right h']

/-- Lines of the arguments as the C strings they hold. -/
theorem arg_lines_cstr {as : List (List Char)} (h : WellFormedArgs as) :
    arg_lines (as.map cstr) = arg_lines as := by
  induction as with
  | nil => rfl
  | cons a as ih =>
    have ha : NUL ∉ a := h a (List.mem_cons_self _ _)
    have has : WellFormedArgs as := fun b hb => h b (List.mem_cons_of_mem _ hb)
    simp [arg_lines, cstr_eq_self ha, ih has]

/-- The buffer after the loop that appends the arguments: the string it holds is the
string before the loop followed by the lines of the arguments, cut to `siz - 1` bytes. -/
theorem append_args_shape {siz : Nat} (as : List (List Char)) :
    ∀ (s r : List Char), NUL ∉ s → s.length < siz →
    ∃ r', append_args siz (s ++ NUL :: r) as
      = (s ++ arg_lines (as.map cstr)).take (siz - 1) ++ NUL :: r' := by
  induction as with
  | nil =>
    intro s r _ hlen
    exact ⟨r, by simp [append_args, arg_lines, List.take_of_length_le (by omega : s.length ≤ siz - 1)]⟩
  | cons a as ih =>
    intro s r hs hlen
    have hc : cstr (s ++ NUL :: r) = s := cstr_append_nul hs r
    obtain ⟨r1, h1⟩ := strlcat_shape (s ++ NUL :: r) a (by rw [hc]; exact hlen)
    rw [hc] at h1
    have hn1 : NUL ∉ (s ++ cstr a).take (siz - 1) :=
      nul_not_mem_take (by simp [hs, nul_not_mem_cstr]) _
    have hl1 : ((s ++ cstr a).take (siz - 1)).length < siz := by
      rw [List.length_take]; omega
    have hc1 : cstr ((s ++ cstr a).take (siz - 1) ++ NUL :: r1) = (s ++ cstr a).take (siz - 1) :=
      cstr_append_nul hn1 r1
    obtain ⟨r2, h2⟩ := strlcat_shape ((s ++ cstr a).take (siz - 1) ++ NUL :: r1) ['\n']
      (by rw [hc1]; exact hl1)
    rw [hc1] at h2
    have hnl : cstr ['\n'] = ['\n'] := by decide
    rw [hnl, take_append_take_left] at h2
    have hn2 : NUL ∉ (s ++ cstr a ++ ['\n']).take (siz - 1) := by
      apply nul_not_mem_take
      have : NUL ≠ '\n' := by decide
      simp [hs, nul_not_mem_cstr, this]
    have hl2 : ((s ++ cstr a ++ ['\n']).take (siz - 1)).length < siz := by
      rw [List.length_take]; omega
    obtain ⟨r3, h3⟩ := ih _ r2 hn2 hl2
    refine ⟨r3, ?_⟩
    simp only [append_args, h1, h2, h3, List.map_cons, arg_lines]
    rw [take_append_take_left]
    simp

theorem recovery_nl_toList :
    "recovery\n".toList = ['r', 'e', 'c', 'o', 'v', 'e', 'r', 'y', '\n'] := rfl

theorem recovery_toList : "recovery".toList = ['r', 'e', 'c', 'o', 'v', 'e', 'r', 'y'] := rfl

theorem nul_not_mem_recovery_nl : NUL ∉ "recovery\n".toList := by decide

theorem nul_not_mem_boot_recovery : NUL ∉ "boot-recovery".toList := by decide

/-- The result of `get_args` in terms of its three parts. -/
theorem get_args_eq_some {L : Layout} {boot : bootloader_message} {cf : Option (List Char)}
    {argv : List (List Char)} {r : ArgsResult} (h : get_args L boot cf argv = some r) :
    args_from_command_file cf (args_from_boot L boot argv).1 = some r.argv ∧
      r.saved = write_back L boot (args_from_boot L boot argv).2 r.argv := by
  unfold get_args at h
  simp only [Option.map_eq_some'] at h
  obtain ⟨args, h1, h2⟩ := h
  subst h2
  exact ⟨h1, rfl⟩

/-- The `recovery` field that `get_args` writes back: the string `recovery\n` followed by
the lines of the arguments, cut to the size of the field, then a terminator. -/
theorem write_back_recovery_shape (L : Layout) (boot : bootloader_message) (rec : List Char)
    (args : List (List Char)) (h : 0 < L.recovery_size) :
    ∃ r', (write_back L boot rec args).recovery
      = ("recovery\n".toList ++ arg_lines (args.tail.map cstr)).take (L.recovery_size - 1)
          ++ NUL :: r' := by
  unfold write_back
  simp only
  rw [strlcpy_shape _ _ h, cstr_eq_self nul_not_mem_recovery_nl]
  obtain ⟨r', hr⟩ := @append_args_shape L.recovery_size args.tail
    ("recovery\n".toList.take (L.recovery_size - 1)) _
    (nul_not_mem_take nul_not_mem_recovery_nl _) (by rw [List.length_take]; omega)
  exact ⟨r', by rw [hr, take_append_take_left]⟩

theorem nul_not_mem_arg_lines {as : List (List Char)} (h : WellFormedArgs as) :
    NUL ∉ arg_lines as := by
  induction as with
  | nil => simp [arg_lines]
  | cons a as ih =>
    have ha : NUL ∉ a := h a (List.mem_cons_self _ _)
    have has : WellFormedArgs as := fun b hb => h b (List.mem_cons_of_mem _ hb)
    have : NUL ≠ '\n' := by decide
    simp [arg_lines, ha, ih has, this]

theorem wellFormed_map_cstr (as : List (List Char)) : WellFormedArgs (as.map cstr) := by
  intro a ha
  simp only [List.mem_map] at ha
  obtain ⟨b, _, rfl⟩ := ha
  exact nul_not_mem_cstr b

theorem cstr_write_back_recovery (L : Layout) (boot : bootloader_message) (rec : List Char)
    (args : List (List Char)) (h : 0 < L.recovery_size) :
    cstr (write_back L boot rec args).recovery
      = ("recovery\n".toList ++ arg_lines (args.tail.map cstr)).take (L.recovery_size - 1) := by
  obtain ⟨r', hr⟩ := write_back_recovery_shape L boot rec args h
  rw [hr]
  apply cstr_append_nul
  apply nul_not_mem_take
  have := nul_not_mem_arg_lines (wellFormed_map_cstr args.tail)
  simp only [List.mem_append, not_or]
  exact ⟨nul_not_mem_recovery_nl, this⟩

theorem cstr_write_back_command (L : Layout) (boot : bootloader_message) (rec : List Char)
    (args : List (List Char)) (h : 0 < L.command_size) :
    cstr (write_back L boot rec args).command
      = "boot-recovery".toList.take (L.command_size - 1) := by
  unfold write_back
  simp only
  rw [cstr_strlcpy _ _ h, cstr_eq_self nul_not_mem_boot_recovery]

/-- C10. After any resolution by `get_args` (from the process arguments, from the block, from
the command file or from none of them), in a record whose `command` array has room for
`boot-recovery` with its terminator and whose `recovery` array has room for `recovery`,
the saved record holds `boot-recovery` in its command field and the first line of its
recovery field is `recovery`. -/
theorem get_args_pins_recovery (L : Layout) (boot : bootloader_message)
    (cf : Option (List Char)) (argv : List (List Char)) (r : ArgsResult)
    (hc : 14 ≤ L.command_size) (hr : 9 ≤ L.recovery_size)
    (h : get_args L boot cf argv = some r) :
    cstr r.saved.command = "boot-recovery".toList ∧
      first_line (cstr r.saved.recovery) = "recovery".toList := by
  obtain ⟨_, hs⟩ := get_args_eq_some h
  rw [hs]
  constructor
  · rw [cstr_write_back_command L boot _ _ (by omega)]
    apply List.take_of_length_le
    have : "boot-recovery".toList.length = 13 := rfl
    omega
  · rw [cstr_write_back_recovery L boot _ _ (by omega)]
    obtain ⟨k, hk⟩ : ∃ k, L.recovery_size - 1 = 8 + k := ⟨L.recovery_size - 9, by omega⟩
    rw [hk, recovery_nl_toList, recovery_toList]
    cases k with
    | zero => simp [first_line]
    | succ k =>
      have : 8 + (k + 1) = k + 9 := by omega
      rw [this]
      simp [first_line, List.take_succ_cons]

/-! ### Tokens of `strtok` -/

theorem strtok_token_nul_free {delim s : List Char} {t : List Char}
    (h : (strtok delim s).token = some t) : NUL ∉ t := by
  unfold strtok at h
  simp only at h
  split at h
  · simp at h
  · split at h
    · simp at h
    · have key : t = List.takeWhile (isTokenChar delim) (List.dropWhile (isDelim delim) s) := by
        split at h
        · simpa using h.symm
        · split at h <;> simpa using h.symm
      intro hm
      rw [key] at hm
      have := List.mem_takeWhile_imp hm
      simp [isTokenChar] at this

/-- A call of `strtok` on a token closed by a delimiter returns the token, overwrites the
delimiter and saves the position behind it. -/
theorem strtok_token_delim (delim tok : List Char) (d : Char) (rest : List Char)
    (hne : tok ≠ []) (htok : ∀ c ∈ tok, isTokenChar delim c = true)
    (hd : isTokenChar delim d = false) (hd0 : d ≠ NUL) :
    strtok delim (tok ++ d :: rest) = ⟨some tok, tok ++ [NUL], rest⟩ := by
  obtain ⟨c, cs, rfl⟩ := List.exists_cons_of_ne_nil hne
  have hc : isTokenChar delim c = true := htok c (List.mem_cons_self _ _)
  have hcd : isDelim delim c = false := by
    simp only [isTokenChar, Bool.and_eq_true, Bool.not_eq_true'] at hc
    exact hc.2
  have hc0 : c ≠ NUL := by
    simp only [isTokenChar, Bool.and_eq_true, bne_iff_ne, ne_eq] at hc
    exact hc.1
  have htw : List.takeWhile (isTokenChar delim) (c :: cs ++ d :: rest) = c :: cs := by
    rw [List.takeWhile_append_of_pos htok]
    simp [List.takeWhile_cons, hd]
  have hdw : List.dropWhile (isTokenChar delim) (c :: cs ++ d :: rest) = d :: rest := by
    rw [List.dropWhile_append_of_pos htok]
    simp [List.dropWhile_cons, hd]
  unfold strtok
  simp only [List.cons_append, List.takeWhile_cons, hcd, List.dropWhile_cons, Bool.false_eq_true,
    ↓reduceIte, hc0, List.nil_append]
  have htw' : List.takeWhile (isTokenChar delim) (c :: (cs ++ d :: rest)) = c :: cs := htw
  have hdw' : List.dropWhile (isTokenChar delim) (c :: (cs ++ d :: rest)) = d :: rest := hdw
  simp only [List.takeWhile_cons, List.dropWhile_cons] at htw' hdw'
  rw [hdw']
  simp only [hd0, ↓reduceIte, htw', List.cons_append]

/-- A call of `strtok` at the terminator returns NULL and changes nothing. -/
theorem strtok_at_nul (delim : List Char) (rest : List Char) (h : isDelim delim NUL = false) :
    strtok delim (NUL :: rest) = ⟨none, [], NUL :: rest⟩ := by
  unfold strtok
  simp [List.takeWhile_cons, List.dropWhile_cons, h]

theorem storable_tokenChars {a : List Char} (h : Storable a) :
    ∀ c ∈ a, isTokenChar ['\n'] c = true := by
  intro c hc
  have h0 : c ≠ NUL := fun e => h.2.1 (e ▸ hc)
  have h1 : c ≠ '\n' := fun e => h.2.2 (e ▸ hc)
  simp [isTokenChar, isDelim, h0, h1]

/-- The token loop reads back the lines of storable arguments, when their number does not
exceed the rounds of the loop. -/
theorem boot_tokens_arg_lines (as : List (List Char)) :
    ∀ (n : Nat) (r : List Char), (∀ a ∈ as, Storable a) → as.length ≤ n →
      (boot_tokens n (arg_lines as ++ NUL :: r)).tokens = as := by
  induction as with
  | nil =>
    intro n r _ _
    cases n with
    | zero => rfl
    | succ n =>
      simp only [arg_lines, List.nil_append, boot_tokens]
      rw [strtok_at_nul _ _ (by decide)]
  | cons a as ih =>
    intro n r hs hlen
    cases n with
    | zero => simp at hlen
    | succ n =>
      have ha : Storable a := hs a (List.mem_cons_self _ _)
      have has : ∀ b ∈ as, Storable b := fun b hb => hs b (List.mem_cons_of_mem _ hb)
      simp only [arg_lines, boot_tokens, List.append_assoc, List.cons_append]
      rw [strtok_token_delim ['\n'] a '\n' _ ha.1 (storable_tokenChars ha) (by decide) (by decide)]
      simp only
      rw [ih n r has (by simpa using hlen)]

theorem boot_tokens_wellFormed (n : Nat) :
    ∀ s : List Char, WellFormedArgs (boot_tokens n s).tokens := by
  induction n with
  | zero => intro s a ha; simp [boot_tokens] at ha
  | succ n ih =>
    intro s a ha
    simp only [boot_tokens] at ha
    split at ha
    · simp at ha
    · rename_i tok htok
      simp only [List.mem_cons] at ha
      rcases ha with rfl | ha
      · exact strtok_token_nul_free htok
      · exact ih _ a ha

theorem command_file_args_wellFormed (n : Nat) :
    ∀ (s : List Char) (l : List (List Char)), command_file_args n s = some l →
      WellFormedArgs l := by
  induction n with
  | zero =>
    intro s l h a ha
    simp only [command_file_args, Option.some.injEq] at h
    subst h
    simp at ha
  | succ n ih =>
    intro s l h
    simp only [command_file_args] at h
    split at h
    · simp only [Option.some.injEq] at h
      subst h
      intro a ha
      simp at ha
    · split at h
      · simp at h
      · rename_i buf unread _ tok htok
        simp only [Option.map_eq_some'] at h
        obtain ⟨l', hl', rfl⟩ := h
        intro a ha
        simp only [List.mem_cons] at ha
        rcases ha with rfl | ha
        · exact strtok_token_nul_free htok
        · exact ih _ _ hl' a ha

theorem args_from_boot_wellFormed (L : Layout) (boot : bootloader_message)
    {argv : List (List Char)} (h : WellFormedArgs argv) :
    WellFormedArgs (args_from_boot L boot argv).1 := by
  unfold args_from_boot
  split
  · simp only
    split
    · intro a ha
      simp only [List.mem_cons] at ha
      rcases ha with rfl | ha
      · decide
      · exact boot_tokens_wellFormed _ _ a ha
    · exact h
  · exact h

theorem wellFormed_headD {argv : List (List Char)} (h : WellFormedArgs argv) :
    NUL ∉ argv.headD [] := by
  cases argv with
  | nil => simp
  | cons a as => exact h a (List.mem_cons_self _ _)

theorem args_from_command_file_wellFormed {cf : Option (List Char)}
    {argv args : List (List Char)} (h : WellFormedArgs argv)
    (hr : args_from_command_file cf argv = some args) : WellFormedArgs args := by
  unfold args_from_command_file at hr
  split at hr
  · split at hr
    · simp only [Option.some.injEq] at hr
      exact hr ▸ h
    · simp only [Option.map_eq_some'] at hr
      obtain ⟨l, hl, rfl⟩ := hr
      intro a ha
      simp only [List.mem_cons] at ha
      rcases ha with rfl | ha
      · exact wellFormed_headD h
      · exact command_file_args_wellFormed _ _ _ hl a ha
  · simp only [Option.some.injEq] at hr
    exact hr ▸ h

/-- Arguments resolved from a vector of C strings are C strings. -/
theorem get_args_wellFormed {L : Layout} {boot : bootloader_message} {cf : Option (List Char)}
    {argv : List (List Char)} {r : ArgsResult} (hw : WellFormedArgs argv)
    (h : get_args L boot cf argv = some r) : WellFormedArgs r.argv :=
  args_from_command_file_wellFormed (args_from_boot_wellFormed L boot hw) (get_args_eq_some h).1

theorem wellFormed_tail {as : List (List Char)} (h : WellFormedArgs as) :
    WellFormedArgs as.tail :=
  fun a ha => h a (List.mem_of_mem_tail ha)

theorem arg_lines_eq_join {as : List (List Char)} (h : as ≠ []) :
    arg_lines as = join ['\n'] as ++ ['\n'] := by
  induction as with
  | nil => exact absurd rfl h
  | cons a as ih =>
    cases as with
    | nil => simp [arg_lines, join]
    | cons b bs =>
      have := ih (by simp)
      simp only [arg_lines, join, List.append_assoc, List.singleton_append] at this ⊢
      rw [this]
      simp

/-- C9 (as amended). After `get_args` on a vector of C strings, the `recovery` field of the
record handed to `set_bootloader_message` holds `recovery\n` followed by each of `args[1:]`
with a newline after it, cut to the size of the field less one, whichever source the
arguments came from. With at least one argument and room for the whole text this is
`"recovery\n" + join (args[1:], "\n") + "\n"`; without arguments it is `recovery\n` alone. -/
theorem get_args_rewrites_recovery (L : Layout) (boot : bootloader_message)
    (cf : Option (List Char)) (argv : List (List Char)) (r : ArgsResult)
    (hw : WellFormedArgs argv) (hsz : 0 < L.recovery_size)
    (h : get_args L boot cf argv = some r) :
    cstr r.saved.recovery
        = ("recovery\n".toList ++ arg_lines r.argv.tail).take (L.recovery_size - 1) ∧
      (r.argv.tail ≠ [] → (spec_recovery r.argv).length < L.recovery_size →
        cstr r.saved.recovery = spec_recovery r.argv) ∧
      (r.argv.tail = [] → 10 ≤ L.recovery_size →
        cstr r.saved.recovery = "recovery\n".toList) := by
  have hwr : WellFormedArgs r.argv.tail := wellFormed_tail (get_args_wellFormed hw h)
  have hmain : cstr r.saved.recovery
      = ("recovery\n".toList ++ arg_lines r.argv.tail).take (L.recovery_size - 1) := by
    rw [(get_args_eq_some h).2, cstr_write_back_recovery L boot _ _ hsz, arg_lines_cstr hwr]
  refine ⟨hmain, ?_, ?_⟩
  · intro hne hfit
    rw [hmain]
    unfold spec_recovery at hfit ⊢
    rw [arg_lines_eq_join hne, ← List.append_assoc]
    exact List.take_of_length_le (by omega)
  · intro hnil hfit
    rw [hmain, hnil]
    simp only [arg_lines, List.append_nil]
    apply List.take_of_length_le
    have : "recovery\n".toList.length = 9 := rfl
    omega

/-- C2 (as amended). The argument vector `get_args` resolves follows the precedence of
`resolved_args`: process arguments beyond the program name are used alone; else the tokens
after `recovery` in the block, when there is at least one; else the lines of the command
file (no argument when it does not open). -/
theorem get_args_precedence (L : Layout) (boot : bootloader_message)
    (cf : Option (List Char)) (argv : List (List Char)) :
    (get_args L boot cf argv).map (fun r => r.argv) = resolved_args L boot cf argv := by
  unfold get_args resolved_args
  simp only [Option.map_map]
  have hid : ((fun r : ArgsResult => r.argv) ∘ fun args =>
      (⟨args, write_back L boot (args_from_boot L boot argv).2 args⟩ : ArgsResult)) = id := rfl
  rw [hid, Option.map_id, id]
  by_cases hlen : 1 < argv.length
  · have h1 : ¬ argv.length ≤ 1 := by omega
    simp [args_from_boot, args_from_command_file, hlen, h1]
  · have h1 : argv.length ≤ 1 := by omega
    rw [if_neg hlen]
    unfold args_from_boot boot_args
    simp only [h1, ↓reduceIte]
    split
    · rename_i hrec
      simp only
      generalize (boot_tokens (MAX_ARGS - 1)
        (strtok ['\n'] (boot.recovery.set (L.recovery_size - 1) NUL)).rest).tokens = toks
      cases toks with
      | nil =>
        cases cf <;> simp [args_from_command_file]
      | cons t ts => simp [args_from_command_file]
    · simp only
      cases cf <;> simp [args_from_command_file, h1]

/-- Exact content of a buffer after `strlcat`: the bytes behind the new terminator are
those of `dst`. -/
theorem strlcat_exact (dst src : List Char) {siz : Nat} (h : (cstr dst).length < siz) :
    strlcat dst src siz = (cstr dst ++ cstr src).take (siz - 1)
      ++ NUL :: dst.drop (((cstr dst ++ cstr src).take (siz - 1)).length + 1) := by
  unfold strlcat
  have hlen : strnlen dst siz = (cstr dst).length := by
    unfold strnlen; rw [cstr_take_of_lt h]
  simp only [hlen]
  rw [if_neg (by omega)]
  rw [take_cstr_length, List.take_append_eq_append_take,
    List.take_of_length_le (by omega : (cstr dst).length ≤ siz - 1)]
  have e1 : List.take (min (cstr src).length (siz - (cstr dst).length - 1)) (cstr src)
      = List.take (siz - 1 - (cstr dst).length) (cstr src) := by
    rw [Nat.sub_right_comm]; exact take_min_length _ _
  rw [e1]
  congr 3
  simp only [List.length_append, List.length_take]
  omega

/-- Exact content of the buffer after the loop that appends the arguments, started on a
buffer that holds the string `s` and behind its terminator the bytes of `b`. -/
theorem append_args_exact {siz : Nat} (b : List Char) (as : List (List Char)) :
    ∀ (s : List Char), NUL ∉ s → s.length < siz →
    append_args siz (s ++ NUL :: b.drop (s.length + 1)) as
      = (s ++ arg_lines (as.map cstr)).take (siz - 1)
          ++ NUL :: b.drop (((s ++ arg_lines (as.map cstr)).take (siz - 1)).length + 1) := by
  induction as with
  | nil =>
    intro s _ hlen
    simp [append_args, arg_lines, List.take_of_length_le (by omega : s.length ≤ siz - 1)]
  | cons a as ih =>
    intro s hs hlen
    -- one `strlcat` on a buffer of this form gives a buffer of this form
    have step : ∀ (t src : List Char), NUL ∉ t → t.length < siz →
        strlcat (t ++ NUL :: b.drop (t.length + 1)) src siz
          = (t ++ cstr src).take (siz - 1)
              ++ NUL :: b.drop (((t ++ cstr src).take (siz - 1)).length + 1) := by
      intro t src ht htl
      have hc : cstr (t ++ NUL :: b.drop (t.length + 1)) = t := cstr_append_nul ht _
      rw [strlcat_exact _ _ (by rw [hc]; exact htl), hc]
      congr 2
      have hge : t.length ≤ ((t ++ cstr src).take (siz - 1)).length := by
        simp only [List.length_take, List.length_append]; omega
      rw [List.drop_append_eq_append_drop, List.drop_of_length_le (by omega), List.nil_append]
      obtain ⟨k, hk⟩ : ∃ k, ((t ++ cstr src).take (siz - 1)).length + 1 - t.length = k + 1 :=
        ⟨((t ++ cstr src).take (siz - 1)).length - t.length, by omega⟩
      rw [hk, List.drop_succ_cons, List.drop_drop]
      congr 1
      omega
    have hn1 : NUL ∉ (s ++ cstr a).take (siz - 1) :=
      nul_not_mem_take (by simp [hs, nul_not_mem_cstr]) _
    have hl1 : ((s ++ cstr a).take (siz - 1)).length < siz := by
      rw [List.length_take]; omega
    have hnl : cstr ['\n'] = ['\n'] := by decide
    have hn2 : NUL ∉ (s ++ cstr a ++ ['\n']).take (siz - 1) := by
      apply nul_not_mem_take
      have : NUL ≠ '\n' := by decide
      simp [hs, nul_not_mem_cstr, this]
    have hl2 : ((s ++ cstr a ++ ['\n']).take (siz - 1)).length < siz := by
      rw [List.length_take]; omega
    simp only [append_args]
    rw [step s a hs hlen, step _ ['\n'] hn1 hl1, hnl, take_append_take_left]
    rw [ih _ hn2 hl2, take_append_take_left]
    simp [arg_lines]

/-- Exact content of the `recovery` array that `get_args` writes back over the bytes
`rec`. -/
theorem write_back_recovery_exact (L : Layout) (boot : bootloader_message) (rec : List Char)
    (args : List (List Char)) (h : 0 < L.recovery_size) :
    (write_back L boot rec args).recovery
      = ("recovery\n".toList ++ arg_lines (args.tail.map cstr)).take (L.recovery_size - 1)
          ++ NUL :: rec.drop ((("recovery\n".toList ++ arg_lines (args.tail.map cstr)).take
              (L.recovery_size - 1)).length + 1) := by
  unfold write_back
  simp only
  have hcp : strlcpy rec "recovery\n".toList L.recovery_size
      = "recovery\n".toList.take (L.recovery_size - 1)
          ++ NUL :: rec.drop (("recovery\n".toList.take (L.recovery_size - 1)).length + 1) := by
    rw [strlcpy_shape _ _ h, cstr_eq_self nul_not_mem_recovery_nl]
    congr 3
    rw [List.length_take, Nat.min_comm]
  rw [hcp, append_args_exact rec args.tail _ (nul_not_mem_take nul_not_mem_recovery_nl _)
    (by rw [List.length_take]; omega), take_append_take_left]

/-- The token loop leaves the bytes behind the terminator alone and keeps the length of
what it has walked over. -/
theorem boot_tokens_buffer (as : List (List Char)) :
    ∀ (n : Nat) (r : List Char), (∀ a ∈ as, Storable a) → as.length ≤ n →
      ∃ x, (boot_tokens n (arg_lines as ++ NUL :: r)).buffer = x ++ NUL :: r ∧
        x.length = (arg_lines as).length := by
  induction as with
  | nil =>
    intro n r _ _
    refine ⟨[], ?_, rfl⟩
    cases n with
    | zero => rfl
    | succ n =>
      simp only [arg_lines, List.nil_append, boot_tokens]
      rw [strtok_at_nul _ _ (by decide)]
      rfl
  | cons a as ih =>
    intro n r hs hlen
    cases n with
    | zero => simp at hlen
    | succ n =>
      have ha : Storable a := hs a (List.mem_cons_self _ _)
      have has : ∀ b ∈ as, Storable b := fun b hb => hs b (List.mem_cons_of_mem _ hb)
      obtain ⟨x, hx, hxl⟩ := ih n r has (by simpa using hlen)
      refine ⟨a ++ [NUL] ++ x, ?_, ?_⟩
      · simp only [arg_lines, boot_tokens, List.append_assoc, List.cons_append]
        rw [strtok_token_delim ['\n'] a '\n' _ ha.1 (storable_tokenChars ha) (by decide)
          (by decide)]
        simp only [hx]
        simp
      · simp [arg_lines, hxl]

theorem strlcpy_strlcpy (dst src : List Char) (siz : Nat) :
    strlcpy (strlcpy dst src siz) src siz = strlcpy dst src siz := by
  unfold strlcpy
  by_cases h : siz = 0
  · simp [h]
  · simp only [h, ↓reduceIte, List.append_cancel_left_eq, List.cons.injEq, true_and]
    rw [List.drop_append_eq_append_drop]
    have hl : (List.take (min (cstr src).length (siz - 1)) (cstr src)).length
        = min (cstr src).length (siz - 1) := by
      rw [List.length_take]; omega
    rw [hl, List.drop_of_length_le (by rw [hl]; omega)]
    simp

theorem args_from_command_file_tail_nil {cf : Option (List Char)} {argv args : List (List Char)}
    (h : args_from_command_file cf argv = some args) (ht : args.tail = []) :
    cf = none ∨ ∃ c, cf = some c ∧ command_file_args (MAX_ARGS - 1) c = some [] := by
  cases cf with
  | none => exact Or.inl rfl
  | some c =>
    right
    refine ⟨c, rfl, ?_⟩
    unfold args_from_command_file at h
    split at h
    · simp only [Option.map_eq_some'] at h
      obtain ⟨l, hl, rfl⟩ := h
      simp only [List.tail_cons] at ht
      rw [hl, ht]
    · rename_i hlen
      simp only [Option.some.injEq] at h
      subst h
      cases argv with
      | nil => simp at hlen
      | cons a as =>
        simp only [List.tail_cons] at ht
        subst ht
        simp at hlen

/-- C1. Restart round trip of `get_args`. Let `get_args` resolve the vector `r1.argv` from a
process vector of C strings and save the record `r1.saved`, and let the arguments `args[1:]`
be non-empty strings without newline, at most 99 in number, that fit in the `recovery` array
together with `recovery\n`, their newline separators and the terminator. Then `get_args` run
again with `argc <= 1` on the saved record returns, yields the same arguments `args[1:]` in
the same order, and saves the same fields again: the `command` and `status` arrays byte for
byte, and the `recovery` array with the same string in it; byte for byte the `recovery`
array is the saved one with its last byte set to NUL, which is what the second run does
before it reads the block. When `args[1:]` is empty the command file of the second run is
the one of the first run or cannot be opened. -/
theorem get_args_restart (L : Layout) (boot : bootloader_message) (cf cf2 : Option (List Char))
    (argv argv2 : List (List Char)) (r1 : ArgsResult)
    (hw : WellFormedArgs argv)
    (h1 : get_args L boot cf argv = some r1)
    (hst : ∀ a ∈ r1.argv.tail, a ≠ [] ∧ '\n' ∉ a)
    (hcount : r1.argv.tail.length ≤ 99)
    (hfit : ("recovery\n".toList ++ arg_lines r1.argv.tail).length < L.recovery_size)
    (hargc : argv2.length ≤ 1)
    (hcf : r1.argv.tail = [] → cf2 = none ∨ cf2 = cf) :
    ∃ r2, get_args L r1.saved cf2 argv2 = some r2 ∧
      r2.argv.tail = r1.argv.tail ∧
      r2.saved.command = r1.saved.command ∧
      r2.saved.status = r1.saved.status ∧
      cstr r2.saved.recovery = cstr r1.saved.recovery ∧
      r2.saved.recovery = r1.saved.recovery.set (L.recovery_size - 1) NUL := by
  have hsz : 0 < L.recovery_size := by omega
  have hwr : WellFormedArgs r1.argv.tail := wellFormed_tail (get_args_wellFormed hw h1)
  have hstor : ∀ a ∈ r1.argv.tail, Storable a :=
    fun a ha => ⟨(hst a ha).1, hwr a ha, (hst a ha).2⟩
  obtain ⟨hfile1, hsaved1⟩ := get_args_eq_some h1
  -- the recovery array saved by the first run
  obtain ⟨r', hshape⟩ := write_back_recovery_shape L boot (args_from_boot L boot argv).2 r1.argv hsz
  rw [← hsaved1, arg_lines_cstr hwr, List.take_of_length_le (by omega)] at hshape
  -- the first part of the second run reads the arguments back
  have hset : ∃ r'', r1.saved.recovery.set (L.recovery_size - 1) NUL
      = "recovery".toList ++ '\n' :: (arg_lines r1.argv.tail ++ NUL :: r'') := by
    rw [hshape, List.set_append, if_neg (by omega)]
    generalize L.recovery_size - 1 - ("recovery\n".toList ++ arg_lines r1.argv.tail).length = k
    cases k with
    | zero => exact ⟨r', by simp [recovery_nl_toList, recovery_toList]⟩
    | succ k => exact ⟨r'.set k NUL, by simp [recovery_nl_toList, recovery_toList]⟩
  obtain ⟨r'', hset⟩ := hset
  have hfirst : strtok ['\n'] (r1.saved.recovery.set (L.recovery_size - 1) NUL)
      = ⟨some "recovery".toList, "recovery".toList ++ [NUL],
          arg_lines r1.argv.tail ++ NUL :: r''⟩ := by
    rw [hset]
    exact strtok_token_delim ['\n'] "recovery".toList '\n' _ (by decide) (by decide)
      (by decide) (by decide)
  have hboot : args_from_boot L r1.saved argv2 = ("recovery".toList :: r1.argv.tail,
      "recovery".toList ++ [NUL]
        ++ (boot_tokens (MAX_ARGS - 1) (arg_lines r1.argv.tail ++ NUL :: r'')).buffer) := by
    unfold args_from_boot
    simp only [hargc, ↓reduceIte, hfirst]
    rw [boot_tokens_arg_lines _ _ _ hstor (by simpa [MAX_ARGS] using hcount)]
  -- the second part leaves them alone
  have hfile2 : args_from_command_file cf2 ("recovery".toList :: r1.argv.tail)
      = some ("recovery".toList :: r1.argv.tail) := by
    by_cases hnil : r1.argv.tail = []
    · rw [hnil]
      have hcases : cf2 = none ∨ ∃ c, cf2 = some c ∧
          command_file_args (MAX_ARGS - 1) c = some [] := by
        rcases hcf hnil with h | h
        · exact Or.inl h
        · rw [h]; exact args_from_command_file_tail_nil hfile1 hnil
      rcases hcases with h | ⟨c, h, hc⟩
      · simp [args_from_command_file, h]
      · simp [args_from_command_file, h, hc]
    · obtain ⟨a, as, has⟩ := List.exists_cons_of_ne_nil hnil
      simp [args_from_command_file, has]
  refine ⟨⟨"recovery".toList :: r1.argv.tail,
    write_back L r1.saved (args_from_boot L r1.saved argv2).2
      ("recovery".toList :: r1.argv.tail)⟩, ?_, rfl, ?_, ?_, ?_, ?_⟩
  · unfold get_args
    simp only [hboot, hfile2, Option.map_some']
  · rw [hsaved1]
    simp only [write_back]
    exact strlcpy_strlcpy _ _ _
  · rfl
  · rw [cstr_write_back_recovery L r1.saved _ _ hsz]
    rw [hsaved1, cstr_write_back_recovery L boot _ _ hsz]
    rfl
  · -- the third part writes the same string over a buffer that differs only inside it
    obtain ⟨x, hx, hxl⟩ := boot_tokens_buffer r1.argv.tail (MAX_ARGS - 1) r'' hstor
      (by simpa [MAX_ARGS] using hcount)
    simp only
    rw [write_back_recovery_exact L r1.saved _ _ hsz, hboot, hset]
    simp only [List.tail_cons, arg_lines_cstr hwr, hx]
    rw [List.take_of_length_le (by omega)]
    have hlen : ("recovery\n".toList ++ arg_lines r1.argv.tail).length + 1
        = ("recovery".toList ++ [NUL] ++ x).length + 1 := by
      simp only [List.length_append, hxl]
      rfl
    have hdrop : List.drop (("recovery\n".toList ++ arg_lines r1.argv.tail).length + 1)
        ("recovery".toList ++ [NUL] ++ (x ++ NUL :: r'')) = r'' := by
      rw [hlen, ← List.append_assoc, List.drop_append_eq_append_drop,
        List.drop_of_length_le (by omega)]
      simp
    rw [hdrop]
    simp [recovery_nl_toList, recovery_toList]

/-! ### The copy loop -/

theorem read_line_length_le (k : Nat) : ∀ s : List Char, (read_line k s).length ≤ s.length := by
  induction k with
  | zero => intro s; simp [read_line]
  | succ k ih =>
    intro s
    cases s with
    | nil => simp [read_line]
    | cons c cs =>
      simp only [read_line]
      split
      · simp
      · simpa using ih cs

theorem read_line_append_drop (k : Nat) :
    ∀ s : List Char, read_line k s ++ s.drop (read_line k s).length = s := by
  induction k with
  | zero => intro s; simp [read_line]
  | succ k ih =>
    intro s
    cases s with
    | nil => simp [read_line]
    | cons c cs =>
      simp only [read_line]
      split
      · simp
      · simpa using ih cs

theorem read_line_pos (k : Nat) (c : Char) (cs : List Char) :
    0 < (read_line (k + 1) (c :: cs)).length := by
  simp only [read_line]
  split <;> simp

/-- The stream of the temporary log ends the loop at the end of the file, whatever the bytes
are, once the rounds allowed are as many as the unread bytes. -/
theorem copy_loop_pos (n : Nat) :
    ∀ (unread : List Char) (pos : Nat) (out : List Char), unread.length ≤ n →
      (copy_loop n unread pos out).1 = pos + unread.length := by
  induction n with
  | zero =>
    intro unread pos out h
    have : unread = [] := List.length_eq_zero.mp (by omega)
    simp [copy_loop, this]
  | succ n ih =>
    intro unread pos out h
    cases unread with
    | nil => simp [copy_loop, fgets]
    | cons c cs =>
      simp only [copy_loop, fgets]
      have hpos : 0 < (read_line (4096 - 1) (c :: cs)).length := read_line_pos 4094 c cs
      have hle := read_line_length_le (4096 - 1) (c :: cs)
      have hsplit := congrArg List.length (read_line_append_drop (4096 - 1) (c :: cs))
      simp only [List.length_append] at hsplit
      rw [ih _ _ _ (by simp only [List.length_cons] at h hsplit ⊢; omega)]
      omega

/-- Text without NUL is copied byte for byte. -/
theorem copy_loop_out (n : Nat) :
    ∀ (unread : List Char) (pos : Nat) (out : List Char), unread.length ≤ n →
      NUL ∉ unread → (copy_loop n unread pos out).2 = out ++ unread := by
  induction n with
  | zero =>
    intro unread pos out h _
    have : unread = [] := List.length_eq_zero.mp (by omega)
    simp [copy_loop, this]
  | succ n ih =>
    intro unread pos out h hnul
    cases unread with
    | nil => simp [copy_loop, fgets]
    | cons c cs =>
      simp only [copy_loop, fgets]
      have hpos : 0 < (read_line (4096 - 1) (c :: cs)).length := read_line_pos 4094 c cs
      have happ := read_line_append_drop (4096 - 1) (c :: cs)
      have hsplit := congrArg List.length happ
      simp only [List.length_append] at hsplit
      have hn1 : NUL ∉ read_line (4096 - 1) (c :: cs) := by
        intro hm
        apply hnul
        rw [← happ]
        exact List.mem_append_left _ hm
      have hn2 : NUL ∉ (c :: cs).drop (read_line (4096 - 1) (c :: cs)).length :=
        fun hm => hnul (List.mem_of_mem_drop hm)
      rw [ih _ _ _ (by simp only [List.length_cons] at h hsplit ⊢; omega) hn2]
      simp only [fputs, cstr_eq_self hn1, List.append_assoc]
      rw [happ]

/-- With nothing left to read the loop writes nothing. -/
theorem copy_loop_nil (n pos : Nat) (out : List Char) : copy_loop n [] pos out = (pos, out) := by
  cases n <;> simp [copy_loop, fgets]

/-- More rounds than unread bytes change nothing: the loop has ended by then. -/
theorem copy_loop_fuel (n : Nat) :
    ∀ (m : Nat) (unread : List Char) (pos : Nat) (out : List Char), unread.length ≤ n → n ≤ m →
      copy_loop m unread pos out = copy_loop n unread pos out := by
  induction n with
  | zero =>
    intro m unread pos out h _
    have : unread = [] := List.length_eq_zero.mp (by omega)
    simp [this, copy_loop_nil]
  | succ n ih =>
    intro m unread pos out h hm
    obtain ⟨m', rfl⟩ : ∃ m', m = m' + 1 := ⟨m - 1, by omega⟩
    cases unread with
    | nil => simp [copy_loop_nil]
    | cons c cs =>
      simp only [copy_loop, fgets]
      have hpos : 0 < (read_line (4096 - 1) (c :: cs)).length := read_line_pos 4094 c cs
      have hsplit := congrArg List.length (read_line_append_drop (4096 - 1) (c :: cs))
      simp only [List.length_append] at hsplit
      exact ih m' _ _ _ (by simp only [List.length_cons] at h hsplit ⊢; omega) (by omega)

/-! ### `copy_log_file` and `finish_recovery` -/

theorem write_file_same (files : String → Option (List Char)) (path : String)
    (content : Option (List Char)) : write_file files path content path = content := by
  simp [write_file]

theorem write_file_other (files : String → Option (List Char)) {path p : String}
    (content : Option (List Char)) (h : p ≠ path) : write_file files path content p = files p := by
  simp [write_file, h]

theorem write_file_write_file (files : String → Option (List Char)) (path : String)
    (a b : Option (List Char)) :
    write_file (write_file files path a) path b = write_file files path b := by
  funext p
  by_cases h : p = path <;> simp [write_file, h]

theorem write_file_eq_self (files : String → Option (List Char)) (path : String)
    (a : Option (List Char)) (h : files path = a) : write_file files path a = files := by
  funext p
  by_cases hp : p = path
  · simp [write_file, hp, h]
  · simp [write_file, hp]

theorem drop_past_end (t : List Char) (o : Nat) : t.drop (o + (t.drop o).length) = [] := by
  apply List.drop_of_length_le
  rw [List.length_drop]
  omega

/-- The function `copy_log_file` when the destination mounts and opens and the temporary
log opens:
the destination is opened, receives what the loop writes, and in append mode the offset
becomes the position of the stream after the loop. -/
theorem copy_log_file_ok (env : Env) (destination : String) (append : Bool) (s : Store)
    (tmplog : List Char) (hdest : destination ≠ TEMPORARY_LOG_FILE)
    (hmount : env.ensure_path_mounted destination = 0) (hfopen : env.fopen destination = 0)
    (htmp : s.files TEMPORARY_LOG_FILE = some tmplog) :
    copy_log_file env destination append s =
      ⟨write_file s.files destination (some (copy_loop
          (tmplog.drop (if append then s.tmplog_offset else 0)).length
          (tmplog.drop (if append then s.tmplog_offset else 0))
          (if append then s.tmplog_offset else 0)
          (if append then (s.files destination).getD [] else [])).2),
        if append then s.tmplog_offset + (tmplog.drop s.tmplog_offset).length
        else s.tmplog_offset,
        s.bcb⟩ := by
  unfold copy_log_file fopen_path_write
  simp only [hmount, hfopen, ne_eq, not_true_eq_false, ↓reduceIte]
  rw [write_file_other _ _ (Ne.symm hdest), htmp]
  simp only [write_file_same, Option.getD_some, write_file_write_file]
  cases append
  · simp
  · simp only [↓reduceIte, Store.mk.injEq, true_and, and_true]
    exact copy_loop_pos _ _ _ _ (le_refl _)

/-- The function `copy_log_file` when the destination mounts and opens and the temporary
log does not open: the destination is opened and a diagnostic is printed. -/
theorem copy_log_file_no_tmplog (env : Env) (destination : String) (append : Bool) (s : Store)
    (hdest : destination ≠ TEMPORARY_LOG_FILE)
    (hmount : env.ensure_path_mounted destination = 0) (hfopen : env.fopen destination = 0)
    (htmp : s.files TEMPORARY_LOG_FILE = none) :
    copy_log_file env destination append s =
      ⟨write_file s.files destination
          (some (if append then (s.files destination).getD [] else [])),
        s.tmplog_offset, s.bcb⟩ := by
  unfold copy_log_file fopen_path_write
  simp only [hmount, hfopen, ne_eq, not_true_eq_false, ↓reduceIte]
  rw [write_file_other _ _ (Ne.symm hdest), htmp]
  simp only [log_to_stdout]
  rw [write_file_other _ _ (Ne.symm hdest), htmp]
  simp only [Option.map_none', Store.mk.injEq, and_self, and_true]
  exact write_file_eq_self _ _ _ (by rw [write_file_other _ _ (Ne.symm hdest), htmp])

/-- C7 (as amended). `copy_log_file` in append mode, on a destination that can be opened
(its path mounts and `fopen` gives a stream), with
offset `O` on a temporary log of length `L`, `O <= L`: when the bytes of the temporary log
from position `O` on hold no NUL, exactly those `L - O` bytes are appended to the
destination; in every case the offset becomes `L` and the temporary log is not written; and
a second append right after it changes nothing: it appends 0 bytes and leaves the offset
at `L`. -/
theorem copy_log_file_append (env : Env) (destination : String) (s : Store)
    (tmplog : List Char) (hdest : destination ≠ TEMPORARY_LOG_FILE)
    (hmount : env.ensure_path_mounted destination = 0) (hfopen : env.fopen destination = 0)
    (htmp : s.files TEMPORARY_LOG_FILE = some tmplog)
    (hoff : s.tmplog_offset ≤ tmplog.length) :
    (NUL ∉ tmplog.drop s.tmplog_offset →
        (copy_log_file env destination true s).files destination
          = some ((s.files destination).getD [] ++ tmplog.drop s.tmplog_offset)) ∧
      (tmplog.drop s.tmplog_offset).length = tmplog.length - s.tmplog_offset ∧
      (copy_log_file env destination true s).tmplog_offset = tmplog.length ∧
      (copy_log_file env destination true s).files TEMPORARY_LOG_FILE = some tmplog ∧
      copy_log_file env destination true (copy_log_file env destination true s)
        = copy_log_file env destination true s := by
  have h1 := copy_log_file_ok env destination true s tmplog hdest hmount hfopen htmp
  simp only [↓reduceIte] at h1
  have htmp1 : (copy_log_file env destination true s).files TEMPORARY_LOG_FILE = some tmplog := by
    rw [h1]
    simp only
    rw [write_file_other _ _ (Ne.symm hdest), htmp]
  refine ⟨?_, List.length_drop _ _, ?_, htmp1, ?_⟩
  · intro htext
    rw [h1]
    simp only [write_file_same]
    rw [copy_loop_out _ _ _ _ (le_refl _) htext]
  · rw [h1]
    simp only [List.length_drop]
    omega
  · rw [copy_log_file_ok env destination true _ tmplog hdest hmount hfopen htmp1]
    simp only [↓reduceIte]
    rw [h1]
    simp only [write_file_same, Option.getD_some, write_file_write_file, drop_past_end,
      List.length_nil, copy_loop, Nat.add_zero]

/-- The state `finish_recovery` leaves when the paths under `/cache` mount, its files open
and the command file can be removed. -/
theorem finish_recovery_ok (env : Env) (L : Layout) (send_intent : Option (List Char))
    (s : Store)
    (hmount : ∀ p ∈ [INTENT_FILE, LOG_FILE, LAST_LOG_FILE, COMMAND_FILE],
      env.ensure_path_mounted p = 0)
    (hfopen : ∀ p ∈ [INTENT_FILE, LOG_FILE, LAST_LOG_FILE], env.fopen p = 0)
    (hunlink : env.unlink COMMAND_FILE = 0) :
    finish_recovery env L send_intent s =
      ⟨fun p =>
          if p = COMMAND_FILE then none
          else if p = LAST_LOG_FILE then
            some (match s.files TEMPORARY_LOG_FILE with
              | none => []
              | some t => (copy_loop t.length t 0 []).2)
          else if p = LOG_FILE then
            some (match s.files TEMPORARY_LOG_FILE with
              | none => (s.files LOG_FILE).getD []
              | some t => (copy_loop (t.drop s.tmplog_offset).length (t.drop s.tmplog_offset)
                  s.tmplog_offset ((s.files LOG_FILE).getD [])).2)
          else if p = INTENT_FILE then
            (match send_intent with
              | none => s.files INTENT_FILE
              | some text => some (cstr text))
          else s.files p,
        match s.files TEMPORARY_LOG_FILE with
          | none => s.tmplog_offset
          | some t => s.tmplog_offset + (t.drop s.tmplog_offset).length,
        zero_message L⟩ := by
  have m1 : env.ensure_path_mounted INTENT_FILE = 0 := hmount _ (by simp)
  have m2 : env.ensure_path_mounted LOG_FILE = 0 := hmount _ (by simp)
  have m3 : env.ensure_path_mounted LAST_LOG_FILE = 0 := hmount _ (by simp)
  have m4 : env.ensure_path_mounted COMMAND_FILE = 0 := hmount _ (by simp)
  have f1 : env.fopen INTENT_FILE = 0 := hfopen _ (by simp)
  have f2 : env.fopen LOG_FILE = 0 := hfopen _ (by simp)
  have f3 : env.fopen LAST_LOG_FILE = 0 := hfopen _ (by simp)
  have d1 : LOG_FILE ≠ TEMPORARY_LOG_FILE := by decide
  have d2 : LAST_LOG_FILE ≠ TEMPORARY_LOG_FILE := by decide
  have d3 : INTENT_FILE ≠ TEMPORARY_LOG_FILE := by decide
  have d4 : LOG_FILE ≠ INTENT_FILE := by decide
  have d5 : LAST_LOG_FILE ≠ LOG_FILE := by decide
  have d6 : COMMAND_FILE ≠ LAST_LOG_FILE := by decide
  have d7 : COMMAND_FILE ≠ LOG_FILE := by decide
  have d8 : COMMAND_FILE ≠ INTENT_FILE := by decide
  have d9 : LAST_LOG_FILE ≠ INTENT_FILE := by decide
  -- the state after the intent is written
  obtain ⟨s1, hs1, hf1, ho1, hb1⟩ : ∃ s1 : Store,
      (match send_intent with
        | none => s
        | some text =>
          match fopen_path_write env INTENT_FILE false s with
          | (s', false) => log_to_stdout (env.LOGE ("Can't open " ++ INTENT_FILE ++ "\n")) s'
          | (s', true) =>
            { s' with files := (write_file s'.files INTENT_FILE
                (some (fputs text ((s'.files INTENT_FILE).getD [])))) }) = s1 ∧
      s1.files = (fun p => if p = INTENT_FILE then
          (match send_intent with
            | none => s.files INTENT_FILE
            | some text => some (cstr text)) else s.files p) ∧
      s1.tmplog_offset = s.tmplog_offset ∧ s1.bcb = s.bcb := by
    refine ⟨_, rfl, ?_, ?_, ?_⟩
    · cases send_intent with
      | none => funext p; by_cases hp : p = INTENT_FILE <;> simp [hp]
      | some text =>
        funext p
        by_cases hp : p = INTENT_FILE <;>
          simp [fopen_path_write, m1, f1, write_file, fputs, hp]
    · cases send_intent <;> simp [fopen_path_write, m1, f1]
    · cases send_intent <;> simp [fopen_path_write, m1, f1]
  unfold finish_recovery
  simp only [hs1, m4, hunlink, ne_eq, not_true_eq_false, ↓reduceIte]
  have ht1 : s1.files TEMPORARY_LOG_FILE = s.files TEMPORARY_LOG_FILE := by
    rw [hf1]; simp [Ne.symm d3]
  have hl1 : s1.files LOG_FILE = s.files LOG_FILE := by
    rw [hf1]; simp [d4]
  cases htmp : s.files TEMPORARY_LOG_FILE with
  | none =>
    rw [copy_log_file_no_tmplog env LOG_FILE true s1 d1 m2 f2 (ht1.trans htmp)]
    rw [copy_log_file_no_tmplog env LAST_LOG_FILE false _ d2 m3 f3
      (by simp only; rw [write_file_other _ _ (Ne.symm d1)]; exact ht1.trans htmp)]
    simp only [↓reduceIte, Bool.false_eq_true, ho1, Store.mk.injEq, and_true, hl1]
    funext p
    simp only [write_file, hf1]
  | some t =>
    rw [copy_log_file_ok env LOG_FILE true s1 t d1 m2 f2 (ht1.trans htmp)]
    rw [copy_log_file_ok env LAST_LOG_FILE false _ t d2 m3 f3
      (by simp only; rw [write_file_other _ _ (Ne.symm d1)]; exact ht1.trans htmp)]
    simp only [↓reduceIte, Bool.false_eq_true, ho1, Store.mk.injEq, and_true, hl1,
      List.drop_zero]
    funext p
    simp only [write_file, hf1]

/-- Where nothing fails `finish_recovery` is idempotent: when its four paths under `/cache`
mount, its three files open and the command file can be removed, then for every state and
every `send_intent`, calling it twice in succession leaves the state that calling it once
leaves, in which the command file is absent and the persistent record is all NUL. -/
theorem finish_recovery_twice_ok (env : Env) (L : Layout) (send_intent : Option (List Char))
    (s : Store)
    (hmount : ∀ p ∈ [INTENT_FILE, LOG_FILE, LAST_LOG_FILE, COMMAND_FILE],
      env.ensure_path_mounted p = 0)
    (hfopen : ∀ p ∈ [INTENT_FILE, LOG_FILE, LAST_LOG_FILE], env.fopen p = 0)
    (hunlink : env.unlink COMMAND_FILE = 0) :
    finish_recovery env L send_intent (finish_recovery env L send_intent s)
        = finish_recovery env L send_intent s ∧
      (finish_recovery env L send_intent s).files COMMAND_FILE = none ∧
      (finish_recovery env L send_intent s).bcb = zero_message L := by
  have d3 : TEMPORARY_LOG_FILE ≠ INTENT_FILE := by decide
  have d4 : TEMPORARY_LOG_FILE ≠ LOG_FILE := by decide
  have d5 : TEMPORARY_LOG_FILE ≠ LAST_LOG_FILE := by decide
  have d6 : TEMPORARY_LOG_FILE ≠ COMMAND_FILE := by decide
  have e1 : LOG_FILE ≠ COMMAND_FILE := by decide
  have e2 : LOG_FILE ≠ LAST_LOG_FILE := by decide
  have e3 : INTENT_FILE ≠ COMMAND_FILE := by decide
  have e4 : INTENT_FILE ≠ LAST_LOG_FILE := by decide
  have e5 : INTENT_FILE ≠ LOG_FILE := by decide
  have h1 := finish_recovery_ok env L send_intent s hmount hfopen hunlink
  refine ⟨?_, by rw [h1]; simp, by rw [h1]⟩
  rw [finish_recovery_ok env L send_intent _ hmount hfopen hunlink, h1]
  simp only [d3, d4, d5, d6, e1, e2, e3, e4, e5, ↓reduceIte, Option.getD_some]
  cases htmp : s.files TEMPORARY_LOG_FILE with
  | none =>
    simp only [Store.mk.injEq, and_self, and_true]
    funext p
    by_cases p1 : p = COMMAND_FILE
    · simp [p1]
    · by_cases p2 : p = LAST_LOG_FILE
      · simp [p1, p2]
      · by_cases p3 : p = LOG_FILE
        · simp [p1, p2, p3]
        · by_cases p4 : p = INTENT_FILE
          · cases send_intent <;> simp [p1, p2, p3, p4]
          · simp [p1, p2, p3, p4]
  | some t =>
    simp only [drop_past_end, List.length_nil, Nat.add_zero, copy_loop, Store.mk.injEq,
      and_self, and_true]
    funext p
    by_cases p1 : p = COMMAND_FILE
    · simp [p1]
    · by_cases p2 : p = LAST_LOG_FILE
      · simp [p1, p2]
      · by_cases p3 : p = LOG_FILE
        · simp [p1, p2, p3]
        · by_cases p4 : p = INTENT_FILE
          · cases send_intent <;> simp [p1, p2, p3, p4]
          · simp [p1, p2, p3, p4]

/-! ### The session -/

theorem erase_volume_data (env : Env) (s : Session) :
    erase_volume env "/data" s =
      (⟨s.tmplog_offset, s.status, s.mode,
        s.trace ++ [Event.ui_print "Formatting /data...\n",
          Event.format_volume "/data" (env.format_volume "/data")]⟩,
       env.format_volume "/data") := by
  have hd : ("/data" : String) ≠ "/cache" := by decide
  have hs : ("Formatting " : String) ++ "/data" ++ "...\n" = "Formatting /data...\n" := by decide
  simp [erase_volume, hd, hs]

theorem erase_volume_cache (env : Env) (s : Session) :
    erase_volume env "/cache" s =
      (⟨0, s.status, s.mode,
        s.trace ++ [Event.ui_print "Formatting /cache...\n",
          Event.format_volume "/cache" (env.format_volume "/cache")]⟩,
       env.format_volume "/cache") := by
  have hs : ("Formatting " : String) ++ "/cache" ++ "...\n" = "Formatting /cache...\n" := by
    decide
  simp [erase_volume, hs]

theorem toggle_select_mode_offset (m : List Char) (s : Session) :
    (toggle_select_mode m s).tmplog_offset = s.tmplog_offset := by
  unfold toggle_select_mode
  split_ifs <;> rfl

theorem toggle_select_mode_format (m : List Char) (s : Session) (v : String) (r : Int) :
    Event.format_volume v r ∈ (toggle_select_mode m s).trace ↔
      Event.format_volume v r ∈ s.trace := by
  unfold toggle_select_mode
  split_ifs <;> simp

theorem toggle_read_info_offset (env : Env) (s : Session) :
    (toggle_read_info env s).tmplog_offset = s.tmplog_offset := by
  simp only [toggle_read_info]
  split_ifs <;> rfl

theorem toggle_read_info_format (env : Env) (s : Session) (v : String) (r : Int) :
    Event.format_volume v r ∈ (toggle_read_info env s).trace ↔
      Event.format_volume v r ∈ s.trace := by
  simp only [toggle_read_info]
  split_ifs <;> simp

theorem toggle_erase_cache (env : Env) (s : Session) (r : Int)
    (h : Event.format_volume "/cache" r ∈ (toggle_erase env s).trace) :
    Event.format_volume "/cache" r ∈ s.trace ∨ (toggle_erase env s).tmplog_offset = 0 := by
  have hd : ("/data" : String) ≠ "/cache" := by decide
  revert h
  simp only [toggle_erase, erase_volume_data, erase_volume_cache]
  split_ifs <;> (try simp [hd]) <;> (try tauto)

theorem wipe_data_branch_cache (env : Env) (wipe_cache : Bool) (s : Session) (r : Int)
    (h : Event.format_volume "/cache" r ∈ (wipe_data_branch env wipe_cache s).trace) :
    Event.format_volume "/cache" r ∈ s.trace ∨
      (wipe_data_branch env wipe_cache s).tmplog_offset = 0 := by
  have hd : ("/data" : String) ≠ "/cache" := by decide
  revert h
  simp only [wipe_data_branch, erase_volume_data, erase_volume_cache]
  split_ifs <;> (try simp [hd]) <;> (try tauto)

theorem wipe_cache_branch_cache (env : Env) (wipe_cache : Bool) (s : Session) (r : Int)
    (h : Event.format_volume "/cache" r ∈ (wipe_cache_branch env wipe_cache s).trace) :
    Event.format_volume "/cache" r ∈ s.trace ∨
      (wipe_cache_branch env wipe_cache s).tmplog_offset = 0 := by
  revert h
  simp only [wipe_cache_branch, erase_volume_cache]
  split_ifs <;> (try simp) <;> (try tauto)

/-- C6. For every prior value of the log offset and whatever `format_volume` returns, after
`erase_volume ("/cache")` the log offset `tmplog_offset` is 0; and whichever operation of
`main` has erased `/cache` (data wipe, cache wipe, encrypted-fs toggle), the offset is 0
when the dispatch ends. -/
theorem erase_cache_resets_offset (env : Env) (s : Session) :
    (erase_volume env "/cache" s).1.tmplog_offset = 0 ∧
      ∀ (opts : List Opt) (r : Int),
        Event.format_volume "/cache" r ∈ (main_dispatch env opts s.tmplog_offset).trace →
          (main_dispatch env opts s.tmplog_offset).tmplog_offset = 0 := by
  refine ⟨by rw [erase_volume_cache], ?_⟩
  intro opts r
  unfold main_dispatch
  generalize rewrite_update_package env (parse_options opts).update_package = pkg
  generalize parse_options opts = f
  simp only [dispatch]
  split
  · -- the encrypted-fs toggle
    intro h
    rcases toggle_erase_cache env _ r h with h' | h'
    · rw [toggle_read_info_format, toggle_select_mode_format] at h'
      simp at h'
    · exact h'
  · split
    · -- the package install
      simp only [update_package_branch]
      split_ifs <;> simp
    · split
      · -- the data wipe
        intro h
        rcases wipe_data_branch_cache env _ _ r h with h' | h'
        · simp at h'
        · exact h'
      · split
        · -- the cache wipe
          intro h
          rcases wipe_cache_branch_cache env _ _ r h with h' | h'
          · simp at h'
          · exact h'
        · simp

/-! ### The option loop and the dispatch -/

/-- The locals after the option loop, started from any values: each pointer is the argument
of the last option that sets it, each flag is set when an option that sets it was given. -/
theorem parse_from (opts : List Opt) :
    ∀ f : Flags,
      (opts.foldl parse_option f).toggle_secure_fs
          = (f.toggle_secure_fs || (requested_mode opts).isSome) ∧
        (opts.foldl parse_option f).encrypted_fs_mode
          = (requested_mode opts <|> f.encrypted_fs_mode) ∧
        (opts.foldl parse_option f).update_package
          = (requested_package opts <|> f.update_package) ∧
        (opts.foldl parse_option f).send_intent
          = (requested_intent opts <|> f.send_intent) ∧
        (opts.foldl parse_option f).wipe_data
          = (f.wipe_data || decide (Opt.wipe_data ∈ opts)) ∧
        (opts.foldl parse_option f).wipe_cache
          = (f.wipe_cache || decide (Opt.wipe_data ∈ opts) || decide (Opt.wipe_cache ∈ opts)) := by
  induction opts with
  | nil => intro f; simp [requested_mode, requested_package, requested_intent]
  | cons o later ih =>
    intro f
    obtain ⟨h1, h2, h3, h4, h5, h6⟩ := ih (parse_option f o)
    simp only [List.foldl_cons, h1, h2, h3, h4, h5, h6, requested_mode, requested_package,
      requested_intent]
    cases o <;> cases requested_mode later <;> cases requested_package later <;>
      cases requested_intent later <;> simp [parse_option]

theorem requested_mode_isSome (opts : List Opt) :
    (requested_mode opts).isSome ↔ ∃ m, Opt.set_encrypted_filesystems m ∈ opts := by
  induction opts with
  | nil => simp [requested_mode]
  | cons o later ih =>
    simp only [requested_mode, List.mem_cons]
    cases h : requested_mode later with
    | some m =>
      rw [h] at ih
      obtain ⟨m', hm'⟩ := ih.mp rfl
      simp only [Option.isSome_some, true_iff]
      exact ⟨m', Or.inr hm'⟩
    | none =>
      rw [h] at ih
      have hno : ∀ m, Opt.set_encrypted_filesystems m ∉ later := by
        intro m hm
        have := ih.mpr ⟨m, hm⟩
        simp at this
      cases o <;> simp [hno]

theorem requested_package_isSome (opts : List Opt) :
    (requested_package opts).isSome ↔ ∃ p, Opt.update_package p ∈ opts := by
  induction opts with
  | nil => simp [requested_package]
  | cons o later ih =>
    simp only [requested_package, List.mem_cons]
    cases h : requested_package later with
    | some m =>
      rw [h] at ih
      obtain ⟨m', hm'⟩ := ih.mp rfl
      simp only [Option.isSome_some, true_iff]
      exact ⟨m', Or.inr hm'⟩
    | none =>
      rw [h] at ih
      have hno : ∀ m, Opt.update_package m ∉ later := by
        intro m hm
        have := ih.mpr ⟨m, hm⟩
        simp at this
      cases o <;> simp [hno]

/-- C3. Dispatch precedence in `main`: for every sequence of parsed options exactly one
branch runs. It is the encrypted-fs toggle when `--set_encrypted_filesystems` was given;
else the package install when an update-package path was given; else the data wipe when
`--wipe_data` was given, and then with `wipe_cache` set (`--wipe_data` sets both flags);
else the cache wipe when `--wipe_cache` was given; else no operation is run and the status
is `INSTALL_ERROR`. -/
theorem main_dispatch_precedence (env : Env) (opts : List Opt) (tmplog_offset : Nat) :
    main_dispatch env opts tmplog_offset =
        (match requested_mode opts, requested_package opts with
          | some m, _ =>
            toggle_secure_fs_branch env m
              ⟨tmplog_offset, INSTALL_SUCCESS, env.uninitialized_mode, []⟩
          | none, some p =>
            update_package_branch env (rewrite_path env p)
              ⟨tmplog_offset, INSTALL_SUCCESS, env.uninitialized_mode, []⟩
          | none, none =>
            if Opt.wipe_data ∈ opts then
              wipe_data_branch env true
                ⟨tmplog_offset, INSTALL_SUCCESS, env.uninitialized_mode, []⟩
            else if Opt.wipe_cache ∈ opts then
              wipe_cache_branch env true
                ⟨tmplog_offset, INSTALL_SUCCESS, env.uninitialized_mode, []⟩
            else ⟨tmplog_offset, INSTALL_ERROR, env.uninitialized_mode, []⟩) ∧
      ((requested_mode opts).isSome ↔ ∃ m, Opt.set_encrypted_filesystems m ∈ opts) ∧
      ((requested_package opts).isSome ↔ ∃ p, Opt.update_package p ∈ opts) ∧
      ((parse_options opts).wipe_data = true ↔ Opt.wipe_data ∈ opts) ∧
      ((parse_options opts).wipe_cache = true ↔
        Opt.wipe_data ∈ opts ∨ Opt.wipe_cache ∈ opts) := by
  obtain ⟨h1, h2, h3, _, h5, h6⟩ := parse_from opts Flags.initial
  have hwd : (parse_options opts).wipe_data = true ↔ Opt.wipe_data ∈ opts := by
    unfold parse_options
    rw [h5]
    simp [Flags.initial]
  have hwc : (parse_options opts).wipe_cache = true ↔
      Opt.wipe_data ∈ opts ∨ Opt.wipe_cache ∈ opts := by
    unfold parse_options
    rw [h6]
    simp [Flags.initial]
  refine ⟨?_, requested_mode_isSome opts, requested_package_isSome opts, hwd, hwc⟩
  simp [Flags.initial] at h1 h2 h3 h5 h6
  unfold main_dispatch dispatch rewrite_update_package parse_options
  simp only [Flags.initial, h1, h2, h3, h5, h6]
  cases hm : requested_mode opts with
  | some m => simp
  | none =>
    cases hp : requested_package opts with
    | some p => simp
    | none =>
      by_cases hw : Opt.wipe_data ∈ opts
      · simp [hw]
      · by_cases hc : Opt.wipe_cache ∈ opts
        · simp [hw, hc]
        · simp [hw, hc]

theorem finish_recovery_bcb (env : Env) (L : Layout) (send_intent : Option (List Char))
    (s : Store) : (finish_recovery env L send_intent s).bcb = zero_message L := by
  unfold finish_recovery
  simp only
  split_ifs <;> rfl

theorem restore_not_mem_prompt_and_wait (chosen : List Int) (r : Int) :
    Event.restore_encrypted_fs_info r ∉ prompt_and_wait chosen := by
  induction chosen with
  | nil => simp [prompt_and_wait]
  | cons c later ih => simp [prompt_and_wait, ih]

theorem format_not_mem_prompt_and_wait (chosen : List Int) (v : String) (r : Int) :
    Event.format_volume v r ∉ prompt_and_wait chosen := by
  induction chosen with
  | nil => simp [prompt_and_wait]
  | cons c later ih => simp [prompt_and_wait, ih]

theorem parse_wipe_data : parse_options [Opt.wipe_data] = ⟨none, none, none, true, true, false⟩ :=
  rfl

theorem parse_toggle (m : List Char) :
    parse_options [Opt.set_encrypted_filesystems m] = ⟨none, none, some m, false, false, true⟩ :=
  rfl

/-- C4 (as amended). In a run whose only argument is `--wipe_data`, the persistent record
is cleared only after `erase_volume ("/data")` and `erase_volume ("/cache")` have both
returned: the run calls `device_wipe_data`, erases `/data`, erases `/cache`, and only then
calls `finish_recovery`, which writes the record all NUL. When the three steps report
success that call is `finish_recovery (send_intent)` before the reboot; when one of them
reports failure it is the `finish_recovery (NULL)` that opens `prompt_and_wait`. -/
theorem wipe_data_clears_after_erasing (env : Env) (chosen : List Int) (tmplog_offset : Nat)
    (L : Layout) (send_intent : Option (List Char)) (store : Store) :
    (main env [Opt.wipe_data] chosen tmplog_offset).trace =
        [Event.device_wipe_data env.device_wipe_data,
          Event.ui_print "Formatting /data...\n",
          Event.format_volume "/data" (env.format_volume "/data"),
          Event.ui_print "Formatting /cache...\n",
          Event.format_volume "/cache" (env.format_volume "/cache")] ++
        (if env.device_wipe_data = 0 ∧ env.format_volume "/data" = 0 ∧
            env.format_volume "/cache" = 0 then
          [Event.finish_recovery none, Event.ui_print "Rebooting...\n", Event.reboot]
        else Event.ui_print "Data wipe failed.\n" :: prompt_and_wait chosen) ∧
      (finish_recovery env L send_intent store).bcb = zero_message L := by
  refine ⟨?_, finish_recovery_bcb env L send_intent store⟩
  have hne : INSTALL_ERROR ≠ INSTALL_SUCCESS := by decide
  unfold main main_dispatch
  simp only [parse_wipe_data, rewrite_update_package, Option.map_none', dispatch,
    Bool.false_eq_true, ↓reduceIte, wipe_data_branch, erase_volume_data, erase_volume_cache]
  by_cases h1 : env.device_wipe_data = 0 <;> by_cases h2 : env.format_volume "/data" = 0 <;>
    by_cases h3 : env.format_volume "/cache" = 0 <;> simp [h1, h2, h3, hne]

/-- C4, counterexample. In the run with the only argument `--wipe_data` in which formatting
`/data` fails, `finish_recovery (NULL)` is called after the two erasures, and it writes the
record all NUL: the record is cleared although an erasure has reported failure. -/
theorem wipe_data_failure_clears_record :
    data_fails_env.format_volume "/data" ≠ 0 ∧
      (main data_fails_env [Opt.wipe_data] [] 0).trace =
        [Event.device_wipe_data 0,
          Event.ui_print "Formatting /data...\n", Event.format_volume "/data" 1,
          Event.ui_print "Formatting /cache...\n", Event.format_volume "/cache" 0,
          Event.ui_print "Data wipe failed.\n", Event.finish_recovery none] ∧
      pinned_store.bcb ≠ zero_message small_layout ∧
      (finish_recovery data_fails_env small_layout none pinned_store).bcb
        = zero_message small_layout := by
  decide

/-- C5 (as amended). Encrypted-fs toggle requested with mode `on` while
`read_encrypted_fs_info` fails: the fallback message is printed, the mode is forced to
disabled and the encrypted-fs information is not restored; the status is not set to
`INSTALL_ERROR` by the failed read. `/data` is erased; `/cache` is erased after it when the
erasure of `/data` has succeeded, and not at all when it has failed. The status is
`INSTALL_ERROR` exactly when the erasure of `/data` fails, or succeeds and the erasure of
`/cache` fails; it is `INSTALL_SUCCESS` otherwise. -/
theorem toggle_on_read_failure (env : Env) (chosen : List Int) (tmplog_offset : Nat)
    (hread : (env.read_encrypted_fs_info MODE_ENCRYPTED_FS_ENABLED).1 ≠ 0) :
    (main env [Opt.set_encrypted_filesystems "on".toList] chosen tmplog_offset).mode
        = MODE_ENCRYPTED_FS_DISABLED ∧
      (main env [Opt.set_encrypted_filesystems "on".toList] chosen tmplog_offset).trace =
        [Event.ui_print "Enabling Encrypted FS.\n",
          Event.read_encrypted_fs_info (env.read_encrypted_fs_info MODE_ENCRYPTED_FS_ENABLED).1,
          Event.ui_print "Encrypted FS change aborted, resetting to disabled state.\n",
          Event.ui_print "Formatting /data...\n",
          Event.format_volume "/data" (env.format_volume "/data")] ++
        (if env.format_volume "/data" ≠ 0 then
          Event.ui_print "Data wipe failed.\n" :: prompt_and_wait chosen
         else
          [Event.ui_print "Formatting /cache...\n",
            Event.format_volume "/cache" (env.format_volume "/cache")] ++
          (if env.format_volume "/cache" ≠ 0 then
            Event.ui_print "Cache wipe failed.\n" :: prompt_and_wait chosen
           else
            [Event.ui_print "Successfully updated Encrypted FS.\n",
              Event.finish_recovery none, Event.ui_print "Rebooting...\n", Event.reboot])) ∧
      (∀ r, Event.restore_encrypted_fs_info r ∉
        (main env [Opt.set_encrypted_filesystems "on".toList] chosen tmplog_offset).trace) ∧
      (env.format_volume "/data" ≠ 0 → ∀ r, Event.format_volume "/cache" r ∉
        (main env [Opt.set_encrypted_filesystems "on".toList] chosen tmplog_offset).trace) ∧
      ((main env [Opt.set_encrypted_filesystems "on".toList] chosen tmplog_offset).status
          = INSTALL_ERROR ↔
        env.format_volume "/data" ≠ 0 ∨
          (env.format_volume "/data" = 0 ∧ env.format_volume "/cache" ≠ 0)) ∧
      ((main env [Opt.set_encrypted_filesystems "on".toList] chosen tmplog_offset).status
          = INSTALL_SUCCESS ↔
        env.format_volume "/data" = 0 ∧ env.format_volume "/cache" = 0) := by
  have hne : INSTALL_ERROR ≠ INSTALL_SUCCESS := by decide
  have hne' : INSTALL_SUCCESS ≠ INSTALL_ERROR := by decide
  have hmode : MODE_ENCRYPTED_FS_DISABLED ≠ MODE_ENCRYPTED_FS_ENABLED := by decide
  have hsel : ∀ s : Session, toggle_select_mode "on".toList s =
      ⟨s.tmplog_offset, s.status, MODE_ENCRYPTED_FS_ENABLED,
        s.trace ++ [Event.ui_print "Enabling Encrypted FS.\n"]⟩ := by
    intro s; simp [toggle_select_mode]
  have hrd : ∀ s : Session, s.mode = MODE_ENCRYPTED_FS_ENABLED → toggle_read_info env s =
      ⟨s.tmplog_offset, s.status, MODE_ENCRYPTED_FS_DISABLED,
        s.trace ++ [Event.read_encrypted_fs_info
            (env.read_encrypted_fs_info MODE_ENCRYPTED_FS_ENABLED).1,
          Event.ui_print "Encrypted FS change aborted, resetting to disabled state.\n"]⟩ := by
    intro s hs; simp [toggle_read_info, hs, hread]
  unfold main main_dispatch
  simp only [parse_toggle, rewrite_update_package, Option.map_none', dispatch, ↓reduceIte,
    Option.getD_some, toggle_secure_fs_branch, hsel]
  rw [hrd _ rfl]
  simp only [toggle_erase, erase_volume_data, erase_volume_cache]
  by_cases h2 : env.format_volume "/data" = 0 <;>
    by_cases h3 : env.format_volume "/cache" = 0 <;>
    simp [h2, h3, hne, hne', hmode, restore_not_mem_prompt_and_wait,
      format_not_mem_prompt_and_wait]

/-- C5, counterexample. With mode `on`, a failing `read_encrypted_fs_info` and erasures
that succeed, the run ends with status `INSTALL_SUCCESS`, prints the success message and
reboots: the status is not `INSTALL_ERROR`. -/
theorem toggle_on_read_failure_reports_success :
    (read_fails_env.read_encrypted_fs_info MODE_ENCRYPTED_FS_ENABLED).1 ≠ 0 ∧
      (main read_fails_env [Opt.set_encrypted_filesystems "on".toList] [] 0).status
        = INSTALL_SUCCESS ∧
      (main read_fails_env [Opt.set_encrypted_filesystems "on".toList] [] 0).status
        ≠ INSTALL_ERROR ∧
      (main read_fails_env [Opt.set_encrypted_filesystems "on".toList] [] 0).trace =
        [Event.ui_print "Enabling Encrypted FS.\n", Event.read_encrypted_fs_info 1,
          Event.ui_print "Encrypted FS change aborted, resetting to disabled state.\n",
          Event.ui_print "Formatting /data...\n", Event.format_volume "/data" 0,
          Event.ui_print "Formatting /cache...\n", Event.format_volume "/cache" 0,
          Event.ui_print "Successfully updated Encrypted FS.\n",
          Event.finish_recovery none, Event.ui_print "Rebooting...\n", Event.reboot] := by
  decide

/-- C5, witness: the quiet world with a failing `read_encrypted_fs_info`. -/
theorem toggle_on_read_failure_witness :
    (main read_fails_env [Opt.set_encrypted_filesystems "on".toList] [3] 7).mode
        = MODE_ENCRYPTED_FS_DISABLED ∧
      (main read_fails_env [Opt.set_encrypted_filesystems "on".toList] [3] 7).trace =
        [Event.ui_print "Enabling Encrypted FS.\n",
          Event.read_encrypted_fs_info
            (read_fails_env.read_encrypted_fs_info MODE_ENCRYPTED_FS_ENABLED).1,
          Event.ui_print "Encrypted FS change aborted, resetting to disabled state.\n",
          Event.ui_print "Formatting /data...\n",
          Event.format_volume "/data" (read_fails_env.format_volume "/data")] ++
        (if read_fails_env.format_volume "/data" ≠ 0 then
          Event.ui_print "Data wipe failed.\n" :: prompt_and_wait [3]
         else
          [Event.ui_print "Formatting /cache...\n",
            Event.format_volume "/cache" (read_fails_env.format_volume "/cache")] ++
          (if read_fails_env.format_volume "/cache" ≠ 0 then
            Event.ui_print "Cache wipe failed.\n" :: prompt_and_wait [3]
           else
            [Event.ui_print "Successfully updated Encrypted FS.\n",
              Event.finish_recovery none, Event.ui_print "Rebooting...\n", Event.reboot])) ∧
      (∀ r, Event.restore_encrypted_fs_info r ∉
        (main read_fails_env [Opt.set_encrypted_filesystems "on".toList] [3] 7).trace) ∧
      (read_fails_env.format_volume "/data" ≠ 0 → ∀ r, Event.format_volume "/cache" r ∉
        (main read_fails_env [Opt.set_encrypted_filesystems "on".toList] [3] 7).trace) ∧
      ((main read_fails_env [Opt.set_encrypted_filesystems "on".toList] [3] 7).status
          = INSTALL_ERROR ↔
        read_fails_env.format_volume "/data" ≠ 0 ∨
          (read_fails_env.format_volume "/data" = 0 ∧
            read_fails_env.format_volume "/cache" ≠ 0)) ∧
      ((main read_fails_env [Opt.set_encrypted_filesystems "on".toList] [3] 7).status
          = INSTALL_SUCCESS ↔
        read_fails_env.format_volume "/data" = 0 ∧ read_fails_env.format_volume "/cache" = 0) :=
  toggle_on_read_failure read_fails_env [3] 7 (by decide)

/-! ### The claims on concrete inputs -/

set_option maxRecDepth 100000

/-- C1, witness: the factory reset scenario. The first run takes `--wipe_data` from the
command file; the second run, after the cache was erased and the command file with it,
finds `--wipe_data` in the record. -/
theorem get_args_restart_witness :
    ∃ r2, get_args android_layout factory_reset_args.saved none ["recovery".toList] = some r2 ∧
      r2.argv.tail = factory_reset_args.argv.tail ∧
      r2.saved.command = factory_reset_args.saved.command ∧
      r2.saved.status = factory_reset_args.saved.status ∧
      cstr r2.saved.recovery = cstr factory_reset_args.saved.recovery ∧
      r2.saved.recovery
        = factory_reset_args.saved.recovery.set (android_layout.recovery_size - 1) NUL :=
  get_args_restart android_layout (zero_message android_layout) (some "--wipe_data\n".toList) none
    ["recovery".toList] ["recovery".toList] factory_reset_args
    (by unfold WellFormedArgs; decide) (by decide) (by decide) (by decide) (by decide)
    (by decide) (by decide)

/-- C2, counterexample. The record holds `recovery\n`: its first token is exactly `recovery`
and no line follows. With no process argument and a command file that holds `--wipe_data`,
the arguments `get_args` resolves are those of the command file, not the (empty) remaining
lines of the record. -/
theorem get_args_empty_block_reads_command_file :
    boot_args android_layout no_args_record = some [] ∧
      (get_args android_layout no_args_record (some "--wipe_data\n".toList)
          ["recovery".toList]).map (fun r => r.argv.tail)
        = some ["--wipe_data".toList] := by
  decide

/-- C7, counterexample. The temporary log holds the four bytes `a`, NUL, `b`, newline and
the offset is 0: the append writes the single byte `a` to the rolling log, not the four
bytes from position 0 on; the offset becomes 4. -/
theorem copy_log_file_stops_at_nul :
    nul_store.files TEMPORARY_LOG_FILE = some ['a', NUL, 'b', '\n'] ∧
      nul_store.tmplog_offset = 0 ∧
      (copy_log_file quiet_env LOG_FILE true nul_store).files LOG_FILE = some ['a'] ∧
      (copy_log_file quiet_env LOG_FILE true nul_store).tmplog_offset = 4 := by
  decide

/-- C7, witness: the log `Starting recovery\n` of 18 bytes, copied from offset 0. -/
theorem copy_log_file_append_witness :
    (NUL ∉ "Starting recovery\n".toList.drop pinned_store.tmplog_offset →
        (copy_log_file quiet_env LOG_FILE true pinned_store).files LOG_FILE
          = some ((pinned_store.files LOG_FILE).getD [] ++
              "Starting recovery\n".toList.drop pinned_store.tmplog_offset)) ∧
      ("Starting recovery\n".toList.drop pinned_store.tmplog_offset).length
        = "Starting recovery\n".toList.length - pinned_store.tmplog_offset ∧
      (copy_log_file quiet_env LOG_FILE true pinned_store).tmplog_offset
        = "Starting recovery\n".toList.length ∧
      (copy_log_file quiet_env LOG_FILE true pinned_store).files TEMPORARY_LOG_FILE
        = some "Starting recovery\n".toList ∧
      copy_log_file quiet_env LOG_FILE true (copy_log_file quiet_env LOG_FILE true pinned_store)
        = copy_log_file quiet_env LOG_FILE true pinned_store :=
  copy_log_file_append quiet_env LOG_FILE pinned_store "Starting recovery\n".toList
    (by decide) (by decide) (by decide) (by decide) (by decide)

/-- C9, counterexample. A run without any argument: `get_args` returns, and the recovery
field it saves holds `recovery\n`, which is not the text `recovery\n\n` that
`"recovery\n" + join (args[1:], "\n") + "\n"` gives for an empty `args[1:]`. -/
theorem get_args_no_args_recovery_field :
    (get_args android_layout (zero_message android_layout) none ["recovery".toList]).map
        (fun r => (r.argv.tail, cstr r.saved.recovery, spec_recovery r.argv))
      = some ([], "recovery\n".toList, "recovery\n\n".toList) := by
  decide

/-- C9, witness: the factory reset scenario. -/
theorem get_args_rewrites_recovery_witness :
    cstr factory_reset_args.saved.recovery
        = ("recovery\n".toList ++ arg_lines factory_reset_args.argv.tail).take
            (android_layout.recovery_size - 1) ∧
      (factory_reset_args.argv.tail ≠ [] →
        (spec_recovery factory_reset_args.argv).length < android_layout.recovery_size →
        cstr factory_reset_args.saved.recovery = spec_recovery factory_reset_args.argv) ∧
      (factory_reset_args.argv.tail = [] → 10 ≤ android_layout.recovery_size →
        cstr factory_reset_args.saved.recovery = "recovery\n".toList) :=
  get_args_rewrites_recovery android_layout (zero_message android_layout)
    (some "--wipe_data\n".toList) ["recovery".toList] factory_reset_args
    (by unfold WellFormedArgs; decide) (by decide) (by decide)

/-- C10, witness: the factory reset scenario. -/
theorem get_args_pins_recovery_witness :
    cstr factory_reset_args.saved.command = "boot-recovery".toList ∧
      first_line (cstr factory_reset_args.saved.recovery) = "recovery".toList :=
  get_args_pins_recovery android_layout (zero_message android_layout)
    (some "--wipe_data\n".toList) ["recovery".toList] factory_reset_args
    (by decide) (by decide) (by decide)

/-! ### The menus -/

theorem ui_menu_select_range {n : Nat} (hn : 1 ≤ n) (sel : Int) :
    0 ≤ ui_menu_select n sel ∧ ui_menu_select n sel < n := by
  unfold ui_menu_select
  split_ifs <;> omega

/-- The menu loop uses up at least one action before it returns. -/
theorem menu_loop_consumes (A : Actions) (n : Nat) (menu_only : Bool) (actions : List Int) :
    ∀ (selected c : Int) (later : List Int),
      menu_loop A n menu_only selected actions = some (c, later) →
        later.length < actions.length := by
  induction actions with
  | nil => intro selected c later h; simp [menu_loop] at h
  | cons action rest ih =>
    intro selected c later h
    simp only [menu_loop] at h
    have step : ∀ sel : Int, menu_loop A n menu_only sel rest = some (c, later) →
        later.length < (action :: rest).length := by
      intro sel hs
      have := ih sel c later hs
      simp only [List.length_cons]
      omega
    have here : ∀ x : Int, some (x, rest) = some (c, later) →
        later.length < (action :: rest).length := by
      intro x hx
      simp only [Option.some.injEq, Prod.mk.injEq] at hx
      rw [← hx.2]
      simp
    split_ifs at h
    all_goals first
      | exact step _ h
      | exact here _ h

/-- The value the menu loop returns: the label `ITEM_BACK`, or the highlighted item, which
stays within the menu, or a key action that is not negative, which only a menu that takes
shortcuts returns. -/
theorem menu_loop_result (A : Actions) (n : Nat) (hn : 1 ≤ n) (menu_only : Bool)
    (actions : List Int) :
    ∀ (selected c : Int) (later : List Int), 0 ≤ selected → selected < n →
      menu_loop A n menu_only selected actions = some (c, later) →
        c = A.ITEM_BACK ∨ (0 ≤ c ∧ c < n) ∨ (menu_only = false ∧ c ∈ actions ∧ 0 ≤ c) := by
  induction actions with
  | nil => intro selected c later _ _ h; simp [menu_loop] at h
  | cons action rest ih =>
    intro selected c later h0 h1 h
    simp only [menu_loop] at h
    have step : ∀ sel : Int, 0 ≤ sel → sel < n → menu_loop A n menu_only sel rest = some (c, later) →
        c = A.ITEM_BACK ∨ (0 ≤ c ∧ c < n) ∨
          (menu_only = false ∧ c ∈ action :: rest ∧ 0 ≤ c) := by
      intro sel hs0 hs1 hs
      rcases ih sel c later hs0 hs1 hs with hb | hr | ⟨hm, hmem, hc⟩
      · exact Or.inl hb
      · exact Or.inr (Or.inl hr)
      · exact Or.inr (Or.inr ⟨hm, List.mem_cons_of_mem _ hmem, hc⟩)
    have hup := ui_menu_select_range hn (selected - 1)
    have hdown := ui_menu_select_range hn (selected + 1)
    split_ifs at h with a1 a2 a3 a4 a5 a6 a7 a8
    · exact step _ hup.1 hup.2 h
    · exact step _ hdown.1 hdown.2 h
    · exact absurd h0 (by omega)
    · simp only [Option.some.injEq, Prod.mk.injEq] at h
      exact Or.inr (Or.inl (by rw [← h.1]; exact ⟨h0, h1⟩))
    · exact step _ h0 h1 h
    · simp only [Option.some.injEq, Prod.mk.injEq] at h
      exact Or.inl h.1.symm
    · exact step _ h0 h1 h
    · simp only [Option.some.injEq, Prod.mk.injEq] at h
      refine Or.inr (Or.inr ⟨by simpa using a8, ?_, ?_⟩)
      · rw [← h.1]; exact List.mem_cons_self _ _
      · rw [← h.1]; omega
    · exact step _ h0 h1 h

/-- The menu loop returns once the keys hold a `SELECT_ITEM`. -/
theorem menu_loop_returns (A : Actions) (n : Nat) (hn : 1 ≤ n) (menu_only : Bool)
    (actions : List Int) :
    ∀ selected : Int, 0 ≤ selected → selected < n → A.SELECT_ITEM < 0 → A.Distinct →
      A.SELECT_ITEM ∈ actions → (menu_loop A n menu_only selected actions).isSome = true := by
  induction actions with
  | nil => intro selected _ _ _ _ h; simp at h
  | cons action rest ih =>
    intro selected h0 h1 hneg hd hmem
    have hup := ui_menu_select_range hn (selected - 1)
    have hdown := ui_menu_select_range hn (selected + 1)
    simp only [Actions.Distinct, List.nodup_cons, List.mem_cons, List.mem_singleton, not_or,
      List.not_mem_nil, not_false_eq_true, List.nodup_nil, and_true] at hd
    by_cases hsel : action = A.SELECT_ITEM
    · subst hsel
      simp only [menu_loop]
      rw [if_pos hneg, if_neg (Ne.symm hd.1.2.1), if_neg (Ne.symm hd.2.1.1)]
      simp only [↓reduceIte]
      rw [if_neg (by omega)]
      rfl
    · have hrest : A.SELECT_ITEM ∈ rest := by
        rcases List.mem_cons.mp hmem with h | h
        · exact absurd h.symm hsel
        · exact h
      have hd' : A.Distinct := by simpa [Actions.Distinct] using hd
      simp only [menu_loop]
      split_ifs
      all_goals first
        | rfl
        | exact ih _ hup.1 hup.2 hneg hd' hrest
        | exact ih _ hdown.1 hdown.2 hneg hd' hrest
        | exact ih _ h0 h1 hneg hd' hrest

theorem check_menu_items_length (undefined_shift : Int → Nat) (chk_items : List (List Char))
    (flags : Nat) :
    ("Finished".toList :: get_check_menu_opts undefined_shift chk_items flags).length
      = chk_items.length + 1 := by
  simp [get_check_menu_opts]

/-- C17 (as amended). `get_menu_selection` honours a Back action whether or not the caller
allows non-menu actions: at any point of the menu, with any value of `menu_only`, the action
`ITEM_BACK` ends the menu and `ITEM_BACK` is returned. A key action that is not negative is
accepted directly as the selected index when `menu_only = 0`, and is passed over when
`menu_only` is set. -/
theorem get_menu_selection_back (A : Actions) (hd : A.Distinct) (hb : A.ITEM_BACK < 0)
    (items : List (List Char)) (selected : Int) (later : List Int) :
    (∀ menu_only : Bool,
        get_menu_selection A items menu_only selected (A.ITEM_BACK :: later)
          = some (A.ITEM_BACK, later)) ∧
      (∀ action : Int, 0 ≤ action →
        get_menu_selection A items false selected (action :: later) = some (action, later)) ∧
      (∀ action : Int, 0 ≤ action →
        get_menu_selection A items true selected (action :: later)
          = get_menu_selection A items true selected later) := by
  simp only [Actions.Distinct, List.nodup_cons, List.mem_cons, List.mem_singleton, not_or,
    List.not_mem_nil, not_false_eq_true, List.nodup_nil, and_true] at hd
  refine ⟨?_, ?_, ?_⟩
  · intro menu_only
    simp only [get_menu_selection, menu_loop]
    rw [if_pos hb, if_neg (Ne.symm hd.1.2.2.2), if_neg (Ne.symm hd.2.1.2.2),
      if_neg (Ne.symm hd.2.2.1.2), if_neg (Ne.symm hd.2.2.2)]
    simp
  · intro action ha
    simp only [get_menu_selection, menu_loop]
    rw [if_neg (by omega)]
    simp
  · intro action ha
    simp only [get_menu_selection, menu_loop]
    rw [if_neg (by omega)]
    simp

/-- C17, witness: the sample key actions, a menu of three items. -/
theorem get_menu_selection_back_witness :
    (∀ menu_only : Bool,
        get_menu_selection sample_actions three_items menu_only 1
            (sample_actions.ITEM_BACK :: [7])
          = some (sample_actions.ITEM_BACK, [7])) ∧
      (∀ action : Int, 0 ≤ action →
        get_menu_selection sample_actions three_items false 1 (action :: [7])
          = some (action, [7])) ∧
      (∀ action : Int, 0 ≤ action →
        get_menu_selection sample_actions three_items true 1 (action :: [7])
          = get_menu_selection sample_actions three_items true 1 [7]) :=
  get_menu_selection_back sample_actions (by unfold Actions.Distinct; decide) (by decide)
    three_items 1 [7]

/-- C17, counterexample. With `menu_only` set, as in `prompt_and_wait`, the action
`ITEM_BACK` ends the menu at once and `ITEM_BACK` is the value returned. -/
theorem get_menu_selection_menu_only_back :
    get_menu_selection sample_actions three_items true 0
        [sample_actions.HIGHLIGHT_DOWN, sample_actions.ITEM_BACK, sample_actions.SELECT_ITEM]
      = some (sample_actions.ITEM_BACK, [sample_actions.SELECT_ITEM]) := by
  decide

/-- C18 (as amended). Selection bounds: for every menu of `N >= 1` items, every initial
selection in `[0, N-1]` and every sequence of key actions, with `ui_menu_select` clamping to
`[0, N-1]`, the value `get_menu_selection` returns is `ITEM_BACK` or an index in `[0, N-1]`
when `menu_only` is set, or when every key action that is not negative is below `N`; and it
does return once the keys hold a `SELECT_ITEM`. -/
theorem get_menu_selection_bounds (A : Actions) (items : List (List Char)) (menu_only : Bool)
    (initial_selection : Int) (actions : List Int)
    (hn : 1 ≤ items.length) (h0 : 0 ≤ initial_selection)
    (h1 : initial_selection < items.length)
    (hshort : menu_only = true ∨ ∀ a ∈ actions, 0 ≤ a → a < items.length) :
    (∀ (c : Int) (later : List Int),
        get_menu_selection A items menu_only initial_selection actions = some (c, later) →
          c = A.ITEM_BACK ∨ (0 ≤ c ∧ c < items.length)) ∧
      (A.SELECT_ITEM < 0 → A.Distinct → A.SELECT_ITEM ∈ actions →
        (get_menu_selection A items menu_only initial_selection actions).isSome = true) := by
  refine ⟨?_, fun hneg hd hmem =>
    menu_loop_returns A items.length hn menu_only actions initial_selection h0 h1 hneg hd hmem⟩
  intro c later h
  rcases menu_loop_result A items.length hn menu_only actions initial_selection c later h0 h1 h
    with hb | hr | ⟨hm, hmem, hc⟩
  · exact Or.inl hb
  · exact Or.inr hr
  · rcases hshort with hs | hs
    · rw [hs] at hm
      exact absurd hm (by decide)
    · exact Or.inr ⟨hc, hs c hmem hc⟩

/-- C18, witness: the main menu of `prompt_and_wait`, which sets `menu_only`. -/
theorem get_menu_selection_bounds_witness :
    (∀ (c : Int) (later : List Int),
        get_menu_selection sample_actions three_items true 0 [-3, 9, -3, -3, -4, -2]
            = some (c, later) →
          c = sample_actions.ITEM_BACK ∨ (0 ≤ c ∧ c < three_items.length)) ∧
      (sample_actions.SELECT_ITEM < 0 → sample_actions.Distinct →
        sample_actions.SELECT_ITEM ∈ [-3, 9, -3, -3, -4, -2] →
        (get_menu_selection sample_actions three_items true 0
          [-3, 9, -3, -3, -4, -2]).isSome = true) :=
  get_menu_selection_bounds sample_actions three_items true 0 [-3, 9, -3, -3, -4, -2]
    (by decide) (by decide) (by decide) (Or.inl rfl)

/-- C18, counterexample. A menu of three items that takes shortcuts (`menu_only = 0`):
the key action 5 is returned as the selected index, which is neither `ITEM_BACK` nor an
index in `[0, 2]`. -/
theorem get_menu_selection_shortcut_out_of_range :
    get_menu_selection sample_actions three_items false 0 [5] = some (5, []) ∧
      (5 : Int) ≠ sample_actions.ITEM_BACK ∧ ¬ ((5 : Int) < three_items.length) := by
  decide

/-- Where the store behind the menu array is harmless, the checkbox menu toggles as an
exclusive or. For every `flags` and every item index `i` other than 0: when the keys make
the menu return item `i`, then item `i` again, then item 0 (`Finished`), `show_check_menu`
returns with `flags` at its original value; and when the keys make the menu return item 0
at once, `show_check_menu` returns with `flags` as it was. Where the store lands behind the
block, `show_check_menu` faults whatever the keys. -/
theorem check_menu_toggle_twice (A : Actions) (undefined_shift : Int → Nat)
    (usable_slots : Nat → Nat) (chk_items : List (List Char)) (flags : Nat) (i : Int)
    (hi : i ≠ 0) :
    (chk_items.length + 2 < usable_slots (chk_items.length + 2) →
      ∀ actions later1 later2 rest : List Int,
        menu_loop A (chk_items.length + 1) false 0 actions = some (i, later1) →
        menu_loop A (chk_items.length + 1) false (if i = -1 then 0 else i) later1
          = some (i, later2) →
        menu_loop A (chk_items.length + 1) false (if i = -1 then 0 else i) later2
          = some (0, rest) →
        ∃ shown, show_check_menu A undefined_shift usable_slots chk_items flags actions
          = CheckResult.returned ⟨flags, rest, shown⟩) ∧
      (chk_items.length + 2 < usable_slots (chk_items.length + 2) →
        ∀ actions rest : List Int,
          menu_loop A (chk_items.length + 1) false 0 actions = some (0, rest) →
          ∃ shown, show_check_menu A undefined_shift usable_slots chk_items flags actions
            = CheckResult.returned ⟨flags, rest, shown⟩) ∧
      (usable_slots (chk_items.length + 2) ≤ chk_items.length + 2 →
        ∀ actions : List Int,
          show_check_menu A undefined_shift usable_slots chk_items flags actions
            = CheckResult.fault) := by
  have hm1 : (-1 : Int) ≠ 0 := by decide
  refine ⟨?_, ?_, ?_⟩
  · intro hslack actions later1 later2 rest h1 h2 h3
    have c1 := menu_loop_consumes A _ _ _ _ _ _ h1
    have c2 := menu_loop_consumes A _ _ _ _ _ _ h2
    have c3 := menu_loop_consumes A _ _ _ _ _ _ h3
    obtain ⟨k, hk⟩ : ∃ k, actions.length + 1 = k + 4 := ⟨actions.length - 3, by omega⟩
    unfold show_check_menu
    simp only [if_neg (Nat.not_le.mpr hslack)]
    rw [hk]
    simp only [check_menu_loop, hm1, ↓reduceIte, get_menu_selection, check_menu_items_length,
      h1, hi, h2, h3, Nat.xor_assoc, Nat.xor_self, Nat.xor_zero]
    exact ⟨_, rfl⟩
  · intro hslack actions rest h
    have c := menu_loop_consumes A _ _ _ _ _ _ h
    obtain ⟨k, hk⟩ : ∃ k, actions.length + 1 = k + 2 := ⟨actions.length - 1, by omega⟩
    unfold show_check_menu
    simp only [if_neg (Nat.not_le.mpr hslack)]
    rw [hk]
    simp only [check_menu_loop, hm1, ↓reduceIte, get_menu_selection, check_menu_items_length,
      h]
    exact ⟨_, rfl⟩
  · intro hover actions
    unfold show_check_menu
    simp only [if_pos hover]

/-- C11, the code at the failing input. A checkbox menu of three items, on an allocator
that gives a request of five pointers a block of five: `show_check_menu` asks for
`3 + 2` slots and stores `items[5] = NULL` behind them, so item 2 is never toggled and no
`flags` are returned. With two items the block of four has a slot to spare, and toggling
item 2 twice gives `flags` back as they were. -/
theorem show_check_menu_store_past_end :
    glibc_usable_slots (three_items.length + 2) = three_items.length + 2 ∧
      show_check_menu sample_actions zero_shift glibc_usable_slots three_items INT_MAX
          [-3, -3, -4, -4, -2, -2, -4, 8]
        = CheckResult.fault ∧
      show_check_menu sample_actions zero_shift glibc_usable_slots three_items INT_MAX [-4, 8]
        = CheckResult.fault ∧
      (show_check_menu sample_actions zero_shift glibc_usable_slots
          ["A".toList, "B".toList] INT_MAX [-3, -3, -4, -4, -2, -2, -4, 8]).left
        = some (INT_MAX, [8]) := by
  decide

/-! ### The path rewrite, the data wipe and the invalid mode -/

/-- C14. Legacy path rewrite in `main`: for every update-package path `CACHE:` followed by
`rest`, the path used for the dispatch is `/cache/` followed by `rest` with nothing cut off,
and it is the path `install_package` is called with; every path that does not start with
`CACHE:` is left unchanged. -/
theorem rewrite_path_cache (env : Env) (rest : List Char) (hrest : NUL ∉ rest) :
    rewrite_path env ("CACHE:".toList ++ rest) = "/cache/".toList ++ rest ∧
      (∀ tmplog_offset : Nat,
        (main_dispatch env [Opt.update_package ("CACHE:".toList ++ rest)] tmplog_offset).trace.head?
          = some (Event.install_package ("/cache/".toList ++ rest)
              (env.install_package ("/cache/".toList ++ rest)))) ∧
      (∀ path : List Char, path.take 6 ≠ "CACHE:".toList → rewrite_path env path = path) := by
  have hrw : rewrite_path env ("CACHE:".toList ++ rest) = "/cache/".toList ++ rest := by
    have h6 : ("CACHE:".toList ++ rest).take 6 = "CACHE:".toList := by
      rw [List.take_append_of_le_length (by decide)]
      rfl
    have hd6 : ("CACHE:".toList ++ rest).drop 6 = rest := by
      rw [List.drop_append_of_le_length (by decide)]
      rfl
    have hlen : ("CACHE:".toList ++ rest).length + 10 = rest.length + 16 := by
      rw [List.length_append]
      have : "CACHE:".toList.length = 6 := rfl
      omega
    have hc : NUL ∉ "/cache/".toList := by decide
    have hl : "/cache/".toList.length = 7 := rfl
    unfold rewrite_path
    rw [if_pos h6]
    simp only [hd6, hlen]
    have hcp : cstr (strlcpy (env.malloc (rest.length + 16)) "/cache/".toList (rest.length + 16))
        = "/cache/".toList := by
      rw [cstr_strlcpy _ _ (by omega), cstr_eq_self hc]
      exact List.take_of_length_le (by omega)
    obtain ⟨r, hr⟩ := strlcat_shape
      (strlcpy (env.malloc (rest.length + 16)) "/cache/".toList (rest.length + 16)) rest
      (by rw [hcp, hl]; omega : _ < rest.length + 16)
    rw [hr, hcp, cstr_eq_self hrest, List.take_of_length_le (by rw [List.length_append]; omega)]
    apply cstr_append_nul
    simp only [List.mem_append, not_or]
    exact ⟨hc, hrest⟩
  refine ⟨hrw, ?_, ?_⟩
  · intro tmplog_offset
    have hp : parse_options [Opt.update_package ("CACHE:".toList ++ rest)]
        = ⟨none, some ("CACHE:".toList ++ rest), none, false, false, false⟩ := rfl
    unfold main_dispatch
    simp only [hp, rewrite_update_package, Option.map_some', hrw, dispatch,
      Bool.false_eq_true, ↓reduceIte, update_package_branch]
    split_ifs <;> simp
  · intro path hpath
    unfold rewrite_path
    rw [if_neg hpath]

/-- C14, witness: the path `CACHE:foo.zip` becomes `/cache/foo.zip`. -/
theorem rewrite_path_cache_witness :
    rewrite_path quiet_env ("CACHE:".toList ++ "foo.zip".toList)
        = "/cache/".toList ++ "foo.zip".toList ∧
      (∀ tmplog_offset : Nat,
        (main_dispatch quiet_env [Opt.update_package ("CACHE:".toList ++ "foo.zip".toList)]
            tmplog_offset).trace.head?
          = some (Event.install_package ("/cache/".toList ++ "foo.zip".toList)
              (quiet_env.install_package ("/cache/".toList ++ "foo.zip".toList)))) ∧
      (∀ path : List Char, path.take 6 ≠ "CACHE:".toList →
        rewrite_path quiet_env path = path) :=
  rewrite_path_cache quiet_env "foo.zip".toList (by decide)

/-- C15. Best-effort data wipe: in the data-wipe branch of `main`, entered with status
`INSTALL_SUCCESS`, `device_wipe_data`, `erase_volume ("/data")` and, when `wipe_cache` is
set, `erase_volume ("/cache")` are each invoked whatever the earlier steps returned, in that
order, and the resulting status is `INSTALL_ERROR` if and only if at least one of them
reported failure; it is `INSTALL_SUCCESS` otherwise. -/
theorem wipe_data_branch_best_effort (env : Env) (wipe_cache : Bool) (s : Session) :
    (∃ tail, (wipe_data_branch env wipe_cache { s with status := INSTALL_SUCCESS }).trace =
        s.trace ++
          ([Event.device_wipe_data env.device_wipe_data,
            Event.ui_print "Formatting /data...\n",
            Event.format_volume "/data" (env.format_volume "/data")] ++
          (if wipe_cache then
            [Event.ui_print "Formatting /cache...\n",
              Event.format_volume "/cache" (env.format_volume "/cache")]
           else []) ++ tail) ∧
        (tail = [] ∨ tail = [Event.ui_print "Data wipe failed.\n"])) ∧
      ((wipe_data_branch env wipe_cache { s with status := INSTALL_SUCCESS }).status
          = INSTALL_ERROR ↔
        env.device_wipe_data ≠ 0 ∨ env.format_volume "/data" ≠ 0 ∨
          (wipe_cache = true ∧ env.format_volume "/cache" ≠ 0)) ∧
      ((wipe_data_branch env wipe_cache { s with status := INSTALL_SUCCESS }).status
          = INSTALL_SUCCESS ↔
        ¬ (env.device_wipe_data ≠ 0 ∨ env.format_volume "/data" ≠ 0 ∨
          (wipe_cache = true ∧ env.format_volume "/cache" ≠ 0))) := by
  have hne : INSTALL_ERROR ≠ INSTALL_SUCCESS := by decide
  have hne' : INSTALL_SUCCESS ≠ INSTALL_ERROR := by decide
  simp only [wipe_data_branch, erase_volume_data, erase_volume_cache]
  cases wipe_cache <;>
    by_cases h1 : env.device_wipe_data = 0 <;>
    by_cases h2 : env.format_volume "/data" = 0 <;>
    by_cases h3 : env.format_volume "/cache" = 0 <;>
    simp [h1, h2, h3, hne, hne']

/-- C19, the code at the failing input. The mode `bogus` is neither `on` nor `off`, and
the stack has left the value of `MODE_ENCRYPTED_FS_ENABLED` in `encrypted_fs_data.mode`:
after the error message, `read_encrypted_fs_info` is called. The status is
`INSTALL_ERROR` and nothing is erased or restored. With another value left by the stack
the error message is all that happens. -/
theorem invalid_mode_reads_info :
    (main_dispatch stale_mode_env [Opt.set_encrypted_filesystems "bogus".toList] 0).trace =
        [Event.ui_print "Error: invalid Encrypted FS setting.\n",
          Event.read_encrypted_fs_info 0] ∧
      (main_dispatch stale_mode_env [Opt.set_encrypted_filesystems "bogus".toList] 0).status
        = INSTALL_ERROR ∧
      (main_dispatch quiet_env [Opt.set_encrypted_filesystems "bogus".toList] 0).trace =
        [Event.ui_print "Error: invalid Encrypted FS setting.\n"] := by
  decide

/-! ### Numbers in the helper protocol -/

/-- A decimal digit character. -/
theorem digit_char_cases {d : Nat} (h : d < 10) :
    digit_value (digit_char d) = some d ∧ digit_char d ≠ NUL ∧ digit_char d ≠ ' ' ∧
      digit_char d ≠ '\n' ∧ digit_char d ≠ '-' ∧ digit_char d ≠ '+' ∧
      isspace (digit_char d) = false := by
  interval_cases d <;> decide

/-- The digits `printf` writes for `n`: there is at least one, each is a decimal digit, and
read back in front of any text they continue a value `a` to `a * 10 ^ length + n`. -/
theorem decimal_digits_spec (rounds : Nat) :
    ∀ (n : Nat) (acc : List Char), n < rounds →
      ∃ ds, decimal_digits rounds n acc = ds ++ acc ∧ ds ≠ [] ∧
        (∀ c ∈ ds, ∃ d, d < 10 ∧ c = digit_char d) ∧
        ∀ (a : Nat) (rest : List Char),
          atoi_digits a (ds ++ rest) = atoi_digits (a * 10 ^ ds.length + n) rest := by
  induction rounds with
  | zero => intro n acc h; omega
  | succ rounds ih =>
    intro n acc h
    have hd : n % 10 < 10 := Nat.mod_lt _ (by decide)
    have hv := (digit_char_cases hd).1
    simp only [decimal_digits]
    by_cases hz : n / 10 = 0
    · rw [if_pos hz]
      refine ⟨[digit_char (n % 10)], rfl, by simp, ?_, ?_⟩
      · intro c hc
        simp only [List.mem_singleton] at hc
        exact ⟨n % 10, hd, hc⟩
      · intro a rest
        have hn : n % 10 = n := by omega
        rw [hn] at hv ⊢
        simp only [List.singleton_append, atoi_digits, hv, List.length_singleton, pow_one]
        rfl
    · rw [if_neg hz]
      obtain ⟨ds, hds, hne, hdig, hval⟩ := ih (n / 10) (digit_char (n % 10) :: acc) (by omega)
      refine ⟨ds ++ [digit_char (n % 10)], by rw [hds]; simp, by simp, ?_, ?_⟩
      · intro c hc
        simp only [List.mem_append, List.mem_singleton] at hc
        rcases hc with hc | hc
        · exact hdig c hc
        · exact ⟨n % 10, hd, hc⟩
      · intro a rest
        rw [List.append_assoc, hval]
        simp only [List.singleton_append, atoi_digits, hv, List.length_append,
          List.length_singleton, pow_succ]
        congr 1
        have := Nat.div_add_mod n 10
        nlinarith [Nat.div_add_mod n 10]

/-- The text `printf ("%d")` writes for a number that is not negative: digits only, and
`atoi` reads the number back from it. -/
theorem decimal_nat (n : Nat) :
    decimal (n : Int) ≠ [] ∧
      (∀ c ∈ decimal (n : Int), c ≠ NUL ∧ c ≠ ' ' ∧ c ≠ '\n') ∧
      atoi (decimal (n : Int)) = n := by
  have hdec : decimal (n : Int) = decimal_digits (n + 1) n [] := by
    unfold decimal
    rw [if_neg (by omega)]
    simp
  obtain ⟨ds, hds, hne, hdig, hval⟩ := decimal_digits_spec (n + 1) n [] (by omega)
  rw [List.append_nil] at hds
  rw [hdec, hds]
  refine ⟨hne, ?_, ?_⟩
  · intro c hc
    obtain ⟨d, hd, rfl⟩ := hdig c hc
    have := digit_char_cases hd
    exact ⟨this.2.1, this.2.2.1, this.2.2.2.1⟩
  · have hnul : NUL ∉ ds := by
      intro hm
      obtain ⟨d, hd, he⟩ := hdig NUL hm
      exact (digit_char_cases hd).2.1 he.symm
    obtain ⟨c, cs, rfl⟩ := List.exists_cons_of_ne_nil hne
    obtain ⟨d, hd, hc⟩ := hdig c (List.mem_cons_self _ _)
    have hcc := digit_char_cases hd
    have h0 : atoi_digits 0 (c :: cs) = n := by
      have := hval 0 []
      rw [List.append_nil] at this
      rw [this]
      simp [atoi_digits]
    unfold atoi
    rw [cstr_eq_self hnul]
    have hdw : List.dropWhile isspace (c :: cs) = c :: cs := by
      rw [List.dropWhile_cons, hc, hcc.2.2.2.2.2.2]
      simp
    rw [hdw]
    split
    · rename_i heq
      simp only [List.cons.injEq] at heq
      exact absurd (hc ▸ heq.1) hcc.2.2.2.2.1
    · rename_i heq
      simp only [List.cons.injEq] at heq
      exact absurd (hc ▸ heq.1) hcc.2.2.2.2.2.1
    · rw [h0]

/-! ### Lines of the helper protocol -/

theorem read_line_line (k : Nat) :
    ∀ (l rest : List Char), '\n' ∉ l → l.length < k →
      read_line k (l ++ '\n' :: rest) = l ++ ['\n'] := by
  induction k with
  | zero => intro l rest _ h; omega
  | succ k ih =>
    intro l rest hnl hlen
    cases l with
    | nil => simp [read_line]
    | cons c cs =>
      have hc : c ≠ '\n' := fun e => hnl (e ▸ List.mem_cons_self _ _)
      have hcs : '\n' ∉ cs := fun hm => hnl (List.mem_cons_of_mem _ hm)
      simp only [List.cons_append, read_line, hc, ↓reduceIte, List.cons.injEq, true_and]
      exact ih cs rest hcs (by simpa using hlen)

/-- One `fgets` with the buffer of 100 bytes takes a whole line of at most 99 bytes. -/
theorem fgets_line (l rest : List Char) (hnl : '\n' ∉ l) (hlen : l.length ≤ 98) :
    fgets 100 (l ++ '\n' :: rest) = some (l ++ ['\n'], rest) := by
  have hr := read_line_line 99 l rest hnl (by omega)
  have hshape : ∃ c cs, l ++ '\n' :: rest = c :: cs := by
    cases l with
    | nil => exact ⟨_, _, rfl⟩
    | cons c cs => exact ⟨_, _, rfl⟩
  obtain ⟨c, cs, hcs⟩ := hshape
  have key : fgets 100 (c :: cs)
      = some (read_line 99 (c :: cs), (c :: cs).drop (read_line 99 (c :: cs)).length) := rfl
  rw [hcs, key, ← hcs, hr]
  simp

/-- One round of the loop of `runve` on a line that fits the buffer. -/
theorem runve_loop_line (A : Actions) (undefined_shift : Int → Nat)
    (usable_slots : Nat → Nat) (n : Nat)
    (l rest : List Char) (h h1 : Helper) (hnl : '\n' ∉ l) (hlen : l.length ≤ 98)
    (hline : runve_line A undefined_shift usable_slots (l ++ ['\n']) h = Outcome.running h1) :
    runve_loop A undefined_shift usable_slots (n + 1) (l ++ '\n' :: rest) h
      = runve_loop A undefined_shift usable_slots n rest h1 := by
  simp only [runve_loop, fgets_line l rest hnl hlen, hline]

theorem runve_loop_nil (A : Actions) (undefined_shift : Int → Nat)
    (usable_slots : Nat → Nat) (n : Nat) (h : Helper) :
    runve_loop A undefined_shift usable_slots n [] h = Outcome.running h := by
  cases n <;> simp [runve_loop, fgets]

/-- The two first tokens of a control line: `*` and the verb. -/
theorem strtok_control (verb : List Char) (d : Char) (arg : List Char)
    (hne : verb ≠ []) (hverb : ∀ c ∈ verb, isTokenChar [' ', '\n'] c = true)
    (hd : isTokenChar [' ', '\n'] d = false) (hd0 : d ≠ NUL) :
    (strtok [' ', '\n'] ('*' :: ' ' :: (verb ++ d :: arg))).token = some ['*'] ∧
      (strtok [' ', '\n'] (strtok [' ', '\n'] ('*' :: ' ' :: (verb ++ d :: arg))).rest).token
        = some verb ∧
      (strtok [' ', '\n'] (strtok [' ', '\n'] ('*' :: ' ' :: (verb ++ d :: arg))).rest).rest
        = arg := by
  have e1 : strtok [' ', '\n'] ('*' :: ' ' :: (verb ++ d :: arg))
      = ⟨some ['*'], ['*'] ++ [NUL], verb ++ d :: arg⟩ :=
    strtok_token_delim [' ', '\n'] ['*'] ' ' (verb ++ d :: arg) (by decide) (by decide)
      (by decide) (by decide)
  have e2 := strtok_token_delim [' ', '\n'] verb d arg hne hverb hd hd0
  rw [e1]
  simp only [e2, and_self]

/-- A control line is handled by the branch of its verb. -/
theorem runve_line_control (A : Actions) (undefined_shift : Int → Nat)
    (usable_slots : Nat → Nat) (verb : List Char)
    (d : Char) (arg : List Char) (h : Helper)
    (hne : verb ≠ []) (hverb : ∀ c ∈ verb, isTokenChar [' ', '\n'] c = true)
    (hd : isTokenChar [' ', '\n'] d = false) (hd0 : d ≠ NUL) :
    runve_line A undefined_shift usable_slots ('*' :: ' ' :: (verb ++ d :: arg)) h =
      (let h1 := h.emit (HelperEvent.printf (cstr ('*' :: ' ' :: (verb ++ d :: arg))))
       if verb = "ptotal".toList then on_ptotal arg h1
       else if verb = "print".toList then on_print arg h1
       else if verb = "items".toList then on_items arg h1
       else if verb = "item".toList then on_item arg h1
       else if verb = "headers".toList then on_headers arg h1
       else if verb = "header".toList then on_header arg h1
       else if verb = "show_menu".toList then on_show_menu A h1
       else if verb = "pcur".toList then on_pcur arg h1
       else if verb = "check_items".toList then on_check_items arg h1
       else if verb = "check_item".toList then on_check_item arg h1
       else if verb = "show_check_menu".toList then on_show_check_menu A undefined_shift usable_slots h1
       else if verb = "show_indeterminate_progress".toList then
         Outcome.running (h1.emit HelperEvent.ui_show_indeterminate_progress)
       else
         Outcome.running (((h1.emit (HelperEvent.ui_print (some "unrecognized command ".toList))).emit
           (HelperEvent.ui_print (some verb))).emit (HelperEvent.ui_print (some "\n".toList)))) := by
  obtain ⟨t1, t2, t3⟩ := strtok_control verb d arg hne hverb hd hd0
  unfold runve_line
  simp only [t1, t2, t3]
  rfl

/-! ### The menu round of the helper protocol -/

theorem decimal_digits_length (rounds : Nat) :
    ∀ (n d : Nat) (acc : List Char), 1 ≤ d → n < 10 ^ d →
      (decimal_digits rounds n acc).length ≤ d + acc.length := by
  induction rounds with
  | zero => intro n d acc _ _; simp [decimal_digits]
  | succ r ih =>
    intro n d acc hd hn
    unfold decimal_digits
    split_ifs with h0
    · simp only [List.length_cons]; omega
    · have hd2 : 2 ≤ d := by
        by_contra hlt
        have hd1 : d = 1 := by omega
        rw [hd1] at hn
        omega
      have hdiv : n / 10 < 10 ^ (d - 1) := by
        have hpow : 10 ^ d = 10 ^ (d - 1) * 10 := by
          rw [← pow_succ]; congr 1; omega
        rw [hpow] at hn
        exact Nat.div_lt_of_lt_mul (by rw [Nat.mul_comm]; exact hn)
      have := ih (n / 10) (d - 1) (digit_char (n % 10) :: acc) (by omega) hdiv
      simp only [List.length_cons] at this
      omega

/-- A number in the range of `int` is written with at most ten digits. -/
theorem decimal_length (K : Nat) (hK : K < 2 ^ 31) : (decimal (K : Int)).length ≤ 10 := by
  have hdec : decimal (K : Int) = decimal_digits (K + 1) K [] := by
    unfold decimal
    rw [if_neg (by omega)]
    rfl
  rw [hdec]
  have := decimal_digits_length (K + 1) K 10 [] (by omega) (by omega)
  simpa using this

theorem lineText_tokenChars {room : Nat} {t : List Char} (h : LineText room t) :
    ∀ c ∈ t, isTokenChar ['\n'] c = true := by
  intro c hc
  have h0 : c ≠ NUL := fun e => h.2.1 (e ▸ hc)
  have h1 : c ≠ '\n' := fun e => h.2.2.1 (e ▸ hc)
  simp [isTokenChar, isDelim, h0, h1]

/-- The line `* items K` sets the count and gives a fresh array. -/
theorem runve_line_items (A : Actions) (undefined_shift : Int → Nat)
    (usable_slots : Nat → Nat) (K : Nat) (h : Helper) :
    runve_line A undefined_shift usable_slots ("* items ".toList ++ decimal K ++ ['\n']) h =
      Outcome.running
        { h with
          num_items := K,
          items := some [],
          trace := h.trace ++ [HelperEvent.printf ("* items ".toList ++ decimal K ++ ['\n'])] } := by
  obtain ⟨hne, hchars, hatoi⟩ := decimal_nat K
  have hline := runve_line_control A undefined_shift usable_slots "items".toList ' ' (decimal K ++ ['\n']) h
    (by decide) (by decide) (by decide) (by decide)
  have hshape : "* items ".toList ++ decimal K ++ ['\n']
      = '*' :: ' ' :: ("items".toList ++ ' ' :: (decimal K ++ ['\n'])) := rfl
  have hnul : NUL ∉ "* items ".toList ++ decimal K ++ ['\n'] := by
    intro hm
    simp only [List.mem_append, List.mem_singleton] at hm
    rcases hm with (hm | hm) | hm
    · revert hm; decide
    · exact (hchars _ hm).1 rfl
    · revert hm; decide
  have htok : strtok [' ', '\n'] (decimal K ++ ['\n'])
      = ⟨some (decimal K), decimal K ++ [NUL], []⟩ :=
    strtok_token_delim [' ', '\n'] (decimal K) '\n' [] hne
      (fun c hc => by
        obtain ⟨h0, h1, h2⟩ := hchars c hc
        simp [isTokenChar, isDelim, h0, h1, h2])
      (by decide) (by decide)
  rw [hshape, hline, ← hshape, cstr_eq_self hnul]
  have hverb : ("items".toList = "ptotal".toList) = False := by decide
  have hverb2 : ("items".toList = "print".toList) = False := by decide
  simp only [hverb, hverb2, ↓reduceIte, on_items, htok, hatoi, Helper.emit]
  rw [if_neg (by omega)]

/-- The line `* item t` fills the next slot while there is one. -/
theorem runve_line_item (A : Actions) (undefined_shift : Int → Nat)
    (usable_slots : Nat → Nat) (t : List Char)
    (h : Helper) (filled : List (List Char)) (ht : LineText 91 t)
    (hitems : h.items = some filled) (hroom : (filled.length : Int) < h.num_items) :
    runve_line A undefined_shift usable_slots ("* item ".toList ++ t ++ ['\n']) h =
      Outcome.running
        { h with
          items := some (filled ++ [t]),
          trace := h.trace ++ [HelperEvent.printf ("* item ".toList ++ t ++ ['\n'])] } := by
  have hline := runve_line_control A undefined_shift usable_slots "item".toList ' ' (t ++ ['\n']) h
    (by decide) (by decide) (by decide) (by decide)
  have hshape : "* item ".toList ++ t ++ ['\n']
      = '*' :: ' ' :: ("item".toList ++ ' ' :: (t ++ ['\n'])) := rfl
  have hnul : NUL ∉ "* item ".toList ++ t ++ ['\n'] := by
    intro hm
    simp only [List.mem_append, List.mem_singleton] at hm
    rcases hm with (hm | hm) | hm
    · revert hm; decide
    · exact ht.2.1 hm
    · revert hm; decide
  have htok : strtok ['\n'] (t ++ ['\n']) = ⟨some t, t ++ [NUL], []⟩ :=
    strtok_token_delim ['\n'] t '\n' [] ht.1 (lineText_tokenChars ht) (by decide) (by decide)
  rw [hshape, hline, ← hshape, cstr_eq_self hnul]
  have hv1 : ("item".toList = "ptotal".toList) = False := by decide
  have hv2 : ("item".toList = "print".toList) = False := by decide
  have hv3 : ("item".toList = "items".toList) = False := by decide
  simp only [hv1, hv2, hv3, ↓reduceIte, on_item, htok, Helper.emit, hitems, Option.getD_some,
    hroom]

/-- The line `* show_menu` runs the menu on the items and writes the choice to the child. -/
theorem runve_line_show_menu (A : Actions) (undefined_shift : Int → Nat)
    (usable_slots : Nat → Nat) (h : Helper)
    (c : Int) (later : List Int)
    (hsel : get_menu_selection A (h.items.getD []) false 0 h.actions = some (c, later)) :
    runve_line A undefined_shift usable_slots "* show_menu\n".toList h =
      Outcome.running
        { h with
          to_child := h.to_child ++ decimal c ++ ['\n'],
          actions := later,
          trace := h.trace ++ [HelperEvent.printf "* show_menu\n".toList,
            HelperEvent.menu h.headers (h.items.getD []) 0] } := by
  have hline := runve_line_control A undefined_shift usable_slots "show_menu".toList '\n' [] h
    (by decide) (by decide) (by decide) (by decide)
  have hshape : "* show_menu\n".toList = '*' :: ' ' :: ("show_menu".toList ++ '\n' :: []) := rfl
  have hcstr : cstr "* show_menu\n".toList = "* show_menu\n".toList := by decide
  rw [hshape, hline, ← hshape, hcstr]
  have hv1 : ("show_menu".toList = "ptotal".toList) = False := by decide
  have hv2 : ("show_menu".toList = "print".toList) = False := by decide
  have hv3 : ("show_menu".toList = "items".toList) = False := by decide
  have hv4 : ("show_menu".toList = "item".toList) = False := by decide
  have hv5 : ("show_menu".toList = "headers".toList) = False := by decide
  have hv6 : ("show_menu".toList = "header".toList) = False := by decide
  simp only [hv1, hv2, hv3, hv4, hv5, hv6, ↓reduceIte, on_show_menu, Helper.emit, hsel,
    List.append_assoc, List.cons_append, List.nil_append]

/-- The lines `* item t` of a list of texts fill the slots in order. -/
theorem runve_loop_item_lines (A : Actions) (undefined_shift : Int → Nat)
    (usable_slots : Nat → Nat) :
    ∀ (texts : List (List Char)) (n : Nat) (rest : List Char) (h : Helper)
      (filled : List (List Char)),
      (∀ t ∈ texts, LineText 91 t) → h.items = some filled →
      ((filled.length + texts.length : Nat) : Int) ≤ h.num_items →
      runve_loop A undefined_shift usable_slots (n + texts.length) (item_lines texts ++ rest) h =
        runve_loop A undefined_shift usable_slots n rest
          { h with
            items := some (filled ++ texts),
            trace := h.trace ++ texts.map fun t =>
              HelperEvent.printf ("* item ".toList ++ t ++ ['\n']) } := by
  intro texts
  induction texts with
  | nil =>
    intro n rest h filled _ hitems _
    simp [item_lines, ← hitems]
  | cons t later ih =>
    intro n rest h filled htexts hitems hroom
    have ht : LineText 91 t := htexts t (List.mem_cons_self _ _)
    have hstep := runve_line_item A undefined_shift usable_slots t h filled ht hitems
      (by simp only [List.length_cons] at hroom; omega)
    have hnl : '\n' ∉ "* item ".toList ++ t := by
      intro hm
      simp only [List.mem_append] at hm
      rcases hm with hm | hm
      · revert hm; decide
      · exact ht.2.2.1 hm
    have hlen : ("* item ".toList ++ t).length ≤ 98 := by
      have := ht.2.2.2
      simp only [List.length_append]
      have h7 : "* item ".toList.length = 7 := by decide
      omega
    have hunfold : item_lines (t :: later) ++ rest
        = ("* item ".toList ++ t) ++ '\n' :: (item_lines later ++ rest) := by
      simp [item_lines]
    rw [hunfold, List.length_cons, ← Nat.add_assoc,
      runve_loop_line A undefined_shift usable_slots (n + later.length) _ _ h _ hnl hlen hstep]
    rw [ih n rest _ (filled ++ [t]) (fun u hu => htexts u (List.mem_cons_of_mem _ hu)) rfl
      (by simp only [List.length_append, List.length_cons, List.length_nil] at hroom ⊢
          omega)]
    simp [List.append_assoc]

theorem item_lines_length (texts : List (List Char)) :
    texts.length ≤ (item_lines texts).length := by
  induction texts with
  | nil => simp [item_lines]
  | cons t later ih => simp only [item_lines, List.length_append, List.length_cons]; omega

/-- C12 (as amended). Helper protocol menu round: for every `K` in the range of `int` and
item texts `t_1..t_K` that are not empty, hold no NUL and no newline and have at most 91
bytes (the line `* item t` then fits the buffer of 100 bytes), after the child sends
`* items K`, then `* item t_j` for `j = 1..K`, then `* show_menu`, `runve` has run the
selection menu once, on exactly the items `t_1..t_K` in that order, and when the menu
returns `c` it has written the decimal form of `c` followed by a newline to the child. -/
theorem runve_menu_round (A : Actions) (undefined_shift : Int → Nat)
    (usable_slots : Nat → Nat) (K : Nat)
    (texts : List (List Char)) (h : Helper) (c : Int) (later : List Int)
    (hint : K < 2 ^ 31) (hlen : texts.length = K) (htexts : ∀ t ∈ texts, LineText 91 t)
    (hsel : get_menu_selection A texts false 0 h.actions = some (c, later)) :
    runve A undefined_shift usable_slots (menu_round K texts) h =
      Outcome.running
        { h with
          num_items := K,
          items := some texts,
          to_child := h.to_child ++ decimal c ++ ['\n'],
          actions := later,
          trace := h.trace ++
            HelperEvent.printf ("* items ".toList ++ decimal K ++ ['\n']) ::
              (texts.map fun t => HelperEvent.printf ("* item ".toList ++ t ++ ['\n'])) ++
            [HelperEvent.printf "* show_menu\n".toList, HelperEvent.menu h.headers texts 0] } := by
  obtain ⟨m, hm⟩ : ∃ m, (menu_round K texts).length = ((m + 1) + texts.length) + 1 := by
    refine ⟨(menu_round K texts).length - texts.length - 2, ?_⟩
    have h1 := item_lines_length texts
    have h2 : "* show_menu\n".toList.length = 12 := by decide
    simp only [menu_round, List.length_append, List.length_cons, h2] at h1 ⊢
    omega
  have hnl : '\n' ∉ "* items ".toList ++ decimal K := by
    intro hmem
    simp only [List.mem_append] at hmem
    rcases hmem with hmem | hmem
    · revert hmem; decide
    · exact ((decimal_nat K).2.1 _ hmem).2.2 rfl
  have hfit : ("* items ".toList ++ decimal K).length ≤ 98 := by
    have := decimal_length K hint
    have h8 : "* items ".toList.length = 8 := by decide
    simp only [List.length_append, h8]
    omega
  have hshow : "* show_menu\n".toList = "* show_menu".toList ++ '\n' :: [] := rfl
  unfold runve
  rw [hm]
  unfold menu_round
  rw [runve_loop_line A undefined_shift usable_slots _ _ _ h _ hnl hfit
    (runve_line_items A undefined_shift usable_slots K h)]
  rw [runve_loop_item_lines A undefined_shift usable_slots texts (m + 1) _ _ [] htexts rfl
    (by simp [hlen])]
  rw [hshow, runve_loop_line A undefined_shift usable_slots m _ [] _ _ (by decide) (by decide)
    (runve_line_show_menu A undefined_shift usable_slots _ c later (by simpa using hsel)),
    runve_loop_nil]
  simp [List.append_assoc]

/-- C12, witness: `K = 2`, items A and B; the key actions move the highlight down and
select, so index 1 is selected and `1` and a newline go to the child. -/
theorem runve_menu_round_witness :
    menu_round 2 ["A".toList, "B".toList] = "* items 2\n* item A\n* item B\n* show_menu\n".toList ∧
      get_menu_selection sample_actions ["A".toList, "B".toList] false 0 [-3, -4]
        = some (1, []) ∧
      runve sample_actions zero_shift glibc_usable_slots (menu_round 2 ["A".toList, "B".toList])
          (Helper.initial 0 0 0 0 0 [-3, -4]) =
        Outcome.running
          ⟨0, 0, 2, 0, 0, some ["A".toList, "B".toList], none, none, INT_MAX, "1\n".toList, [],
           [HelperEvent.printf "* items 2\n".toList, HelperEvent.printf "* item A\n".toList,
            HelperEvent.printf "* item B\n".toList, HelperEvent.printf "* show_menu\n".toList,
            HelperEvent.menu none ["A".toList, "B".toList] 0]⟩ :=
  ⟨by decide, by decide,
    runve_menu_round sample_actions zero_shift glibc_usable_slots 2 ["A".toList, "B".toList]
      (Helper.initial 0 0 0 0 0 [-3, -4]) 1 [] (by decide) (by decide) (by decide)
      (by decide)⟩

/-- C12, counterexample. One item whose text has 93 bytes: the line `* item t` has 101
bytes, `fgets` takes the first 99 of them, and the menu is run on an item of 92 bytes, not
on the text sent. -/
theorem runve_long_item_cut :
    menus_shown
        (runve sample_actions zero_shift glibc_usable_slots (menu_round 1 [List.replicate 93 'a'])
          (Helper.initial 0 0 0 0 0 [-4])) =
      some [HelperEvent.menu none [List.replicate 92 'a'] 0] ∧
    List.replicate 92 'a' ≠ List.replicate 93 'a' := by
  decide

/-! ### The checkbox round of the helper protocol -/

/-- The line `* check_items K` sets the count and gives a fresh array. -/
theorem runve_line_check_items (A : Actions) (undefined_shift : Int → Nat)
    (usable_slots : Nat → Nat) (K : Nat)
    (h : Helper) :
    runve_line A undefined_shift usable_slots ("* check_items ".toList ++ decimal K ++ ['\n']) h =
      Outcome.running
        { h with
          num_chks := K,
          chks := some [],
          trace := h.trace ++
            [HelperEvent.printf ("* check_items ".toList ++ decimal K ++ ['\n'])] } := by
  obtain ⟨hne, hchars, hatoi⟩ := decimal_nat K
  have hline := runve_line_control A undefined_shift usable_slots "check_items".toList ' '
    (decimal K ++ ['\n']) h (by decide) (by decide) (by decide) (by decide)
  have hshape : "* check_items ".toList ++ decimal K ++ ['\n']
      = '*' :: ' ' :: ("check_items".toList ++ ' ' :: (decimal K ++ ['\n'])) := rfl
  have hnul : NUL ∉ "* check_items ".toList ++ decimal K ++ ['\n'] := by
    intro hm
    simp only [List.mem_append, List.mem_singleton] at hm
    rcases hm with (hm | hm) | hm
    · revert hm; decide
    · exact (hchars _ hm).1 rfl
    · revert hm; decide
  have htok : strtok [' ', '\n'] (decimal K ++ ['\n'])
      = ⟨some (decimal K), decimal K ++ [NUL], []⟩ :=
    strtok_token_delim [' ', '\n'] (decimal K) '\n' [] hne
      (fun c hc => by
        obtain ⟨h0, h1, h2⟩ := hchars c hc
        simp [isTokenChar, isDelim, h0, h1, h2])
      (by decide) (by decide)
  rw [hshape, hline, ← hshape, cstr_eq_self hnul]
  have v1 : ("check_items".toList = "ptotal".toList) = False := by decide
  have v2 : ("check_items".toList = "print".toList) = False := by decide
  have v3 : ("check_items".toList = "items".toList) = False := by decide
  have v4 : ("check_items".toList = "item".toList) = False := by decide
  have v5 : ("check_items".toList = "headers".toList) = False := by decide
  have v6 : ("check_items".toList = "header".toList) = False := by decide
  have v7 : ("check_items".toList = "show_menu".toList) = False := by decide
  have v8 : ("check_items".toList = "pcur".toList) = False := by decide
  simp only [v1, v2, v3, v4, v5, v6, v7, v8, ↓reduceIte, on_check_items, htok, hatoi,
    Helper.emit]
  rw [if_neg (by omega)]

/-- The line `* check_item` without a text faults when a slot is free. -/
theorem runve_line_check_item_missing (A : Actions) (undefined_shift : Int → Nat)
    (usable_slots : Nat → Nat)
    (h : Helper) (hroom : ((h.chks.getD []).length : Int) < h.num_chks) :
    runve_line A undefined_shift usable_slots "* check_item\n".toList h = Outcome.fault := by
  have e := runve_line_control A undefined_shift usable_slots "check_item".toList '\n' [] h
    (by decide) (by decide) (by decide) (by decide)
  have hs : "* check_item\n".toList = '*' :: ' ' :: ("check_item".toList ++ '\n' :: []) := rfl
  have t2 : (strtok ['\n'] []).token = none := by decide
  have v1 : ("check_item".toList = "ptotal".toList) = False := by decide
  have v2 : ("check_item".toList = "print".toList) = False := by decide
  have v3 : ("check_item".toList = "items".toList) = False := by decide
  have v4 : ("check_item".toList = "item".toList) = False := by decide
  have v5 : ("check_item".toList = "headers".toList) = False := by decide
  have v6 : ("check_item".toList = "header".toList) = False := by decide
  have v7 : ("check_item".toList = "show_menu".toList) = False := by decide
  have v8 : ("check_item".toList = "pcur".toList) = False := by decide
  have v9 : ("check_item".toList = "check_items".toList) = False := by decide
  rw [hs, e]
  simp only [v1, v2, v3, v4, v5, v6, v7, v8, v9, ↓reduceIte, on_check_item, t2, Helper.emit,
    hroom]

/-- A first line on which the body of the loop faults ends `runve` with that fault. -/
theorem runve_first_line_fault (A : Actions) (undefined_shift : Int → Nat)
    (usable_slots : Nat → Nat)
    (l rest : List Char) (h : Helper) (hnl : '\n' ∉ l) (hlen : l.length ≤ 98)
    (hline : runve_line A undefined_shift usable_slots (l ++ ['\n']) h = Outcome.fault) :
    runve A undefined_shift usable_slots (l ++ '\n' :: rest) h = Outcome.fault := by
  unfold runve
  have hfuel : (l ++ '\n' :: rest).length = (l.length + rest.length) + 1 := by
    simp only [List.length_append, List.length_cons]; omega
  rw [hfuel]
  simp only [runve_loop, fgets_line l rest hnl hlen, hline]

/-- A verb that reads a number faults on a line that ends behind the verb. -/
theorem runve_line_number_missing (A : Actions) (undefined_shift : Int → Nat)
    (usable_slots : Nat → Nat) (h : Helper) :
    runve_line A undefined_shift usable_slots "* ptotal\n".toList h = Outcome.fault ∧
      runve_line A undefined_shift usable_slots "* pcur\n".toList h = Outcome.fault ∧
      runve_line A undefined_shift usable_slots "* items\n".toList h = Outcome.fault ∧
      runve_line A undefined_shift usable_slots "* headers\n".toList h = Outcome.fault ∧
      runve_line A undefined_shift usable_slots "* check_items\n".toList h = Outcome.fault := by
  have e1 := runve_line_control A undefined_shift usable_slots "ptotal".toList '\n' [] h
    (by decide) (by decide) (by decide) (by decide)
  have e2 := runve_line_control A undefined_shift usable_slots "pcur".toList '\n' [] h
    (by decide) (by decide) (by decide) (by decide)
  have e3 := runve_line_control A undefined_shift usable_slots "items".toList '\n' [] h
    (by decide) (by decide) (by decide) (by decide)
  have e4 := runve_line_control A undefined_shift usable_slots "headers".toList '\n' [] h
    (by decide) (by decide) (by decide) (by decide)
  have e5 := runve_line_control A undefined_shift usable_slots "check_items".toList '\n' [] h
    (by decide) (by decide) (by decide) (by decide)
  have t1 : (strtok [' '] []).token = none := by decide
  have t2 : (strtok ['\n'] []).token = none := by decide
  have t3 : (strtok [' ', '\n'] []).token = none := by decide
  refine ⟨?_, ?_, ?_, ?_, ?_⟩
  · have hs : "* ptotal\n".toList = '*' :: ' ' :: ("ptotal".toList ++ '\n' :: []) := rfl
    rw [hs, e1]
    simp only [↓reduceIte, on_ptotal, t1]
  · have hs : "* pcur\n".toList = '*' :: ' ' :: ("pcur".toList ++ '\n' :: []) := rfl
    have v1 : ("pcur".toList = "ptotal".toList) = False := by decide
    have v2 : ("pcur".toList = "print".toList) = False := by decide
    have v3 : ("pcur".toList = "items".toList) = False := by decide
    have v4 : ("pcur".toList = "item".toList) = False := by decide
    have v5 : ("pcur".toList = "headers".toList) = False := by decide
    have v6 : ("pcur".toList = "header".toList) = False := by decide
    have v7 : ("pcur".toList = "show_menu".toList) = False := by decide
    rw [hs, e2]
    simp only [v1, v2, v3, v4, v5, v6, v7, ↓reduceIte, on_pcur, t2]
  · have hs : "* items\n".toList = '*' :: ' ' :: ("items".toList ++ '\n' :: []) := rfl
    have v1 : ("items".toList = "ptotal".toList) = False := by decide
    have v2 : ("items".toList = "print".toList) = False := by decide
    rw [hs, e3]
    simp only [v1, v2, ↓reduceIte, on_items, t3]
  · have hs : "* headers\n".toList = '*' :: ' ' :: ("headers".toList ++ '\n' :: []) := rfl
    have v1 : ("headers".toList = "ptotal".toList) = False := by decide
    have v2 : ("headers".toList = "print".toList) = False := by decide
    have v3 : ("headers".toList = "items".toList) = False := by decide
    have v4 : ("headers".toList = "item".toList) = False := by decide
    rw [hs, e4]
    simp only [v1, v2, v3, v4, ↓reduceIte, on_headers, t3]
  · have hs : "* check_items\n".toList
        = '*' :: ' ' :: ("check_items".toList ++ '\n' :: []) := rfl
    have v1 : ("check_items".toList = "ptotal".toList) = False := by decide
    have v2 : ("check_items".toList = "print".toList) = False := by decide
    have v3 : ("check_items".toList = "items".toList) = False := by decide
    have v4 : ("check_items".toList = "item".toList) = False := by decide
    have v5 : ("check_items".toList = "headers".toList) = False := by decide
    have v6 : ("check_items".toList = "header".toList) = False := by decide
    have v7 : ("check_items".toList = "show_menu".toList) = False := by decide
    have v8 : ("check_items".toList = "pcur".toList) = False := by decide
    rw [hs, e5]
    simp only [v1, v2, v3, v4, v5, v6, v7, v8, ↓reduceIte, on_check_items, t3]

/-- The line `* item` without a text faults when a slot is free. -/
theorem runve_line_item_missing (A : Actions) (undefined_shift : Int → Nat)
    (usable_slots : Nat → Nat) (h : Helper)
    (hroom : ((h.items.getD []).length : Int) < h.num_items) :
    runve_line A undefined_shift usable_slots "* item\n".toList h = Outcome.fault := by
  have e := runve_line_control A undefined_shift usable_slots "item".toList '\n' [] h
    (by decide) (by decide) (by decide) (by decide)
  have hs : "* item\n".toList = '*' :: ' ' :: ("item".toList ++ '\n' :: []) := rfl
  have t2 : (strtok ['\n'] []).token = none := by decide
  have v1 : ("item".toList = "ptotal".toList) = False := by decide
  have v2 : ("item".toList = "print".toList) = False := by decide
  have v3 : ("item".toList = "items".toList) = False := by decide
  rw [hs, e]
  simp only [v1, v2, v3, ↓reduceIte, on_item, t2, Helper.emit, hroom]

/-- The line `* print` without a text gives a NULL pointer to `ui_print`. -/
theorem runve_line_print_missing (A : Actions) (undefined_shift : Int → Nat)
    (usable_slots : Nat → Nat) (h : Helper) :
    runve_line A undefined_shift usable_slots "* print\n".toList h =
      Outcome.running
        ((h.emit (HelperEvent.printf "* print\n".toList)).emit (HelperEvent.ui_print none)) := by
  have e := runve_line_control A undefined_shift usable_slots "print".toList '\n' [] h
    (by decide) (by decide) (by decide) (by decide)
  have hs : "* print\n".toList = '*' :: ' ' :: ("print".toList ++ '\n' :: []) := rfl
  have t : (strtok [] []).token = none := by decide
  have hc : cstr "* print\n".toList = "* print\n".toList := by decide
  have v1 : ("print".toList = "ptotal".toList) = False := by decide
  rw [hs, e, ← hs, hc]
  simp only [v1, ↓reduceIte, on_print, t]

/-- C13. Lines that carry a verb without its argument are not skipped. Whatever `runve`
has read before and whatever follows, the lines `* ptotal`, `* pcur`, `* items`,
`* headers` and `* check_items` without a number make it fault (`atoi` of a NULL pointer),
the line `* item` without a text faults right after `* items 1` and the line `* check_item`
without a text right after `* check_items 1` (`strlen` of a NULL pointer), and the line
`* print` without a text calls `ui_print` with a NULL pointer as the text. -/
theorem runve_missing_argument_faults (A : Actions) (undefined_shift : Int → Nat)
    (usable_slots : Nat → Nat)
    (h : Helper) (rest : List Char) :
    runve A undefined_shift usable_slots ("* ptotal\n".toList ++ rest) h = Outcome.fault ∧
      runve A undefined_shift usable_slots ("* pcur\n".toList ++ rest) h = Outcome.fault ∧
      runve A undefined_shift usable_slots ("* items\n".toList ++ rest) h = Outcome.fault ∧
      runve A undefined_shift usable_slots ("* headers\n".toList ++ rest) h = Outcome.fault ∧
      runve A undefined_shift usable_slots ("* check_items\n".toList ++ rest) h = Outcome.fault ∧
      runve A undefined_shift usable_slots ("* items 1\n* item\n".toList ++ rest) h = Outcome.fault ∧
      runve A undefined_shift usable_slots ("* check_items 1\n* check_item\n".toList ++ rest) h
        = Outcome.fault ∧
      runve_line A undefined_shift usable_slots "* print\n".toList h =
        Outcome.running
          ((h.emit (HelperEvent.printf "* print\n".toList)).emit
            (HelperEvent.ui_print none)) := by
  obtain ⟨l1, l2, l3, l4, l5⟩ := runve_line_number_missing A undefined_shift usable_slots h
  refine ⟨?_, ?_, ?_, ?_, ?_, ?_, ?_, runve_line_print_missing A undefined_shift usable_slots h⟩
  · exact runve_first_line_fault A undefined_shift usable_slots "* ptotal".toList rest h (by decide)
      (by decide) l1
  · exact runve_first_line_fault A undefined_shift usable_slots "* pcur".toList rest h (by decide)
      (by decide) l2
  · exact runve_first_line_fault A undefined_shift usable_slots "* items".toList rest h (by decide)
      (by decide) l3
  · exact runve_first_line_fault A undefined_shift usable_slots "* headers".toList rest h (by decide)
      (by decide) l4
  · exact runve_first_line_fault A undefined_shift usable_slots "* check_items".toList rest h (by decide)
      (by decide) l5
  · have hitems := runve_line_items A undefined_shift usable_slots 1 h
    have hd : decimal ((1 : Nat) : Int) = ['1'] := by decide
    rw [hd] at hitems
    have hfuel : ("* items 1\n* item\n".toList ++ rest).length = (rest.length + 15) + 1 + 1 := by
      have : "* items 1\n* item\n".toList.length = 17 := by decide
      simp only [List.length_append, this]; omega
    have hshape : "* items 1\n* item\n".toList ++ rest
        = "* items 1".toList ++ '\n' :: ("* item".toList ++ '\n' :: rest) := rfl
    unfold runve
    rw [hfuel, hshape,
      runve_loop_line A undefined_shift usable_slots _ "* items 1".toList _ h _ (by decide) (by decide)
        hitems]
    simp only [runve_loop, fgets_line "* item".toList rest (by decide) (by decide)]
    rw [show "* item".toList ++ ['\n'] = "* item\n".toList from rfl,
      runve_line_item_missing A undefined_shift usable_slots _ (by simp)]
  · have hchks := runve_line_check_items A undefined_shift usable_slots 1 h
    have hd : decimal ((1 : Nat) : Int) = ['1'] := by decide
    rw [hd] at hchks
    have hfuel : ("* check_items 1\n* check_item\n".toList ++ rest).length
        = (rest.length + 27) + 1 + 1 := by
      have : "* check_items 1\n* check_item\n".toList.length = 29 := by decide
      simp only [List.length_append, this]; omega
    have hshape : "* check_items 1\n* check_item\n".toList ++ rest
        = "* check_items 1".toList ++ '\n' :: ("* check_item".toList ++ '\n' :: rest) := rfl
    unfold runve
    rw [hfuel, hshape,
      runve_loop_line A undefined_shift usable_slots _ "* check_items 1".toList _ h _ (by decide)
        (by decide) hchks]
    simp only [runve_loop, fgets_line "* check_item".toList rest (by decide) (by decide)]
    rw [show "* check_item".toList ++ ['\n'] = "* check_item\n".toList from rfl,
      runve_line_check_item_missing A undefined_shift usable_slots _ (by simp)]

end Recovery
